import Mathlib

/-!
# IgorFuzz: the bitmap and crash-site routines of `afl-fuzz-bitmap.c`

A shallow embedding of the routines of `src/engine/src/afl-fuzz-bitmap.c`
(`count_bits`, `count_bytes`, the lookup tables and `init_count_class16`,
`has_new_bits`, `has_few_bits`, `minimize_bits`, `find_crash_site`,
`describe_op`, `write_crash_detail`, `same_crash_site` and the IgorFuzz build
of `save_if_interesting`) together with theorems about them.

Conventions of the embedding.

* A byte (`u8`) is a `Nat` below `256`; a byte buffer (`u8 *`) is a `List Nat`.
* A machine word read through a `u32 *` / `u64 *` is the little-endian value
  of the bytes it covers (`loadLE`); word arithmetic is reduced modulo
  `2 ^ 32` / `2 ^ 64` where the C code can wrap.
* A pointer walking over a buffer (`current++`, `virgin++`) is the suffix of
  the buffer that is still ahead of it; the words already passed are
  re-attached in front of the result.
* The compile-time switch `WORD_SIZE_64` is the Boolean parameter `w64`.
* A C string is a `List Char`, a pointer that may be null an `Option`.
* Constants of headers outside the sources at hand are the fields of
  `callstack_config` and `fuzz_config`; functions defined outside them are the
  fields of `collaborators`. A call that ends the process (`FATAL`, `PFATAL`) is
  the result `none` or `outcome.aborted`.
-/

namespace IgorFuzz

/-! ## Machine words over byte buffers -/

/-- Value of a machine word stored at the given bytes, least significant
byte first (what `*(u32 *)p` / `*(u64 *)p` reads on a little-endian host). -/
def loadLE : List Nat → Nat
  | [] => 0
  | b :: bs => b + 256 * loadLE bs

/-- Number of bytes of the scanning word: `u64` under `WORD_SIZE_64`, else `u32`. -/
def wordBytes (w64 : Bool) : Nat := if w64 then 8 else 4

/-- Number of words scanned by `has_new_bits` / `has_few_bits`:
`(real_map_size + 7) >> 3` under `WORD_SIZE_64`, else `(real_map_size + 3) >> 2`,
computed in `u32`. -/
def scanWords (w64 : Bool) (real_map_size : Nat) : Nat :=
  if w64 then ((real_map_size + 7) % 2 ^ 32) >>> 3
  else ((real_map_size + 3) % 2 ^ 32) >>> 2

/-- The `j`-th scanning word of a buffer: `((u64 *)buf)[j]` under `WORD_SIZE_64`,
else `((u32 *)buf)[j]`. -/
def wordAt (w64 : Bool) (buf : List Nat) (j : Nat) : Nat :=
  loadLE ((buf.drop (wordBytes w64 * j)).take (wordBytes w64))

/-! ## Fuzzer state -/

/-- Which virgin map a `u8 *virgin_map` argument points to. -/
inductive VirginMap where
  | virgin_bits
  | virgin_tmout
  | virgin_crash
  deriving DecidableEq, Repr

/-- The fields of `afl_state_t` that the bitmap routines read or write. -/
structure afl_state where
  /-- Field `fsrv.real_map_size` (`u32`). -/
  real_map_size : Nat
  /-- Field `fsrv.trace_bits`: the trace of the last execution. -/
  trace_bits : List Nat
  /-- Field `fsrv.actual_counts`: total hit count of the last execution. -/
  actual_counts : Nat
  /-- Field `virgin_bits`. -/
  virgin_bits : List Nat
  /-- Field `virgin_tmout`. -/
  virgin_tmout : List Nat
  /-- Field `virgin_crash`. -/
  virgin_crash : List Nat
  /-- Field `bitmap_changed`: the dirty flag read by `write_bitmap`. -/
  bitmap_changed : Nat
  /-- Whether the pointer `testcase_matrix` is non-null. -/
  testcase_matrix : Bool
  /-- Field `min_bitmap_size`. -/
  min_bitmap_size : Nat
  /-- Field `min_actual_cnts`. -/
  min_actual_cnts : Nat
  deriving DecidableEq, Repr

/-- Dereference a `virgin_map` argument. -/
def afl_state.getVirgin (afl : afl_state) : VirginMap → List Nat
  | .virgin_bits => afl.virgin_bits
  | .virgin_tmout => afl.virgin_tmout
  | .virgin_crash => afl.virgin_crash

/-- Store through a `virgin_map` argument. -/
def afl_state.setVirgin (afl : afl_state) (m : VirginMap) (v : List Nat) : afl_state :=
  match m with
  | .virgin_bits => { afl with virgin_bits := v }
  | .virgin_tmout => { afl with virgin_tmout := v }
  | .virgin_crash => { afl with virgin_crash := v }

/-! ## `count_bytes` -/

/-- Loop of `count_bytes`: `while (i--) { u32 v = *(ptr++); ... }`. -/
def count_bytes_loop : Nat → List Nat → Nat → Nat
  | 0, _, ret => ret
  | i + 1, mem, ret =>
    let v := loadLE (mem.take 4)
    let ret :=
      if v = 0 then ret
      else
        let ret := if v &&& 0x000000ff ≠ 0 then (ret + 1) % 2 ^ 32 else ret
        let ret := if v &&& 0x0000ff00 ≠ 0 then (ret + 1) % 2 ^ 32 else ret
        let ret := if v &&& 0x00ff0000 ≠ 0 then (ret + 1) % 2 ^ 32 else ret
        if v &&& 0xff000000 ≠ 0 then (ret + 1) % 2 ^ 32 else ret
    count_bytes_loop i (mem.drop 4) ret

/-- Function `count_bytes(afl, mem)`: the number of bytes set in the bitmap. -/
def count_bytes (afl : afl_state) (mem : List Nat) : Nat :=
  count_bytes_loop (((afl.real_map_size + 3) % 2 ^ 32) >>> 2) mem 0

/-! ## `has_new_bits` -/

/-- Modelled from the spec: one byte position of `discover_word`, whose source
(`coverage-64.h` / `coverage-32.h`) is not part of the sources at hand.
Compares `current_byte & virgin_byte`: zero means no novelty and the byte is
skipped; non-zero with the virgin byte still `0xFF` is a new tuple (class `2`);
otherwise a new hit count (class `1`, unless a `2` was already seen). The
virgin byte becomes `virgin_byte & ~current_byte`. -/
def discover_byte (ret cur vir : Nat) : Nat × Nat :=
  if cur &&& vir = 0 then (ret, vir)
  else if vir = 0xFF then (2, vir &&& (0xFF - cur))
  else (if ret = 2 then 2 else 1, vir &&& (0xFF - cur))

/-- Modelled from the spec: `discover_word(&ret, current, virgin)`, whose source
(`coverage-64.h` / `coverage-32.h`) is not part of the sources at hand: the
byte rule `discover_byte` at each byte position of the word. -/
def discover_word : Nat → List Nat → List Nat → Nat × List Nat
  | ret, c :: cs, v :: vs =>
    let r := discover_byte ret c v
    let rest := discover_word r.1 cs vs
    (rest.1, r.2 :: rest.2)
  | ret, _, vs => (ret, vs)

/-- Loop of `has_new_bits`:
`while (i--) { if (*current) discover_word(&ret, current, virgin); current++; virgin++; }`.
Returns `ret` and the virgin buffer. -/
def has_new_bits_loop (w64 : Bool) : Nat → List Nat → List Nat → Nat → Nat × List Nat
  | 0, _, virgin, ret => (ret, virgin)
  | i + 1, current, virgin, ret =>
    let cw := current.take (wordBytes w64)
    let vw := virgin.take (wordBytes w64)
    let r := if loadLE cw ≠ 0 then discover_word ret cw vw else (ret, vw)
    let rest := has_new_bits_loop w64 i (current.drop (wordBytes w64))
      (virgin.drop (wordBytes w64)) r.1
    (rest.1, r.2 ++ rest.2)

/-- Function `has_new_bits(afl, virgin_map)`: returns the class and the new state. -/
def has_new_bits (w64 : Bool) (afl : afl_state) (virgin_map : VirginMap) : Nat × afl_state :=
  let r := has_new_bits_loop w64 (scanWords w64 afl.real_map_size) afl.trace_bits
    (afl.getVirgin virgin_map) 0
  let afl := afl.setVirgin virgin_map r.2
  let afl :=
    if r.1 ≠ 0 ∧ virgin_map = VirginMap.virgin_bits then { afl with bitmap_changed := 1 }
    else afl
  (r.1, afl)

/-! ## `has_few_bits` -/

/-- The byte test `vir[k] != 0xff && cur[k] == 0x0` of `has_few_bits`. -/
def dropped (vir cur : Nat) : Bool := vir != 0xff && cur == 0x0

/-- The byte store `if (vir[k] != 0xff && cur[k] == 0x0) { vir[k] = 0xff; }`. -/
def reset_byte (vir cur : Nat) : Nat := if dropped vir cur then 0xff else vir

/-- Flags and buffer carried through the scan of `has_few_bits`. -/
structure few_scan where
  /-- Local `cov_decrease`. -/
  cov_decrease : Nat
  /-- Local `hcn_decrease`. -/
  hcn_decrease : Nat
  /-- The virgin buffer. -/
  virgin : List Nat
  deriving DecidableEq, Repr

/-- Body of the loop of `has_few_bits` on one word (`cw` the bytes of `*current`,
`vw` the bytes of `*virgin`): when the virgin word is not all ones, raise
`hcn_decrease` if `(*current & *virgin)` is non-zero and the hit-count sum is
below the minimum; then, if some byte of the word is `dropped`, reset each such
virgin byte to `0xff` and raise `cov_decrease`. -/
def has_few_bits_word (w64 : Bool) (afl : afl_state) (cw vw : List Nat) (cov hcn : Nat) :
    few_scan :=
  if (loadLE vw + 1) % 2 ^ (8 * wordBytes w64) ≠ 0 then
    let hcn :=
      if (loadLE cw &&& loadLE vw) ≠ 0 ∧ afl.actual_counts < afl.min_actual_cnts then 1
      else hcn
    if (List.zipWith dropped vw cw).any id then
      ⟨1, hcn, List.zipWith reset_byte vw cw⟩
    else ⟨cov, hcn, vw⟩
  else ⟨cov, hcn, vw⟩

/-- Loop of `has_few_bits`: `while (i--) { ...; current++; virgin++; }`. -/
def has_few_bits_loop (w64 : Bool) (afl : afl_state) :
    Nat → List Nat → List Nat → Nat → Nat → few_scan
  | 0, _, virgin, cov, hcn => ⟨cov, hcn, virgin⟩
  | i + 1, current, virgin, cov, hcn =>
    let step := has_few_bits_word w64 afl (current.take (wordBytes w64))
      (virgin.take (wordBytes w64)) cov hcn
    let rest := has_few_bits_loop w64 afl i (current.drop (wordBytes w64))
      (virgin.drop (wordBytes w64)) step.cov_decrease step.hcn_decrease
    ⟨rest.cov_decrease, rest.hcn_decrease, step.virgin ++ rest.virgin⟩

/-- Local `bms_decrease` of `has_few_bits`:
`if (cur_bitmap_size < afl->min_bitmap_size) bms_decrease = 1;`. -/
def bms_decrease (afl : afl_state) : Nat :=
  if count_bytes afl afl.trace_bits < afl.min_bitmap_size then 1 else 0

/-- The scan of `has_few_bits` on the map passed, from the start of both buffers. -/
def few_bits_scan (w64 : Bool) (afl : afl_state) (virgin_map : VirginMap) : few_scan :=
  has_few_bits_loop w64 afl (scanWords w64 afl.real_map_size) afl.trace_bits
    (afl.getVirgin virgin_map) 0 0

/-- Function `has_few_bits(afl, virgin_map)`: returns the class and the new state. -/
def has_few_bits (w64 : Bool) (afl : afl_state) (virgin_map : VirginMap) : Nat × afl_state :=
  if !afl.testcase_matrix then has_new_bits w64 afl virgin_map
  else
    let bms := bms_decrease afl
    let r := few_bits_scan w64 afl virgin_map
    let afl1 := afl.setVirgin virgin_map r.virgin
    let afl2 := if r.cov_decrease ≠ 0 then { afl1 with bitmap_changed := 1 } else afl1
    let ret := 0x10
    let ret := (ret + (bms <<< 2)) % 256
    let ret := (ret + (r.cov_decrease <<< 1)) % 256
    let ret := (ret + r.hcn_decrease) % 256
    (ret, afl2)

/-! ## Concrete states used in the examples -/

/-- An eight-byte state with the given trace and `virgin_bits`. -/
def mkState (matrix : Bool) (trace virgin : List Nat) (min_bms min_cnts cnts : Nat) : afl_state :=
  { real_map_size := 8, trace_bits := trace, actual_counts := cnts, virgin_bits := virgin,
    virgin_tmout := List.replicate 8 0xff, virgin_crash := List.replicate 8 0xff,
    bitmap_changed := 0, testcase_matrix := matrix, min_bitmap_size := min_bms,
    min_actual_cnts := min_cnts }

/-- Boundary scenario 1: all-`0xFF` virgin map, trace `[00 01 00 00 00 00 00 00]`,
no testcase matrix. -/
def scenario1 : afl_state :=
  mkState false [0, 1, 0, 0, 0, 0, 0, 0] (List.replicate 8 0xFF) 0 0 0

/-- Boundary scenario 2: the state left by `has_new_bits` on `scenario1`, with the
next trace `[00 02 00 00 00 00 00 00]`. -/
def scenario2 (w64 : Bool) : afl_state :=
  { (has_new_bits w64 scenario1 VirginMap.virgin_bits).2 with
    trace_bits := [0, 2, 0, 0, 0, 0, 0, 0] }

/-- Boundary scenario 3: matrix present, `min_bitmap_size = 3`, `min_actual_cnts = 10`,
`actual_counts = 7`, virgin `[FF FC FC FF FF FF FF FF]`, trace `[00 00 04 00 00 00 00 00]`. -/
def scenario3 : afl_state :=
  mkState true [0, 0, 4, 0, 0, 0, 0, 0] [0xFF, 0xFC, 0xFC, 0xFF, 0xFF, 0xFF, 0xFF, 0xFF] 3 10 7

/-- A hit on an edge the virgin map has never seen: matrix present, all-`0xFF`
virgin map, trace `[01 00 00 00 00 00 00 00]`, hit-count sum `7` below the minimum `10`. -/
def untouchedHit : afl_state :=
  mkState true [1, 0, 0, 0, 0, 0, 0, 0] (List.replicate 8 0xFF) 3 10 7

/-- A changed hit count on a known edge: matrix present, virgin
`[FE FF FF FF FF FF FF FF]` (edge 0 seen with count class `01`), trace
`[02 00 00 00 00 00 00 00]`. -/
def changedCount : afl_state :=
  mkState true [2, 0, 0, 0, 0, 0, 0, 0] [0xFE, 0xFF, 0xFF, 0xFF, 0xFF, 0xFF, 0xFF, 0xFF] 3 10 7

/-! ## `count_bits` -/

/-- Loop of `count_bits`: `while (i--) { u32 v = *(ptr++); ... }`, with the
all-ones fast path and the 32-bit SWAR population count; every operation is
reduced modulo `2 ^ 32` as on `u32`. -/
def count_bits_loop : Nat → List Nat → Nat → Nat
  | 0, _, ret => ret
  | i + 1, mem, ret =>
    let v := loadLE (mem.take 4)
    let ret :=
      if v = 0xffffffff then (ret + 32) % 2 ^ 32
      else
        let v := (v + 2 ^ 32 - ((v >>> 1) &&& 0x55555555)) % 2 ^ 32
        let v := ((v &&& 0x33333333) + ((v >>> 2) &&& 0x33333333)) % 2 ^ 32
        (ret + (((((v + (v >>> 4)) % 2 ^ 32) &&& 0xF0F0F0F) * 0x01010101) % 2 ^ 32) >>> 24) %
          2 ^ 32
    count_bits_loop i (mem.drop 4) ret

/-- Function `count_bits(afl, mem)`: the number of bits set in the bitmap. -/
def count_bits (afl : afl_state) (mem : List Nat) : Nat :=
  count_bits_loop (((afl.real_map_size + 3) % 2 ^ 32) >>> 2) mem 0

/-- Number of `1` bits of a byte. -/
def popcount8 (b : Nat) : Nat :=
  ((List.range 8).filter (fun i => b.testBit i)).length

/-- Population count of a bitmap: the sum over its bytes of their `1` bits. -/
def popcount (mem : List Nat) : Nat := (mem.map popcount8).sum

/-- Number of non-zero bytes of a bitmap. -/
def nonzeroBytes (mem : List Nat) : Nat := mem.countP (fun b => b != 0)

/-- First SWAR step of `count_bits` on one byte: `b - ((b >> 1) & 0x55)`, the
sums of adjacent bit pairs. -/
def swarPairs (b : Nat) : Nat := b - ((b / 2) &&& 0x55)

/-- Second SWAR step of `count_bits` on one byte: `(c & 0x33) + ((c >> 2) & 0x33)`,
the sums per nibble. -/
def swarNibbles (c : Nat) : Nat := (c &&& 0x33) + ((c / 4) &&& 0x33)

/-- A 512 MiB map: `real_map_size = 2 ^ 29`. -/
def hugeMap : afl_state :=
  { real_map_size := 2 ^ 29, trace_bits := [], actual_counts := 0, virgin_bits := [],
    virgin_tmout := [], virgin_crash := [], bitmap_changed := 0, testcase_matrix := false,
    min_bitmap_size := 0, min_actual_cnts := 0 }

/-! ## Lookup tables -/

/-- Table `simplify_lookup[256] = { [0] = 1, [1 ... 255] = 128 }`. -/
def simplify_lookup (v : Nat) : Nat :=
  if v = 0 then 1 else if v ≤ 255 then 128 else 0

/-- Table `count_class_lookup8[256]`:
`[0] = 0, [1] = 1, [2] = 2, [3] = 4, [4 ... 7] = 8, [8 ... 15] = 16,
[16 ... 31] = 32, [32 ... 127] = 64, [128 ... 255] = 128`. -/
def count_class_lookup8 (v : Nat) : Nat :=
  if v = 0 then 0
  else if v = 1 then 1
  else if v = 2 then 2
  else if v = 3 then 4
  else if v ≤ 7 then 8
  else if v ≤ 15 then 16
  else if v ≤ 31 then 32
  else if v ≤ 127 then 64
  else if v ≤ 255 then 128
  else 0

/-- The store `table[idx] = val` on an array of `u16`; an entry no store has
reached is `none`. -/
def store16 (table : Nat → Option Nat) (idx val : Nat) : Nat → Option Nat :=
  fun i => if i = idx then some (val % 2 ^ 16) else table i

/-- Function `init_count_class16()` on the array `count_class_lookup16`:
`for (b1 = 0; b1 < 256; b1++) for (b2 = 0; b2 < 256; b2++)
   count_class_lookup16[(b1 << 8) + b2] =
     (count_class_lookup8[b1] << 8) | count_class_lookup8[b2];`. -/
def init_count_class16 (table : Nat → Option Nat) : Nat → Option Nat :=
  (List.range 256).foldl
    (fun t b1 =>
      (List.range 256).foldl
        (fun t b2 =>
          store16 t ((b1 <<< 8) + b2)
            ((count_class_lookup8 b1 <<< 8) ||| count_class_lookup8 b2))
        t)
    table

/-- Array `count_class_lookup16[65536]` as it stands after `init_count_class16()`
(a global, zero until stored to). -/
def count_class_lookup16 (idx : Nat) : Nat :=
  (init_count_class16 (fun _ => none) idx).getD 0

/-- Modelled from the spec: `classify_counts`, whose source (`coverage-64.h` /
`coverage-32.h`) is not part of the sources at hand. It "applies the 16-bit
table in place to the whole trace bitmap": each 16-bit word of the buffer is
replaced by its entry of `count_class_lookup16`. -/
def classify_counts : List Nat → List Nat
  | lo :: hi :: rest =>
    (count_class_lookup16 (loadLE [lo, hi]) % 256) ::
      (count_class_lookup16 (loadLE [lo, hi]) / 256 % 256) :: classify_counts rest
  | rest => rest

/-! ## `minimize_bits` -/

/-- Loop of `minimize_bits`:
`while (i < map_size) { if (*(src++)) { dst[i >> 3] |= 1 << (i & 7); } ++i; }`.
The first argument is the number of iterations left, `map_size - i`; the store
to the `u8` array keeps the low eight bits. -/
def minimize_bits_loop : Nat → Nat → List Nat → List Nat → List Nat
  | 0, _, dst, _ => dst
  | n + 1, i, dst, src =>
    let dst :=
      if src.headD 0 ≠ 0 then
        dst.set (i >>> 3) ((dst.getD (i >>> 3) 0 ||| (1 <<< (i &&& 7))) % 256)
      else dst
    minimize_bits_loop n (i + 1) dst src.tail

/-- Function `minimize_bits(afl, dst, src)`, with `map_size` for
`afl->fsrv.map_size`: returns the buffer `dst`. -/
def minimize_bits (map_size : Nat) (dst src : List Nat) : List Nat :=
  minimize_bits_loop map_size 0 dst src

/-! ## The call stack: `find_crash_site` -/

/-- C library `strstr(hay, needle)`: the offset of the first occurrence of
`needle` in `hay`, or `none` for a null result. -/
def strstr : List Char → List Char → Option Nat
  | [], needle => if needle = [] then some 0 else none
  | c :: cs, needle =>
    if needle.isPrefixOf (c :: cs) then some 0 else (strstr cs needle).map (· + 1)

/-- C library `strrchr(s, c)`: the offset of the last occurrence of `c` in `s`,
or `none` for a null result. -/
def strrchr : List Char → Char → Option Nat
  | [], _ => none
  | x :: xs, c =>
    match strrchr xs c with
    | some i => some (i + 1)
    | none => if x = c then some 0 else none

/-- Value of a hexadecimal digit, if the character is one. -/
def hexDigit (c : Char) : Option Nat :=
  if '0' ≤ c ∧ c ≤ '9' then some (c.toNat - '0'.toNat)
  else if 'a' ≤ c ∧ c ≤ 'f' then some (c.toNat - 'a'.toNat + 10)
  else if 'A' ≤ c ∧ c ≤ 'F' then some (c.toNat - 'A'.toNat + 10)
  else none

/-- The digits phase of `strtoul`: accumulate hexadecimal digits up to the first
character that is not one. -/
def hexDigits : Nat → List Char → Nat
  | acc, [] => acc
  | acc, c :: cs =>
    match hexDigit c with
    | some d => hexDigits (16 * acc + d) cs
    | none => acc

/-- C library `strtoul(s, NULL, 16)` with a 64-bit `unsigned long`: skip white
space, take an optional sign and an optional `0x` / `0X` that a digit follows,
read the digits; an overflowing value is `ULONG_MAX`, a minus sign negates. -/
def strtoul16 (s : List Char) : Nat :=
  let s := s.dropWhile (fun c => c = ' ' ∨ ('\t' ≤ c ∧ c ≤ '\r'))
  let neg := s.head? = some '-'
  let s := if s.head? = some '-' ∨ s.head? = some '+' then s.tail else s
  let s :=
    match s with
    | z :: x :: h :: r =>
      if z = '0' ∧ (x = 'x' ∨ x = 'X') ∧ (hexDigit h).isSome then h :: r else s
    | _ => s
  let v := hexDigits 0 s
  if 2 ^ 64 ≤ v then 2 ^ 64 - 1 else if neg then (2 ^ 64 - v) % 2 ^ 64 else v

/-- The compile-time constants of `config.h` that `find_crash_site` uses. -/
structure callstack_config where
  /-- Macro `IGORFUZZ_CALLSTACK_MAX_LINELEN`. -/
  MAX_LINELEN : Nat
  /-- Macro `IGORFUZZ_CALLSTACK_MIN_LINELEN`. -/
  MIN_LINELEN : Nat
  /-- Macro `IGORFUZZ_CALLSTACK_FORMAT_PATH`. -/
  FORMAT_PATH : List Char
  /-- Macro `IGORFUZZ_CALLSTACK_FORMAT_ADDR`. -/
  FORMAT_ADDR : List Char
  /-- Macro `IGORFUZZ_CALLSTACK_EXACT_MODULE`. -/
  EXACT_MODULE : Bool

/-- Array `sym_blacklist_module` of `sym-blacklist.h`. -/
def sym_blacklist_module : List (List Char) :=
  ["libasan".toList, "liblsan".toList, "libubsan".toList, "libclang_rt.".toList]

/-- Array `sym_blacklist_function` of `sym-blacklist.h`. -/
def sym_blacklist_function : List (List Char) :=
  ["__asan".toList, "__lsan".toList, "__sanitizer".toList, "__interceptor".toList,
    "__interception".toList, "__ubsan".toList, "__sancov".toList, "__hwasan".toList,
    "__dfsan".toList, "__dfsw".toList]

/-- A crash site: the out-parameters `*symbol`, `*module`, `*offset` of
`find_crash_site` (`none` for a null pointer). -/
structure crash_site where
  /-- Out-parameter `*symbol`. -/
  symbol : Option (List Char)
  /-- Out-parameter `*module`. -/
  module : Option (List Char)
  /-- Out-parameter `*offset`. -/
  offset : Nat
  deriving DecidableEq, Repr

/-- The "safe init" and the "drop anything found previously" value:
`*symbol = 0; *module = 0; *offset = 0`. -/
def crash_site.empty : crash_site := ⟨none, none, 0⟩

/-- The successive buffers that `fgets(line_buf, size, fp)` returns on a file
until it returns null: at most `size - 1` characters each, ending after a
newline. `acc` is the buffer being filled. -/
def fgets_all (size : Nat) : List Char → List Char → List (List Char)
  | acc, [] => if acc = [] then [] else [acc]
  | acc, c :: cs =>
    if c = '\n' ∨ size ≤ acc.length + 2 then (acc ++ [c]) :: fgets_all size [] cs
    else fgets_all size (acc ++ [c]) cs

/-- Tokenisation of one buffer in `find_crash_site`: drop the newline of a line
longer than `MIN_LINELEN` (else skip), locate the path field after
`FORMAT_PATH` and the address field after `FORMAT_ADDR` (skip when one is
missing or they are out of order). Returns `path_` and `addr_str`. -/
def parse_line (cfg : callstack_config) (line_buf : List Char) :
    Option (List Char × List Char) :=
  if line_buf.length > cfg.MIN_LINELEN ∧ line_buf.getLast? = some '\n' then
    let line := line_buf.dropLast
    match strstr line cfg.FORMAT_PATH with
    | none => none
    | some p =>
      match strstr line cfg.FORMAT_ADDR with
      | none => none
      | some a =>
        if p + cfg.FORMAT_PATH.length ≥ a then none
        else
          some ((line.take a).drop (p + cfg.FORMAT_PATH.length),
            line.drop (a + cfg.FORMAT_ADDR.length))
  else none

/-- The text from the last `/` of a path on (`strrchr(path, '/')`), or the whole
path when it has none. -/
def module_name_of (path : List Char) : List Char :=
  match strrchr path '/' with
  | some i => path.drop i
  | none => path

/-- Local `module_blocked` of `find_crash_site`: under
`IGORFUZZ_CALLSTACK_EXACT_MODULE` the module name differs (`strcmp`) from that
of `afl->fsrv.target_path`; otherwise it contains (`strstr`) an entry of
`sym_blacklist_module`. -/
def module_blocked (cfg : callstack_config) (target_path path_ : List Char) : Bool :=
  if cfg.EXACT_MODULE then decide (module_name_of target_path ≠ module_name_of path_)
  else sym_blacklist_module.any (fun b => (strstr (module_name_of path_) b).isSome)

/-- Local `func_blocked` of `find_crash_site`: the symbol contains an entry of
`sym_blacklist_function`. -/
def func_blocked (func : List Char) : Bool :=
  sym_blacklist_function.any (fun b => (strstr func b).isSome)

/-- One pass of the `while (fgets(...))` body of `find_crash_site`. The
symbolizer (`SanSymTool_addr_send` then `SanSymTool_addr_read(0, ...)`) is the
function `symbolize`, giving `n_sym` and `func` for a path and an address. -/
def find_crash_site_line (cfg : callstack_config) (target_path : List Char)
    (symbolize : List Char → Nat → Nat × Option (List Char))
    (site : crash_site) (line_buf : List Char) : crash_site :=
  match parse_line cfg line_buf with
  | none => site
  | some (path_, addr_str) =>
    if module_blocked cfg target_path path_ then crash_site.empty
    else
      let addr_val := strtoul16 addr_str % 2 ^ 32
      if (symbolize path_ addr_val).1 ≠ 0 then
        match (symbolize path_ addr_val).2 with
        | some func =>
          if func_blocked func then crash_site.empty
          else if site.module.isNone then ⟨some func, some path_, addr_val⟩
          else site
        | none =>
          if site.module.isNone then ⟨none, some path_, addr_val⟩ else site
      else site

/-- Function `find_crash_site(afl, flush, &symbol, &module, &offset)`: the crash
site it stores. `call_stack_file` is the content of the file named by
`afl->fsrv.call_stack_file`, `none` when there is no such name or the file
cannot be opened. -/
def find_crash_site (cfg : callstack_config) (target_path : List Char)
    (symbolize : List Char → Nat → Nat × Option (List Char))
    (call_stack_file : Option (List Char)) : crash_site :=
  match call_stack_file with
  | none => crash_site.empty
  | some content =>
    (fgets_all cfg.MAX_LINELEN [] content).foldl
      (find_crash_site_line cfg target_path symbolize) crash_site.empty

/-- Modelled from the spec: an instance of the call-stack macros of `config.h`,
which is not part of the sources at hand. A frame line carries "a literal
path-field token followed by an image path, a literal address-field token
followed by an address expressed in hexadecimal": here `(` and `+0x`, as in the
frames `(module+0xoffset)` a sanitizer prints; the default module blacklist is
in force. -/
def asanFormat : callstack_config :=
  { MAX_LINELEN := 4096, MIN_LINELEN := 8, FORMAT_PATH := "(".toList,
    FORMAT_ADDR := "+0x".toList, EXACT_MODULE := false }

/-- First frame line of boundary scenario 5: `mytarget+0xaa`. -/
def scenario5Line1 : List Char := "    #0 0x4000aa  (mytarget+0xaa)\n".toList

/-- Second frame line of boundary scenario 5: `libasan+0xbb`. -/
def scenario5Line2 : List Char := "    #1 0x7f00bb  (libasan+0xbb)\n".toList

/-- Third frame line of boundary scenario 5: `mytarget+0xcc`. -/
def scenario5Line3 : List Char := "    #2 0x4000cc  (mytarget+0xcc)\n".toList

/-- Boundary scenario 5: a stack file with the frames `mytarget+0xaa`,
`libasan+0xbb`, `mytarget+0xcc`, in file order. -/
def scenario5File : List Char := scenario5Line1 ++ scenario5Line2 ++ scenario5Line3

/-- A symbolizer that reports one symbol, `main`, for every frame. -/
def symbolizeMain : List Char → Nat → Nat × Option (List Char) :=
  fun _ _ => (1, some "main".toList)

/-- A frame of a call-stack file: the fields `path_` and `addr_str` of a line
that `find_crash_site` tokenises. -/
def frames_of (cfg : callstack_config) (content : List Char) :
    List (List Char × List Char) :=
  (fgets_all cfg.MAX_LINELEN [] content).filterMap (parse_line cfg)

/-- Local `addr_val` of `find_crash_site` for a frame: `strtoul(addr_str, 0, 16)`
stored in a `u32`. -/
def frame_addr (fr : List Char × List Char) : Nat := strtoul16 fr.2 % 2 ^ 32

/-- A frame is blocked: its module name is blocked, or the symbolizer reports a
first symbol for it and that symbol contains a function-blacklist entry. -/
def frame_blocked (cfg : callstack_config) (target_path : List Char)
    (symbolize : List Char → Nat → Nat × Option (List Char))
    (fr : List Char × List Char) : Bool :=
  module_blocked cfg target_path fr.1 ||
    (decide ((symbolize fr.1 (frame_addr fr)).1 ≠ 0) &&
      match (symbolize fr.1 (frame_addr fr)).2 with
      | some func => func_blocked func
      | none => false)

/-- A frame is eligible: it is not blocked and the symbolizer reports at least
one symbol for it. -/
def frame_eligible (cfg : callstack_config) (target_path : List Char)
    (symbolize : List Char → Nat → Nat × Option (List Char))
    (fr : List Char × List Char) : Bool :=
  !frame_blocked cfg target_path symbolize fr &&
    decide ((symbolize fr.1 (frame_addr fr)).1 ≠ 0)

/-- The crash site a frame stands for: the first symbol reported for it, its
image path and its address. -/
def frame_site (symbolize : List Char → Nat → Nat × Option (List Char))
    (fr : List Char × List Char) : crash_site :=
  ⟨(symbolize fr.1 (frame_addr fr)).2, some fr.1, frame_addr fr⟩

/-- The part of a list that comes after its last element satisfying `p` (the
whole list when no element satisfies `p`). -/
def after_last {α : Type} (p : α → Bool) : List α → List α
  | [] => []
  | x :: xs => if xs.any p then after_last p xs else if p x then xs else x :: xs

/-- The first eligible frame that comes after the last blocked frame, as a crash
site; the empty site when there is none. -/
def first_eligible_after_last_blocked (cfg : callstack_config) (target_path : List Char)
    (symbolize : List Char → Nat → Nat × Option (List Char))
    (frames : List (List Char × List Char)) : crash_site :=
  match (after_last (frame_blocked cfg target_path symbolize) frames).find?
      (frame_eligible cfg target_path symbolize) with
  | some fr => frame_site symbolize fr
  | none => crash_site.empty

/-- Boundary scenario 4: a stack file with the frames `libasan.so+0x1234` and
`mytarget+0xdead`, in file order. -/
def scenario4File : List Char :=
  "    #0 0x7f1234  (libasan.so+0x1234)\n    #1 0x40dead  (mytarget+0xdead)\n".toList

/-- The text after the last `/` of a path, or the whole path when it has none. -/
def basename_of (path : List Char) : List Char :=
  match strrchr path '/' with
  | some i => path.drop (i + 1)
  | none => path

/-! ## Comparing crash sites: `same_crash_site` -/

/-- The comparison of `same_crash_site`: `tmp` holds the stored fields saved on
entry (`tmp_sym`, `tmp_mod`, `tmp_ofs`), `cur` the freshly parsed fields of
`afl->fsrv`. The result is the local `is_same`. -/
def is_same (tmp cur : crash_site) : Nat :=
  if tmp.offset ≠ cur.offset then 0
  else if !(tmp.module.isSome && cur.module.isSome) &&
      (tmp.module.isSome || cur.module.isSome) then 0
  else
    match tmp.module, cur.module with
    | some a, some b => if a ≠ b then 0 else 1
    | _, _ => 1

/-! ## Constants of the absent headers -/

/-- The constants, macros and sizes that the functions below use and that are
declared in headers outside the sources at hand (`config.h`, `afl-fuzz.h`,
`forkserver.h`, `limits.h`). Every statement below holds for all their values. -/
structure fuzz_config where
  /-- The call-stack macros of `config.h`. -/
  callstack : callstack_config
  /-- Size `sizeof(afl->describe_op_buf_256)`. -/
  describe_op_buf_size : Nat
  /-- Constant `STAGE_VAL_NONE`. -/
  STAGE_VAL_NONE : Nat
  /-- Constant `STAGE_VAL_BE`. -/
  STAGE_VAL_BE : Nat
  /-- Power schedule `FAST`. -/
  FAST : Nat
  /-- Power schedule `RARE`. -/
  RARE : Nat
  /-- Macro `KEEP_UNIQUE_HANG`. -/
  KEEP_UNIQUE_HANG : Nat
  /-- Macro `N_FUZZ_SIZE`. -/
  N_FUZZ_SIZE : Nat
  /-- Macro `IGORFUZZ_NEW_CRASH_MODE_LV1`. -/
  IGORFUZZ_NEW_CRASH_MODE_LV1 : Nat
  /-- Macro `IGORFUZZ_NEW_CRASH_MODE_LV2`. -/
  IGORFUZZ_NEW_CRASH_MODE_LV2 : Nat
  /-- Macro `IGORFUZZ_NEW_CRASH_MODE_LV3`. -/
  IGORFUZZ_NEW_CRASH_MODE_LV3 : Nat
  /-- Macro `IGORFUZZ_CALLSTACK_NUL_TEXT`. -/
  IGORFUZZ_CALLSTACK_NUL_TEXT : List Char
  /-- Macro `NAME_MAX`. -/
  NAME_MAX : Nat
  /-- Macro `PATH_MAX`. -/
  PATH_MAX : Nat

/-! ## File names: `describe_op` -/

/-- Conversion `%u` (also `%llu`) of `printf`. -/
def fmt_u (n : Nat) : List Char := Nat.toDigits 10 n

/-- Conversion `%06u` of `printf` (also `%06d` and `%06llu` of a value that is
not negative): at least six digits, padded with zeros on the left. -/
def fmt_06u (n : Nat) : List Char :=
  List.replicate (6 - (fmt_u n).length) '0' ++ fmt_u n

/-- Conversion `%d` of `printf`. -/
def fmt_d (i : Int) : List Char :=
  if i < 0 then '-' :: fmt_u i.natAbs else fmt_u i.natAbs

/-- Conversion `%+d` of `printf`. -/
def fmt_plus_d (i : Int) : List Char :=
  (if i < 0 then '-' else '+') :: fmt_u i.natAbs

/-- Conversion `%x` (also `%llx`) of `printf`. -/
def fmt_x (n : Nat) : List Char := Nat.toDigits 16 n

/-- The fields of `afl_state_t` that `describe_op` reads, and the clock. -/
structure describe_state where
  /-- Field `afl->syncing_party` (`none` for a null pointer). -/
  syncing_party : Option (List Char)
  /-- Field `afl->syncing_case`. -/
  syncing_case : Nat
  /-- Field `afl->current_entry`. -/
  current_entry : Nat
  /-- Field `afl->splicing_with`. -/
  splicing_with : Int
  /-- The value of `get_cur_time()`. -/
  cur_time : Nat
  /-- Field `afl->prev_run_time`. -/
  prev_run_time : Nat
  /-- Field `afl->start_time`. -/
  start_time : Nat
  /-- Field `afl->fsrv.total_execs`. -/
  total_execs : Nat
  /-- Hook `afl->current_custom_fuzz->afl_custom_describe` applied to the
  mutator's data, as a function of `size_left`; `none` when there is no current
  custom mutator or it has no such hook. The result is `none` for a null
  pointer. -/
  afl_custom_describe : Option (Nat → Option (List Char))
  /-- Field `afl->stage_short`. -/
  stage_short : List Char
  /-- Field `afl->stage_cur_byte`. -/
  stage_cur_byte : Int
  /-- Field `afl->stage_val_type`. -/
  stage_val_type : Nat
  /-- Field `afl->stage_cur_val`. -/
  stage_cur_val : Int

/-- The part of `describe_op` that writes the description of the operation into
the buffer, before any tag is appended; `none` when it ends in
`FATAL("filename got too long")`. -/
def op_description (K : fuzz_config) (d : describe_state) (is_timeout : Bool)
    (real_max_len : Nat) : Option (List Char) :=
  match d.syncing_party with
  | some party => some ("sync:".toList ++ party ++ ",src:".toList ++ fmt_06u d.syncing_case)
  | none =>
    let ret := "src:".toList ++ fmt_06u d.current_entry
    let ret := if d.splicing_with ≥ 0 then ret ++ '+' :: fmt_06u d.splicing_with.natAbs
      else ret
    let ret := ret ++ ",time:".toList ++
      fmt_u ((d.cur_time + d.prev_run_time + (2 ^ 64 - d.start_time % 2 ^ 64)) % 2 ^ 64) ++
      ",execs:".toList ++ fmt_u d.total_execs
    match d.afl_custom_describe with
    | some hook =>
      let ret := ret ++ [',']
      let size_left : Int := (real_max_len : Int) - ret.length - 5 - 2
      let size_left := if is_timeout then size_left - 6 else size_left
      if size_left ≤ 0 then none
      else
        match hook size_left.toNat with
        | none => some (ret ++ "op:".toList ++ d.stage_short)
        | some [] => some (ret ++ "op:".toList ++ d.stage_short)
        | some custom_description => some (ret ++ custom_description.take size_left.toNat)
    | none =>
      let ret := ret ++ ",op:".toList ++ d.stage_short
      if d.stage_cur_byte ≥ 0 then
        let ret := ret ++ ",pos:".toList ++ fmt_d d.stage_cur_byte
        if d.stage_val_type ≠ K.STAGE_VAL_NONE then
          some (ret ++ ",val:".toList ++
            (if d.stage_val_type = K.STAGE_VAL_BE then "be:".toList else []) ++
            fmt_plus_d d.stage_cur_val)
        else some ret
      else some (ret ++ ",rep:".toList ++ fmt_d d.stage_cur_val)

/-- The `switch (new_bits)` of `describe_op`: the tag it appends for a class. -/
def class_tag (new_bits : Nat) : List Char :=
  if new_bits = 0x02 then ",+cov".toList
  else if new_bits = 0x11 then ",-xxh".toList
  else if new_bits = 0x12 then ",-xcx".toList
  else if new_bits = 0x13 then ",-xch".toList
  else if new_bits = 0x14 then ",-bxx".toList
  else if new_bits = 0x15 then ",-bxh".toList
  else if new_bits = 0x16 then ",-bcx".toList
  else if new_bits = 0x17 then ",-bch".toList
  else []

/-- Function `describe_op(afl, new_bits, max_description_len)`: the string it
returns, `none` when it ends in `FATAL`. The argument `new_bits` is a `u8`. -/
def describe_op (K : fuzz_config) (d : describe_state) (new_bits max_description_len : Nat) :
    Option (List Char) :=
  let is_timeout := decide (new_bits % 256 &&& 0x20 ≠ 0)
  let new_bits := if is_timeout then (new_bits % 256 + 256 - 0x20) % 256 else new_bits % 256
  let real_max_len := min max_description_len K.describe_op_buf_size
  match op_description K d is_timeout real_max_len with
  | none => none
  | some ret =>
    let ret := if is_timeout then ret ++ ",+tout".toList else ret
    let ret := ret ++ class_tag new_bits
    if ret.length ≥ max_description_len then none else some ret

/-- Modelled from the spec: an instance of the constants, for the concrete
evaluations below. The crash-mode tiers are the levels 1, 2 and 3 ("Tier 1:
decrease semantics", "Tier 2: Tier 1 + `@FUNC`", "Tier 3: Tier 2 + crash-site
equality is a prerequisite for admission"); the call-stack macros are those of
`asanFormat`; the other values are samples. -/
def sampleConfig : fuzz_config :=
  { callstack := asanFormat, describe_op_buf_size := 256, STAGE_VAL_NONE := 0,
    STAGE_VAL_BE := 2, FAST := 1, RARE := 6, KEEP_UNIQUE_HANG := 500,
    N_FUZZ_SIZE := 2097152, IGORFUZZ_NEW_CRASH_MODE_LV1 := 1,
    IGORFUZZ_NEW_CRASH_MODE_LV2 := 2, IGORFUZZ_NEW_CRASH_MODE_LV3 := 3,
    IGORFUZZ_CALLSTACK_NUL_TEXT := "NUL".toList, NAME_MAX := 255, PATH_MAX := 4096 }

/-- A state in the havoc stage: entry 3, no splicing, no custom mutator. -/
def havocDescribe : describe_state :=
  { syncing_party := none, syncing_case := 0, current_entry := 3, splicing_with := -1,
    cur_time := 1005, prev_run_time := 0, start_time := 1000, total_execs := 7,
    afl_custom_describe := none, stage_short := "havoc".toList, stage_cur_byte := -1,
    stage_val_type := 0, stage_cur_val := 2 }

/-! ## The fuzzer state of `same_crash_site` and `save_if_interesting` -/

/-- A queue entry (`struct queue_entry`): the fields that the functions below
read or write. -/
structure queue_entry where
  /-- Field `fname`. -/
  fname : List Char
  /-- Field `len`. -/
  len : Nat
  /-- Field `bitmap_size`. -/
  bitmap_size : Nat
  /-- Field `has_new_cov`. -/
  has_new_cov : Nat
  /-- Field `exec_cksum`. -/
  exec_cksum : Nat
  /-- Field `n_fuzz_entry`. -/
  n_fuzz_entry : Nat
  /-- Field `disabled`. -/
  disabled : Nat
  /-- Field `perf_score` (a `double`; the functions below only store zero in
  it, so its values are kept as numbers without a fraction). -/
  perf_score : Nat
  /-- Field `was_fuzzed`. -/
  was_fuzzed : Nat
  deriving DecidableEq, Repr

/-- The fields of `afl_state_t` that `same_crash_site`, `write_crash_detail` and
`save_if_interesting` read or write, next to those of the bitmap routines
(`maps`) and of `describe_op` (`describe`); the files they write are part of the
state. -/
structure fuzzer where
  /-- The bitmaps and the fields that go with them. -/
  maps : afl_state
  /-- The fields that `describe_op` reads. -/
  describe : describe_state
  /-- Field `fsrv.map_size`. -/
  map_size : Nat
  /-- Field `fsrv.target_path`. -/
  target_path : List Char
  /-- The content of the file named by `fsrv.call_stack_file`: `none` when there
  is no such name or the file cannot be opened. -/
  call_stack_file : Option (List Char)
  /-- Field `fsrv.crash_symbol` (`none` for a null pointer). -/
  crash_symbol : Option (List Char)
  /-- Field `fsrv.crash_module` (`none` for a null pointer). -/
  crash_module : Option (List Char)
  /-- Field `fsrv.crash_offset` (`u32`). -/
  crash_offset : Nat
  /-- Field `crash_mode`. -/
  crash_mode : Nat
  /-- Field `schedule`. -/
  schedule : Nat
  /-- Field `afl_env.afl_ignore_timeouts`. -/
  afl_ignore_timeouts : Nat
  /-- Array `n_fuzz` (`u32` cells). -/
  n_fuzz : Nat → Nat
  /-- Field `total_tmouts` (`u64`). -/
  total_tmouts : Nat
  /-- Field `total_crashes` (`u64`). -/
  total_crashes : Nat
  /-- Field `saved_hangs` (`u64`). -/
  saved_hangs : Nat
  /-- Field `saved_crashes` (`u64`). -/
  saved_crashes : Nat
  /-- Field `queued_items` (`u32`). -/
  queued_items : Nat
  /-- Field `queued_with_cov` (`u32`). -/
  queued_with_cov : Nat
  /-- Field `pending_not_fuzzed` (`u32`). -/
  pending_not_fuzzed : Nat
  /-- Field `active_items` (`u32`). -/
  active_items : Nat
  /-- The entry that `queue_top` points to (`none` for a null pointer). -/
  queue_top : Option queue_entry
  /-- Field `queue_cycle`. -/
  queue_cycle : Nat
  /-- Field `fsrv.exec_tmout`. -/
  exec_tmout : Nat
  /-- Field `hang_tmout`. -/
  hang_tmout : Nat
  /-- Field `q_testcase_max_cache_size`. -/
  q_testcase_max_cache_size : Nat
  /-- Field `out_dir`. -/
  out_dir : List Char
  /-- The content of `<out_dir>/crashes/README.txt`: `none` when the file cannot
  be opened for appending. -/
  readme : Option (List Char)
  /-- The files created under `<out_dir>/hangs` and `<out_dir>/queue`, with
  their content. -/
  files : List (List Char × List Nat)
  /-- Field `last_hang_time`. -/
  last_hang_time : Nat
  /-- Field `last_crash_time`. -/
  last_crash_time : Nat
  /-- Field `last_crash_execs`. -/
  last_crash_execs : Nat
  /-- Field `fsrv.nyx_mode`. -/
  nyx_mode : Bool

/-- The stored crash site: the fields `crash_symbol`, `crash_module` and
`crash_offset` of `afl->fsrv`. -/
def fuzzer.stored_site (st : fuzzer) : crash_site :=
  ⟨st.crash_symbol, st.crash_module, st.crash_offset⟩

/-- Store a crash site in the fields `crash_symbol`, `crash_module` and
`crash_offset` of `afl->fsrv`. -/
def fuzzer.store_site (st : fuzzer) (site : crash_site) : fuzzer :=
  { st with crash_symbol := site.symbol, crash_module := site.module,
            crash_offset := site.offset }

/-- The end of `find_crash_site`: `if (flush) { rewind(fp); fprintf(fp, "\n"); }`
on the opened call-stack file, which puts a newline over its first
character. -/
def flush_call_stack (flush : Nat) : Option (List Char) → Option (List Char)
  | none => none
  | some content => if flush ≠ 0 then some ('\n' :: content.drop 1) else some content

/-- The call `find_crash_site(afl, 1, &afl->fsrv.crash_symbol,
&afl->fsrv.crash_module, &afl->fsrv.crash_offset)`. -/
def parse_crash_site (K : fuzz_config)
    (symbolize : List Char → Nat → Nat × Option (List Char)) (st : fuzzer) : fuzzer :=
  { st.store_site (find_crash_site K.callstack st.target_path symbolize st.call_stack_file)
    with call_stack_file := flush_call_stack 1 st.call_stack_file }

/-- Function `write_crash_detail(afl, q)`: one more line in the README of the
crash directory; `none` when it ends in `PFATAL` (the file cannot be opened). -/
def write_crash_detail (K : fuzz_config) (st : fuzzer) (q : queue_entry) : Option fuzzer :=
  match st.readme with
  | none => none
  | some text =>
    let line := "@FILE:".toList ++ q.fname ++ "; @SIZE:".toList ++ fmt_x q.bitmap_size ++
      "; @HITS:".toList ++ fmt_x st.maps.actual_counts ++ "; ".toList
    let line :=
      if st.crash_mode ≥ K.IGORFUZZ_NEW_CRASH_MODE_LV1 then
        match st.crash_module with
        | some m => line ++ "@ADDR:".toList ++ m ++ "+0x".toList ++ fmt_x st.crash_offset ++
            "; ".toList
        | none => line ++ "@ADDR:".toList ++ K.IGORFUZZ_CALLSTACK_NUL_TEXT ++ "; ".toList
      else line
    let line :=
      if st.crash_mode ≥ K.IGORFUZZ_NEW_CRASH_MODE_LV2 then
        match st.crash_symbol with
        | some s => line ++ "@FUNC:".toList ++ s ++ "; ".toList
        | none => line ++ "@FUNC:".toList ++ K.IGORFUZZ_CALLSTACK_NUL_TEXT ++ "; ".toList
      else line
    some { st with readme := some (text ++ line ++ ['\n']) }

/-- A `u32` counter after `--counter`. -/
def dec32 (n : Nat) : Nat := (n + (2 ^ 32 - 1)) % 2 ^ 32

/-- Function `same_crash_site(afl, q, detail, discard)`: the value it returns,
the state and the entry `*q` after it (`q` is `none` for a null pointer); `none`
when it ends in `PFATAL` inside `write_crash_detail`. -/
def same_crash_site (K : fuzz_config)
    (symbolize : List Char → Nat → Nat × Option (List Char)) (st : fuzzer)
    (q : Option queue_entry) (detail discard : Nat) :
    Option (Nat × fuzzer × Option queue_entry) :=
  let tmp := st.stored_site
  let st := parse_crash_site K symbolize st
  if is_same tmp st.stored_site ≠ 0 then some (is_same tmp st.stored_site, st, q)
  else
    match q with
    | none => some (is_same tmp st.stored_site, st.store_site tmp, none)
    | some e =>
      match (if detail ≠ 0 then write_crash_detail K st e else some st) with
      | none => none
      | some st1 =>
        if discard ≠ 0 then
          let e1 := { e with disabled := 1, perf_score := 0 }
          if e1.was_fuzzed = 0 then
            let e2 := { e1 with was_fuzzed := 1 }
            let st2 := { st1 with pending_not_fuzzed := dec32 st1.pending_not_fuzzed }
            let st3 := { st2 with active_items := dec32 st2.active_items }
            some (is_same tmp st.stored_site, st3.store_site tmp, some e2)
          else some (is_same tmp st.stored_site, st1.store_site tmp, some e1)
        else some (is_same tmp st.stored_site, st1.store_site tmp, some e)

/-- A queue entry for the examples: not yet fuzzed unless `was_fuzzed` says so. -/
def sampleEntry (was_fuzzed : Nat) : queue_entry :=
  { fname := "out/queue/id:000003".toList, len := 4, bitmap_size := 3, has_new_cov := 0,
    exec_cksum := 0, n_fuzz_entry := 0, disabled := 0, perf_score := 100,
    was_fuzzed := was_fuzzed }

/-- A fuzzer state for the examples, with the given bitmaps, crash-mode tier,
stored crash site and call-stack file: target `mytarget`, three queued items of
which two are pending, two saved crashes out of four. -/
def mkFuzzer (maps : afl_state) (crash_mode : Nat) (site : crash_site)
    (stack : Option (List Char)) : fuzzer :=
  { maps := maps, describe := havocDescribe, map_size := 8,
    target_path := "mytarget".toList, call_stack_file := stack,
    crash_symbol := site.symbol, crash_module := site.module, crash_offset := site.offset,
    crash_mode := crash_mode, schedule := 0, afl_ignore_timeouts := 0,
    n_fuzz := fun _ => 0, total_tmouts := 0, total_crashes := 4, saved_hangs := 0,
    saved_crashes := 2, queued_items := 3, queued_with_cov := 1, pending_not_fuzzed := 2,
    active_items := 3, queue_top := some (sampleEntry 0), queue_cycle := 1,
    exec_tmout := 1000, hang_tmout := 1000, q_testcase_max_cache_size := 0,
    out_dir := "out".toList, readme := some [], files := [], last_hang_time := 0,
    last_crash_time := 0, last_crash_execs := 0, nyx_mode := false }

/-- The crash site of boundary scenario 4 under the name `start`: symbol
`start`, module `mytarget`, offset `0xdead`. -/
def siteStart : crash_site := ⟨some "start".toList, some "mytarget".toList, 0xdead⟩

/-- A crash site elsewhere in `mytarget`: symbol `main`, offset `0xbeef`. -/
def siteElsewhere : crash_site := ⟨some "main".toList, some "mytarget".toList, 0xbeef⟩

/-! ## The dispatcher: `save_if_interesting` -/

/-- The argument `fault` of `save_if_interesting`, as its `switch` tells the
values apart: `FSRV_RUN_TMOUT`, `FSRV_RUN_CRASH`, `FSRV_RUN_ERROR`, or any other
value (the `default` label). -/
inductive fsrv_fault where
  | FSRV_RUN_TMOUT
  | FSRV_RUN_CRASH
  | FSRV_RUN_ERROR
  | other
  deriving DecidableEq, Repr

/-- The functions that `save_if_interesting` calls and whose source is outside
the sources at hand, as functions of the state they are called in. Every
statement below holds for all of them. -/
structure collaborators where
  /-- The symbolizer behind `find_crash_site`: `n_sym` and `func` for a path and
  an address. -/
  symbolize : List Char → Nat → Nat × Option (List Char)
  /-- The value of `hash64(afl->fsrv.trace_bits, afl->fsrv.map_size, HASH_CONST)`
  for a trace and a size. -/
  hash64 : List Nat → Nat → Nat
  /-- The value of `get_cur_time()`. -/
  get_cur_time : fuzzer → Nat
  /-- Whether `open(fn, O_WRONLY | O_CREAT | O_EXCL, ...)` succeeds. -/
  open_excl : fuzzer → List Char → Bool
  /-- The call `write_to_testcase(afl, &mem, len, fix)`: the state and `mem`
  after it, and its result. -/
  write_to_testcase : fuzzer → List Nat → Nat → Nat → fuzzer × List Nat × Nat
  /-- The call `fuzz_run_target(afl, &afl->fsrv, timeout)`: the state after it
  and its result. -/
  fuzz_run_target : fuzzer → Nat → fuzzer × fsrv_fault
  /-- The call `add_to_queue(afl, fname, len, passed_det)`. -/
  add_to_queue : fuzzer → List Char → Nat → Nat → fuzzer
  /-- The call `calibrate_case(afl, afl->queue_top, mem, handicap, from_queue)`:
  the state after it and its result. -/
  calibrate_case : fuzzer → List Nat → Nat → Nat → fuzzer × fsrv_fault
  /-- The call `queue_testcase_store_mem(afl, afl->queue_top, mem)`. -/
  queue_testcase_store_mem : fuzzer → List Nat → fuzzer
  /-- The block under `afl->fsrv.nyx_mode` that writes the log of the Nyx
  runner; `none` when it ends in `PFATAL`. -/
  nyx_log : fuzzer → Option fuzzer

/-- How a call of `save_if_interesting` ends. -/
inductive outcome where
  /-- The call returns `ret`, leaving the state `st`. -/
  | returned (ret : Nat) (st : fuzzer)
  /-- The call ends the process in `FATAL` or `PFATAL`. -/
  | aborted

/-- The arguments `mem` and `len` and the locals `classified`, `cksum` and
`is_timeout` of `save_if_interesting`. -/
structure locals where
  /-- Argument `mem`. -/
  mem : List Nat
  /-- Argument `len`. -/
  len : Nat
  /-- Local `classified`. -/
  classified : Nat
  /-- Local `cksum`. -/
  cksum : Nat
  /-- Local `is_timeout`. -/
  is_timeout : Nat

/-- How one pass of the `switch` inside `while (1)` ends. -/
inductive switch_result where
  /-- A `return` statement, `FATAL` or `PFATAL`. -/
  | done (o : outcome)
  /-- A `continue`: the `switch` runs again with the new `fault`. -/
  | again (fault : fsrv_fault) (l : locals) (st : fuzzer)
  /-- A `break`: the loop is left and the function returns 0. -/
  | leave (st : fuzzer)

/-- The call `classify_counts(&afl->fsrv)` on the trace of the state. -/
def classify_trace (st : fuzzer) : fuzzer :=
  { st with maps := { st.maps with trace_bits := classify_counts st.maps.trace_bits } }

/-- Modelled from the spec: `simplify_trace(afl, afl->fsrv.trace_bits)`, whose
source (`coverage-64.h` / `coverage-32.h`) is not part of the sources at hand:
"`simplify_trace` applies `simplify_lookup` in place". -/
def simplify_trace (st : fuzzer) : fuzzer :=
  { st with maps := { st.maps with trace_bits := st.maps.trace_bits.map simplify_lookup } }

/-- The block "Update path frequency" of `save_if_interesting`: the locals
`classified` and `cksum` and the state after it. -/
def path_frequency (K : fuzz_config) (W : collaborators) (st : fuzzer) :
    Nat × Nat × fuzzer :=
  if K.FAST ≤ st.schedule ∧ st.schedule ≤ K.RARE then
    let st := classify_trace st
    let cksum := W.hash64 st.maps.trace_bits st.map_size % 2 ^ 64
    let i := cksum % K.N_FUZZ_SIZE
    let st :=
      if st.n_fuzz i < 0xFFFFFFFF then
        { st with n_fuzz := Function.update st.n_fuzz i (st.n_fuzz i + 1) }
      else st
    (1, cksum, st)
  else (0, 0, st)

/-- The value `NAME_MAX - strlen("id:000000,")` (a `size_t`). -/
def name_room (K : fuzz_config) : Nat := (K.NAME_MAX + (2 ^ 64 - 10)) % 2 ^ 64

/-- The end of `case FSRV_RUN_TMOUT`: the hang is written under
`<out_dir>/hangs`. -/
def save_hang (K : fuzz_config) (W : collaborators) (l : locals) (st : fuzzer) :
    switch_result :=
  match describe_op K { st.describe with cur_time := W.get_cur_time st } 0 (name_room K) with
  | none => .done .aborted
  | some desc =>
    let fn := (st.out_dir ++ "/hangs/id:".toList ++ fmt_06u st.saved_hangs ++ [','] ++
      desc).take (K.PATH_MAX - 1)
    if W.open_excl st fn then
      let st := { st with files := st.files ++ [(fn, l.mem.take l.len)] }
      let st := { st with saved_hangs := (st.saved_hangs + 1) % 2 ^ 64 }
      let st := { st with last_hang_time := W.get_cur_time st }
      .leave st
    else .done .aborted

/-- The label `case FSRV_RUN_TMOUT` of the `switch`. -/
def tmout_case (K : fuzz_config) (W : collaborators) (w64 : Bool) (l : locals)
    (st : fuzzer) : switch_result :=
  let st := { st with total_tmouts := (st.total_tmouts + 1) % 2 ^ 64 }
  if st.saved_hangs ≥ K.KEEP_UNIQUE_HANG then .done (.returned 0 st)
  else
    let st := if l.classified = 0 then classify_trace st else st
    let l := { l with classified := 1 }
    let st := simplify_trace st
    let r := has_few_bits w64 st.maps VirginMap.virgin_tmout
    let st := { st with maps := r.2 }
    if r.1 = 0x10 ∨ r.1 = 0x00 then .done (.returned 0 st)
    else
      let l := { l with is_timeout := 0x20 }
      if st.exec_tmout < st.hang_tmout then
        let w1 := W.write_to_testcase st l.mem l.len 0
        let w2 := if w1.2.2 ≠ 0 then w1 else W.write_to_testcase w1.1 w1.2.1 l.len 1
        let l := { l with mem := w2.2.1, len := w2.2.2 }
        let run := W.fuzz_run_target w2.1 w2.1.hang_tmout
        let st := classify_trace run.1
        if run.2 = .FSRV_RUN_CRASH then .again run.2 l st
        else if run.2 ≠ .FSRV_RUN_TMOUT then .again run.2 l st
        else save_hang K W l st
      else save_hang K W l st

/-- The first crash-site check of `case FSRV_RUN_CRASH`: in crash mode
`IGORFUZZ_NEW_CRASH_MODE_LV3` or above the result of
`same_crash_site(afl, NULL, 0, 0)` and the state after it, in a lower crash mode
the value 1 and the state as it is; `none` when the call ends in `PFATAL`. -/
def site_check (K : fuzz_config) (W : collaborators) (st : fuzzer) : Option (Nat × fuzzer) :=
  if st.crash_mode ≥ K.IGORFUZZ_NEW_CRASH_MODE_LV3 then
    (same_crash_site K W.symbolize st none 0 0).map (fun r => (r.1, r.2.1))
  else some (1, st)

/-- The second crash-site check of `case FSRV_RUN_CRASH`, under
`if (unlikely(afl->crash_mode))`: the local `crash_detail_saved` and the state
after it; `none` when `same_crash_site` ends in `PFATAL`. -/
def second_site_check (K : fuzz_config) (W : collaborators) (st : fuzzer) :
    Option (Nat × fuzzer) :=
  if st.crash_mode ≠ 0 then
    if st.crash_mode ≥ K.IGORFUZZ_NEW_CRASH_MODE_LV3 then
      (same_crash_site K W.symbolize st st.queue_top 1 0).map
        (fun r => (if r.1 ≠ 0 then 0 else 1, { r.2.1 with queue_top := r.2.2 }))
    else some (0, parse_crash_site K W.symbolize st)
  else some (0, st)

/-- The statement `if (likely(!crash_detail_saved)) write_crash_detail(afl,
afl->queue_top);`; `none` when it ends the process. -/
def detail_written (K : fuzz_config) (st : fuzzer) (crash_detail_saved : Nat) :
    Option fuzzer :=
  if crash_detail_saved = 0 then
    match st.queue_top with
    | none => none
    | some top => write_crash_detail K st top
  else some st

/-- The end of `case FSRV_RUN_CRASH`, from `++afl->saved_crashes;` to
`return 1;`. -/
def crash_saved (W : collaborators) (st : fuzzer) : outcome :=
  let st := { st with saved_crashes := (st.saved_crashes + 1) % 2 ^ 64 }
  let st := { st with last_crash_time := W.get_cur_time st }
  let st := { st with last_crash_execs := st.describe.total_execs }
  if st.nyx_mode then
    match W.nyx_log st with
    | none => .aborted
    | some st => .returned 1 st
  else .returned 1 st

/-- The crash-detail part of `case FSRV_RUN_CRASH`, from
`u8 crash_detail_saved = 0;` to the `return 1;`. -/
def crash_detail (K : fuzz_config) (W : collaborators) (st : fuzzer) : outcome :=
  match second_site_check K W st with
  | none => .aborted
  | some (crash_detail_saved, st) =>
    match detail_written K st crash_detail_saved with
    | none => .aborted
    | some st => crash_saved W st

/-- The part of `case FSRV_RUN_CRASH` that follows `add_to_queue`, for the entry
`top` that `afl->queue_top` points to, up to the `return 1;`. -/
def calibrate_new_entry (K : fuzz_config) (W : collaborators) (l : locals) (few_bits : Nat)
    (st : fuzzer) (top : queue_entry) : outcome :=
  let top := if few_bits &&& 0x02 ≠ 0 then { top with has_new_cov := 1 } else top
  let st :=
    if few_bits &&& 0x02 ≠ 0 then
      { st with queued_with_cov := (st.queued_with_cov + 1) % 2 ^ 32 }
    else st
  let top := { top with exec_cksum := W.hash64 st.maps.trace_bits st.map_size % 2 ^ 64 }
  let top :=
    if l.cksum ≠ 0 then { top with n_fuzz_entry := l.cksum % K.N_FUZZ_SIZE } else top
  let st :=
    if l.cksum ≠ 0 then
      { st with n_fuzz := Function.update st.n_fuzz (l.cksum % K.N_FUZZ_SIZE) 1 }
    else st
  let st := { st with queue_top := some top }
  let cal := W.calibrate_case st l.mem ((st.queue_cycle + (2 ^ 64 - 1)) % 2 ^ 64) 0
  if cal.2 = .FSRV_RUN_ERROR then .aborted
  else
    crash_detail K W
      (if cal.1.q_testcase_max_cache_size ≠ 0 then W.queue_testcase_store_mem cal.1 l.mem
        else cal.1)

/-- The name `queue_fn` of the file of a new queue entry:
`alloc_printf("%s/queue/id:%06u,%s", afl->out_dir, afl->queued_items, ...)`. -/
def queue_file_name (st : fuzzer) (desc : List Char) : List Char :=
  st.out_dir ++ "/queue/id:".toList ++ fmt_06u st.queued_items ++ [','] ++ desc

/-- The input is written to the file `queue_fn` and `add_to_queue(afl, queue_fn,
len, 0)` is called. -/
def write_and_enqueue (W : collaborators) (l : locals) (st : fuzzer)
    (queue_fn : List Char) : fuzzer :=
  W.add_to_queue { st with files := st.files ++ [(queue_fn, l.mem.take l.len)] }
    queue_fn l.len 0

/-- The part of `case FSRV_RUN_CRASH` that keeps an interesting crash, from the
making of `queue_fn` on. A null `afl->queue_top` after `add_to_queue` is taken
as the end of the process. -/
def enqueue_crash (K : fuzz_config) (W : collaborators) (l : locals) (few_bits : Nat)
    (st : fuzzer) : outcome :=
  match describe_op K { st.describe with cur_time := W.get_cur_time st }
      (few_bits + l.is_timeout) (name_room K) with
  | none => .aborted
  | some desc =>
    if W.open_excl st (queue_file_name st desc) then
      match (write_and_enqueue W l st (queue_file_name st desc)).queue_top with
      | none => .aborted
      | some top =>
        calibrate_new_entry K W l few_bits
          (write_and_enqueue W l st (queue_file_name st desc)) top
    else .aborted

/-- The label `case FSRV_RUN_CRASH` of the `switch`. -/
def crash_case (K : fuzz_config) (W : collaborators) (w64 : Bool) (l : locals)
    (st : fuzzer) : outcome :=
  let st := { st with total_crashes := (st.total_crashes + 1) % 2 ^ 64 }
  match site_check K W st with
  | none => .aborted
  | some (same, st) =>
    if same = 0 then .returned 0 st
    else
      let st := if l.classified ≠ 0 then st else classify_trace st
      let l := { l with classified := 1 }
      let r := has_few_bits w64 st.maps VirginMap.virgin_bits
      let st := { st with maps := r.2 }
      if r.1 = 0x10 ∨ r.1 = 0x00 then .returned 0 st
      else enqueue_crash K W l r.1 st

/-- One pass of `switch (fault)`. -/
def switch_body (K : fuzz_config) (W : collaborators) (w64 : Bool) (fault : fsrv_fault)
    (l : locals) (st : fuzzer) : switch_result :=
  match fault with
  | .FSRV_RUN_TMOUT => tmout_case K W w64 l st
  | .FSRV_RUN_CRASH => .done (crash_case K W w64 l st)
  | .FSRV_RUN_ERROR => .done .aborted
  | .other => .leave st

/-- The loop `while (1) { switch (fault) { ... } break; }` followed by
`return 0;`, run for at most `fuel` passes of the `switch`: `none` when the
passes are used up. -/
def dispatch (K : fuzz_config) (W : collaborators) (w64 : Bool) :
    Nat → fsrv_fault → locals → fuzzer → Option outcome
  | 0, _, _, _ => none
  | fuel + 1, fault, l, st =>
    match switch_body K W w64 fault l st with
    | .done o => some o
    | .again fault l st => dispatch K W w64 fuel fault l st
    | .leave st => some (.returned 0 st)

/-- Function `save_if_interesting(afl, mem, len, fault)` of the IgorFuzz build
(`IGORFUZZ_FEATURE_ENABLE`), with at most `fuel` passes of its `switch`. -/
def save_if_interesting (K : fuzz_config) (W : collaborators) (w64 : Bool) (fuel : Nat)
    (st : fuzzer) (mem : List Nat) (len : Nat) (fault : fsrv_fault) : Option outcome :=
  if len = 0 then some (.returned 0 st)
  else if fault = .FSRV_RUN_TMOUT ∧ st.afl_ignore_timeouts ≠ 0 then some (.returned 0 st)
  else
    let p := path_frequency K W st
    dispatch K W w64 fuel fault ⟨mem, len, p.1, p.2.1, 0⟩ p.2.2

/-- Collaborators for the examples: the symbolizer reports `main`, every file
can be created, and the other functions leave the state as it is, the target
crashing again when it is run. -/
def sampleWorld : collaborators :=
  { symbolize := symbolizeMain, hash64 := fun _ _ => 1, get_cur_time := fun _ => 1005,
    open_excl := fun _ _ => true,
    write_to_testcase := fun st mem len _ => (st, mem, len),
    fuzz_run_target := fun st _ => (st, .FSRV_RUN_CRASH),
    add_to_queue := fun st fname len _ =>
      { st with queued_items := st.queued_items + 1,
                queue_top := some { sampleEntry 0 with fname := fname, len := len } },
    calibrate_case := fun st _ _ _ => (st, .other),
    queue_testcase_store_mem := fun st _ => st,
    nyx_log := fun st => some st }

/-- A trace that shows no decrease: matrix present, the three edges of the
virgin map `[FE FE FE FF FF FF FF FF]` all hit once, bitmap size 3 at the
minimum 3, hit-count sum 12 above the minimum 10. -/
def steadyRun : afl_state :=
  mkState true [1, 1, 1, 0, 0, 0, 0, 0] [0xFE, 0xFE, 0xFE, 0xFF, 0xFF, 0xFF, 0xFF, 0xFF] 3 10 12

/-- A state for a hang that is run again: no testcase matrix, the trace of
boundary scenario 1, an execution timeout of 100 below the hang timeout 1000. -/
def shortTimeout : fuzzer :=
  { mkFuzzer scenario1 0 siteStart none with exec_tmout := 100 }

/-- The locals of `save_if_interesting` at the start of its loop, for a four-byte
input whose trace is already classified. -/
def sampleLocals : locals :=
  { mem := [1, 2, 3, 4], len := 4, classified := 1, cksum := 0, is_timeout := 0 }

/-! ## Byte arithmetic -/

theorem testBit_not8 {c : Nat} (hc : c < 256) (i : Nat) :
    (0xFF - c).testBit i = (decide (i < 8) && !c.testBit i) := by
  have h : (0xFF - c) = 2 ^ 8 - (c + 1) := by omega
  rw [h]
  exact Nat.testBit_two_pow_sub_succ (by simpa using hc) i

theorem testBit_byte_high {v : Nat} (hv : v < 256) {i : Nat} (hi : 8 ≤ i) :
    v.testBit i = false := by
  apply Nat.testBit_lt_two_pow
  calc v < 2 ^ 8 := by simpa using hv
    _ ≤ 2 ^ i := Nat.pow_le_pow_right (by decide) hi

theorem and_not8_of_and_eq_zero {c v : Nat} (hc : c < 256) (hv : v < 256)
    (h : c &&& v = 0) : v &&& (0xFF - c) = v := by
  apply Nat.eq_of_testBit_eq
  intro i
  have hi : (c &&& v).testBit i = false := by rw [h]; simp
  rw [Nat.testBit_and] at hi
  rw [Nat.testBit_and, testBit_not8 hc]
  by_cases h8 : i < 8
  · cases hcb : c.testBit i <;> cases hvb : v.testBit i <;> simp_all
  · rw [testBit_byte_high hv (by omega)]; simp

theorem and_not8_and_self {c : Nat} (hc : c < 256) (v : Nat) :
    c &&& (v &&& (0xFF - c)) = 0 := by
  apply Nat.eq_of_testBit_eq
  intro i
  rw [Nat.testBit_and, Nat.testBit_and, testBit_not8 hc]
  cases c.testBit i <;> simp

theorem and_not8_lt {v : Nat} (hv : v < 256) (c : Nat) : v &&& (0xFF - c) < 256 :=
  Nat.lt_of_le_of_lt Nat.and_le_left hv

theorem and_ff_of_lt {c : Nat} (hc : c < 256) : c &&& 0xFF = c := by
  have h : (0xFF : Nat) = 2 ^ 8 - 1 := by decide
  rw [h, Nat.and_pow_two_sub_one_eq_mod]
  exact Nat.mod_eq_of_lt (by simpa using hc)


/-! ## Words over byte lists -/

theorem loadLE_eq_zero_iff (bs : List Nat) : loadLE bs = 0 ↔ ∀ b ∈ bs, b = 0 := by
  induction bs with
  | nil => simp [loadLE]
  | cons b bs ih =>
    simp only [loadLE, List.mem_cons, forall_eq_or_imp]
    rw [← ih]
    omega

theorem loadLE_lt (bs : List Nat) (h : ∀ b ∈ bs, b < 256) : loadLE bs < 256 ^ bs.length := by
  induction bs with
  | nil => simp [loadLE]
  | cons b bs ih =>
    have hb : b < 256 := h b (List.mem_cons_self _ _)
    have ih1 := ih (fun x hx => h x (List.mem_cons_of_mem _ hx))
    simp only [loadLE, List.length_cons, Nat.pow_succ]
    omega

theorem loadLE_succ_eq_pow (bs : List Nat) (h : ∀ b ∈ bs, b < 256)
    (hall : loadLE bs + 1 = 256 ^ bs.length) : ∀ b ∈ bs, b = 0xFF := by
  induction bs with
  | nil => simp
  | cons b bs ih =>
    have hb : b < 256 := h b (List.mem_cons_self _ _)
    have hbs : ∀ x ∈ bs, x < 256 := fun x hx => h x (List.mem_cons_of_mem _ hx)
    have hlt := loadLE_lt bs hbs
    simp only [loadLE, List.length_cons, Nat.pow_succ] at hall
    have h1 : loadLE bs + 1 = 256 ^ bs.length := by omega
    have h2 : b = 0xFF := by omega
    intro x hx
    rcases List.mem_cons.1 hx with rfl | hx
    · exact h2
    · exact ih hbs h1 x hx

/-- A word whose successor wraps to zero has all its bytes equal to `0xFF`. -/
theorem all_ff_of_succ_wraps (bs : List Nat) (h : ∀ b ∈ bs, b < 256)
    (hw : (loadLE bs + 1) % 256 ^ bs.length = 0) : ∀ b ∈ bs, b = 0xFF := by
  apply loadLE_succ_eq_pow bs h
  have hlt := loadLE_lt bs h
  rcases Nat.lt_or_ge (loadLE bs + 1) (256 ^ bs.length) with h1 | h1
  · rw [Nat.mod_eq_of_lt h1] at hw; omega
  · omega

theorem pow_word (w64 : Bool) : 2 ^ (8 * wordBytes w64) = 256 ^ wordBytes w64 := by
  cases w64 <;> decide


/-! ## Indexing helpers -/

theorem exists_index_cons (P : Nat → Nat → Prop) (c v : Nat) (cs vs : List Nat) :
    (∃ i, i < (c :: cs).length ∧ P ((c :: cs).getD i 0) ((v :: vs).getD i 0)) ↔
      P c v ∨ ∃ i, i < cs.length ∧ P (cs.getD i 0) (vs.getD i 0) := by
  constructor
  · rintro ⟨i, hi, hp⟩
    cases i with
    | zero => exact Or.inl (by simpa using hp)
    | succ i =>
      refine Or.inr ⟨i, by simpa using hi, ?_⟩
      simpa [List.getD_cons_succ] using hp
  · rintro (hp | ⟨i, hi, hp⟩)
    · exact ⟨0, by simp, by simpa using hp⟩
    · exact ⟨i + 1, by simpa using hi, by simpa [List.getD_cons_succ] using hp⟩

theorem forall_index_cons (P : Nat → Nat → Prop) (c v : Nat) (cs vs : List Nat) :
    (∀ i, i < (c :: cs).length → P ((c :: cs).getD i 0) ((v :: vs).getD i 0)) ↔
      P c v ∧ ∀ i, i < cs.length → P (cs.getD i 0) (vs.getD i 0) := by
  constructor
  · intro h
    refine ⟨by simpa using h 0 (by simp), fun i hi => ?_⟩
    simpa [List.getD_cons_succ] using h (i + 1) (by simpa using hi)
  · rintro ⟨h0, hs⟩ i hi
    cases i with
    | zero => simpa using h0
    | succ i => simpa [List.getD_cons_succ] using hs i (by simpa using hi)

theorem getD_zipWith (f : Nat → Nat → Nat) (vs cs : List Nat) (h : vs.length = cs.length)
    (i : Nat) (hi : i < vs.length) :
    (List.zipWith f vs cs).getD i 0 = f (vs.getD i 0) (cs.getD i 0) := by
  induction vs generalizing cs i with
  | nil => simp at hi
  | cons v vs ih =>
    cases cs with
    | nil => simp at h
    | cons c cs =>
      cases i with
      | zero => simp
      | succ i =>
        simp only [List.zipWith_cons_cons, List.getD_cons_succ]
        exact ih cs (by simpa using h) i (by simpa using hi)

theorem getD_lt_of_forall_mem (l : List Nat) (h : ∀ b ∈ l, b < 256) (i : Nat) :
    l.getD i 0 < 256 := by
  induction l generalizing i with
  | nil => simp
  | cons b bs ih =>
    cases i with
    | zero => simpa using h b (List.mem_cons_self _ _)
    | succ i =>
      simpa [List.getD_cons_succ] using ih (fun x hx => h x (List.mem_cons_of_mem _ hx)) i

/-! ## `discover_word` over a whole buffer -/

theorem discover_byte_zero (ret v : Nat) : discover_byte ret 0 v = (ret, v) := by
  simp [discover_byte]

theorem discover_word_cons (ret c v : Nat) (cs vs : List Nat) :
    discover_word ret (c :: cs) (v :: vs) =
      ((discover_word (discover_byte ret c v).1 cs vs).1,
        (discover_byte ret c v).2 :: (discover_word (discover_byte ret c v).1 cs vs).2) := rfl

theorem discover_word_nil_right (ret : Nat) (cs : List Nat) :
    discover_word ret cs [] = (ret, []) := by
  cases cs <;> simp [discover_word]

theorem discover_word_zeros (ret : Nat) (cs vs : List Nat) (h : ∀ c ∈ cs, c = 0) :
    discover_word ret cs vs = (ret, vs) := by
  induction cs generalizing ret vs with
  | nil => simp [discover_word]
  | cons c cs ih =>
    cases vs with
    | nil => simp [discover_word]
    | cons v vs =>
      have hc : c = 0 := h c (List.mem_cons_self _ _)
      subst hc
      simp [discover_word, discover_byte_zero, ih ret vs (fun x hx => h x (List.mem_cons_of_mem _ hx))]

theorem discover_word_append (ret : Nat) (c1 c2 v1 v2 : List Nat) (hlen : c1.length = v1.length) :
    discover_word ret (c1 ++ c2) (v1 ++ v2) =
      ((discover_word (discover_word ret c1 v1).1 c2 v2).1,
        (discover_word ret c1 v1).2 ++ (discover_word (discover_word ret c1 v1).1 c2 v2).2) := by
  induction c1 generalizing ret v1 with
  | nil =>
    cases v1 with
    | nil => simp [discover_word]
    | cons v v1 => simp at hlen
  | cons c c1 ih =>
    cases v1 with
    | nil => simp at hlen
    | cons v v1 =>
      rw [List.cons_append, List.cons_append, discover_word_cons, discover_word_cons,
        ih (discover_byte ret c v).1 v1 (by simpa using hlen)]
      rfl

/-- The word-by-word loop of `has_new_bits` computes the byte rule over the whole buffer. -/
theorem has_new_bits_loop_eq (w64 : Bool) (i : Nat) (cur vir : List Nat) (ret : Nat)
    (hc : cur.length = wordBytes w64 * i) (hv : vir.length = wordBytes w64 * i) :
    has_new_bits_loop w64 i cur vir ret = discover_word ret cur vir := by
  induction i generalizing cur vir ret with
  | zero =>
    have h1 : cur = [] := List.length_eq_zero.1 (by simpa using hc)
    have h2 : vir = [] := List.length_eq_zero.1 (by simpa using hv)
    subst h1 h2
    simp [has_new_bits_loop, discover_word]
  | succ i ih =>
    have hW : wordBytes w64 * (i + 1) = wordBytes w64 * i + wordBytes w64 := by ring
    have hlt : (cur.take (wordBytes w64)).length = (vir.take (wordBytes w64)).length := by
      simp only [List.length_take]; omega
    have hrest : ∀ r, has_new_bits_loop w64 i (cur.drop (wordBytes w64))
        (vir.drop (wordBytes w64)) r
          = discover_word r (cur.drop (wordBytes w64)) (vir.drop (wordBytes w64)) := fun r =>
      ih _ _ r (by simp only [List.length_drop]; omega) (by simp only [List.length_drop]; omega)
    have hsplit := discover_word_append ret (cur.take (wordBytes w64)) (cur.drop (wordBytes w64))
      (vir.take (wordBytes w64)) (vir.drop (wordBytes w64)) hlt
    rw [List.take_append_drop, List.take_append_drop] at hsplit
    rw [hsplit]
    simp only [has_new_bits_loop, hrest]
    by_cases hz : loadLE (cur.take (wordBytes w64)) = 0
    · have hzero := discover_word_zeros ret _ (vir.take (wordBytes w64))
        ((loadLE_eq_zero_iff _).1 hz)
      simp [hz, hzero]
    · simp [hz]


theorem discover_byte_snd (ret : Nat) {c v : Nat} (hc : c < 256) (hv : v < 256) :
    (discover_byte ret c v).2 = v &&& (0xFF - c) := by
  unfold discover_byte
  split
  · next h => exact (and_not8_of_and_eq_zero hc hv h).symm
  · split <;> rfl

theorem discover_byte_eq_two (ret c v : Nat) :
    (discover_byte ret c v).1 = 2 ↔ ret = 2 ∨ (c &&& v ≠ 0 ∧ v = 0xFF) := by
  unfold discover_byte
  by_cases h : c &&& v = 0
  · simp [h]
  · by_cases h2 : v = 0xFF
    · subst h2
      simp [h]
    · by_cases h3 : ret = 2 <;> simp [h, h2, h3]

theorem discover_byte_eq_zero (ret c v : Nat) :
    (discover_byte ret c v).1 = 0 ↔ ret = 0 ∧ c &&& v = 0 := by
  unfold discover_byte
  by_cases h : c &&& v = 0
  · simp [h]
  · by_cases h2 : v = 0xFF
    · subst h2
      simp [h]
    · by_cases h3 : ret = 2 <;> simp [h, h2, h3]

theorem discover_byte_le_two (ret c v : Nat) (h : ret ≤ 2) : (discover_byte ret c v).1 ≤ 2 := by
  unfold discover_byte
  split
  · exact h
  · split
    · exact Nat.le_refl 2
    · split <;> simp

theorem discover_word_virgin (ret : Nat) (cs vs : List Nat) (hlen : cs.length = vs.length)
    (hc : ∀ c ∈ cs, c < 256) (hv : ∀ v ∈ vs, v < 256) :
    (discover_word ret cs vs).2 = List.zipWith (fun v c => v &&& (0xFF - c)) vs cs := by
  induction cs generalizing ret vs with
  | nil =>
    cases vs with
    | nil => simp [discover_word]
    | cons v vs => simp at hlen
  | cons c cs ih =>
    cases vs with
    | nil => simp at hlen
    | cons v vs =>
      rw [discover_word_cons, List.zipWith_cons_cons]
      simp only
      rw [discover_byte_snd ret (hc c (List.mem_cons_self _ _)) (hv v (List.mem_cons_self _ _)),
        ih _ vs (by simpa using hlen) (fun x hx => hc x (List.mem_cons_of_mem _ hx))
          (fun x hx => hv x (List.mem_cons_of_mem _ hx))]

theorem discover_word_eq_two (ret : Nat) (cs vs : List Nat) (hlen : cs.length = vs.length) :
    (discover_word ret cs vs).1 = 2 ↔
      ret = 2 ∨ ∃ i, i < cs.length ∧ (cs.getD i 0 &&& vs.getD i 0 ≠ 0 ∧ vs.getD i 0 = 0xFF) := by
  induction cs generalizing ret vs with
  | nil => simp [discover_word]
  | cons c cs ih =>
    cases vs with
    | nil => simp at hlen
    | cons v vs =>
      rw [discover_word_cons, exists_index_cons (fun c v => c &&& v ≠ 0 ∧ v = 0xFF)]
      simp only
      rw [ih _ vs (by simpa using hlen), discover_byte_eq_two, or_assoc]

theorem discover_word_eq_zero (ret : Nat) (cs vs : List Nat) (hlen : cs.length = vs.length) :
    (discover_word ret cs vs).1 = 0 ↔
      ret = 0 ∧ ∀ i, i < cs.length → cs.getD i 0 &&& vs.getD i 0 = 0 := by
  induction cs generalizing ret vs with
  | nil => simp [discover_word]
  | cons c cs ih =>
    cases vs with
    | nil => simp at hlen
    | cons v vs =>
      rw [discover_word_cons, forall_index_cons (fun c v => c &&& v = 0)]
      simp only
      rw [ih _ vs (by simpa using hlen), discover_byte_eq_zero, and_assoc]

theorem discover_word_le_two (ret : Nat) (cs vs : List Nat) (h : ret ≤ 2) :
    (discover_word ret cs vs).1 ≤ 2 := by
  induction cs generalizing ret vs with
  | nil => simpa [discover_word] using h
  | cons c cs ih =>
    cases vs with
    | nil => simpa [discover_word] using h
    | cons v vs =>
      rw [discover_word_cons]
      exact ih _ vs (discover_byte_le_two ret c v h)

/-! ## State accessors -/

@[simp] theorem getVirgin_setVirgin (afl : afl_state) (m : VirginMap) (v : List Nat) :
    (afl.setVirgin m v).getVirgin m = v := by
  cases m <;> rfl

theorem getVirgin_setVirgin_ne (afl : afl_state) {m n : VirginMap} (h : n ≠ m) (v : List Nat) :
    (afl.setVirgin m v).getVirgin n = afl.getVirgin n := by
  cases m <;> cases n <;> first | rfl | exact absurd rfl h

@[simp] theorem getVirgin_bitmap_changed (afl : afl_state) (m : VirginMap) (b : Nat) :
    afl_state.getVirgin { afl with bitmap_changed := b } m = afl.getVirgin m := by
  cases m <;> rfl

theorem has_new_bits_fst (w64 : Bool) (afl : afl_state) (m : VirginMap) :
    (has_new_bits w64 afl m).1 =
      (has_new_bits_loop w64 (scanWords w64 afl.real_map_size) afl.trace_bits
        (afl.getVirgin m) 0).1 := rfl

theorem has_new_bits_getVirgin (w64 : Bool) (afl : afl_state) (m : VirginMap) :
    (has_new_bits w64 afl m).2.getVirgin m =
      (has_new_bits_loop w64 (scanWords w64 afl.real_map_size) afl.trace_bits
        (afl.getVirgin m) 0).2 := by
  unfold has_new_bits
  simp only
  split <;> simp

theorem has_new_bits_trace (w64 : Bool) (afl : afl_state) (m : VirginMap) :
    (has_new_bits w64 afl m).2.trace_bits = afl.trace_bits := by
  unfold has_new_bits
  simp only
  split <;> cases m <;> rfl

theorem has_new_bits_real_map_size (w64 : Bool) (afl : afl_state) (m : VirginMap) :
    (has_new_bits w64 afl m).2.real_map_size = afl.real_map_size := by
  unfold has_new_bits
  simp only
  split <;> cases m <;> rfl


/-! ## The scan of `has_few_bits` over a whole buffer -/

theorem no_drop_of_all_ff (vw cw : List Nat) (h : ∀ v ∈ vw, v = 0xFF) :
    (List.zipWith dropped vw cw).any id = false := by
  induction vw generalizing cw with
  | nil => simp
  | cons v vw ih =>
    cases cw with
    | nil => simp
    | cons c cw =>
      have hv : v = 0xFF := h v (List.mem_cons_self _ _)
      subst hv
      simp [dropped, ih cw (fun x hx => h x (List.mem_cons_of_mem _ hx))]

theorem reset_eq_of_no_drop (vw cw : List Nat) (hlen : vw.length = cw.length)
    (h : (List.zipWith dropped vw cw).any id = false) : List.zipWith reset_byte vw cw = vw := by
  induction vw generalizing cw with
  | nil => simp
  | cons v vw ih =>
    cases cw with
    | nil => simp at hlen
    | cons c cw =>
      simp only [List.zipWith_cons_cons, List.any_cons, id, Bool.or_eq_false_iff] at h
      rw [List.zipWith_cons_cons, ih cw (by simpa using hlen) h.2]
      simp [reset_byte, h.1]

/-- The guard `(*virgin + 1) == 0` of `has_few_bits` holds only for an all-`0xFF` word. -/
theorem all_ff_of_guard (w64 : Bool) (vw : List Nat) (hb : ∀ v ∈ vw, v < 256)
    (hl : vw.length = wordBytes w64)
    (h : (loadLE vw + 1) % 2 ^ (8 * wordBytes w64) = 0) : ∀ v ∈ vw, v = 0xFF := by
  rw [pow_word, ← hl] at h
  exact all_ff_of_succ_wraps vw hb h

theorem has_few_bits_word_virgin (w64 : Bool) (afl : afl_state) (cw vw : List Nat)
    (cov hcn : Nat) (hb : ∀ v ∈ vw, v < 256) (hl : vw.length = wordBytes w64)
    (hlen : vw.length = cw.length) :
    (has_few_bits_word w64 afl cw vw cov hcn).virgin = List.zipWith reset_byte vw cw := by
  unfold has_few_bits_word
  split
  · simp only
    split
    · rfl
    · next h => exact (reset_eq_of_no_drop vw cw hlen (by simpa using h)).symm
  · next h =>
    exact (reset_eq_of_no_drop vw cw hlen
      (no_drop_of_all_ff vw cw (all_ff_of_guard w64 vw hb hl (by simpa using h)))).symm

theorem has_few_bits_word_cov (w64 : Bool) (afl : afl_state) (cw vw : List Nat)
    (cov hcn : Nat) (hb : ∀ v ∈ vw, v < 256) (hl : vw.length = wordBytes w64) :
    (has_few_bits_word w64 afl cw vw cov hcn).cov_decrease =
      if (List.zipWith dropped vw cw).any id then 1 else cov := by
  unfold has_few_bits_word
  split
  · simp only
    split <;> rfl
  · next h =>
    rw [no_drop_of_all_ff vw cw (all_ff_of_guard w64 vw hb hl (by simpa using h))]
    rfl

theorem has_few_bits_word_hcn (w64 : Bool) (afl : afl_state) (cw vw : List Nat)
    (cov hcn : Nat) :
    (has_few_bits_word w64 afl cw vw cov hcn).hcn_decrease =
      if (loadLE vw + 1) % 2 ^ (8 * wordBytes w64) ≠ 0 ∧
          ((loadLE cw &&& loadLE vw) ≠ 0 ∧ afl.actual_counts < afl.min_actual_cnts)
      then 1 else hcn := by
  unfold has_few_bits_word
  by_cases h1 : (loadLE vw + 1) % 2 ^ (8 * wordBytes w64) = 0
  · simp [h1]
  · by_cases h2 : (loadLE cw &&& loadLE vw) ≠ 0 ∧ afl.actual_counts < afl.min_actual_cnts
    · simp only [ne_eq, h1, not_false_eq_true, h2, and_self, if_true]
      split <;> rfl
    · simp only [ne_eq, h1, not_false_eq_true, h2, and_false, if_false, if_true]
      split <;> rfl

theorem has_few_bits_loop_succ (w64 : Bool) (afl : afl_state) (i : Nat) (cur vir : List Nat)
    (cov hcn : Nat) :
    has_few_bits_loop w64 afl (i + 1) cur vir cov hcn =
      ⟨(has_few_bits_loop w64 afl i (cur.drop (wordBytes w64)) (vir.drop (wordBytes w64))
          (has_few_bits_word w64 afl (cur.take (wordBytes w64)) (vir.take (wordBytes w64))
            cov hcn).cov_decrease
          (has_few_bits_word w64 afl (cur.take (wordBytes w64)) (vir.take (wordBytes w64))
            cov hcn).hcn_decrease).cov_decrease,
        (has_few_bits_loop w64 afl i (cur.drop (wordBytes w64)) (vir.drop (wordBytes w64))
          (has_few_bits_word w64 afl (cur.take (wordBytes w64)) (vir.take (wordBytes w64))
            cov hcn).cov_decrease
          (has_few_bits_word w64 afl (cur.take (wordBytes w64)) (vir.take (wordBytes w64))
            cov hcn).hcn_decrease).hcn_decrease,
        (has_few_bits_word w64 afl (cur.take (wordBytes w64)) (vir.take (wordBytes w64))
            cov hcn).virgin ++
        (has_few_bits_loop w64 afl i (cur.drop (wordBytes w64)) (vir.drop (wordBytes w64))
          (has_few_bits_word w64 afl (cur.take (wordBytes w64)) (vir.take (wordBytes w64))
            cov hcn).cov_decrease
          (has_few_bits_word w64 afl (cur.take (wordBytes w64)) (vir.take (wordBytes w64))
            cov hcn).hcn_decrease).virgin⟩ := rfl

theorem mem_of_mem_take {l : List Nat} {n x : Nat} (h : x ∈ l.take n) : x ∈ l :=
  List.mem_of_mem_take h

theorem mem_of_mem_drop {l : List Nat} {n x : Nat} (h : x ∈ l.drop n) : x ∈ l :=
  List.mem_of_mem_drop h

theorem has_few_bits_loop_virgin (w64 : Bool) (afl : afl_state) (i : Nat) (cur vir : List Nat)
    (cov hcn : Nat) (hc : cur.length = wordBytes w64 * i) (hv : vir.length = wordBytes w64 * i)
    (hb : ∀ v ∈ vir, v < 256) :
    (has_few_bits_loop w64 afl i cur vir cov hcn).virgin = List.zipWith reset_byte vir cur := by
  induction i generalizing cur vir cov hcn with
  | zero =>
    have h1 : cur = [] := List.length_eq_zero.1 (by simpa using hc)
    have h2 : vir = [] := List.length_eq_zero.1 (by simpa using hv)
    subst h1 h2
    simp [has_few_bits_loop]
  | succ i ih =>
    have hW : wordBytes w64 * (i + 1) = wordBytes w64 * i + wordBytes w64 := by ring
    have hlv : (vir.take (wordBytes w64)).length = wordBytes w64 := by
      simp only [List.length_take]; omega
    have hlc : (cur.take (wordBytes w64)).length = wordBytes w64 := by
      simp only [List.length_take]; omega
    rw [has_few_bits_loop_succ]
    simp only
    rw [has_few_bits_word_virgin w64 afl _ _ cov hcn (fun x hx => hb x (mem_of_mem_take hx)) hlv
        (by rw [hlv, hlc]),
      ih _ _ _ _ (by simp only [List.length_drop]; omega) (by simp only [List.length_drop]; omega)
        (fun x hx => hb x (mem_of_mem_drop hx)),
      ← List.zipWith_append _ _ _ _ _ (by rw [hlv, hlc]), List.take_append_drop,
      List.take_append_drop]

theorem has_few_bits_loop_cov (w64 : Bool) (afl : afl_state) (i : Nat) (cur vir : List Nat)
    (cov hcn : Nat) (hc : cur.length = wordBytes w64 * i) (hv : vir.length = wordBytes w64 * i)
    (hb : ∀ v ∈ vir, v < 256) :
    (has_few_bits_loop w64 afl i cur vir cov hcn).cov_decrease =
      if (List.zipWith dropped vir cur).any id then 1 else cov := by
  induction i generalizing cur vir cov hcn with
  | zero =>
    have h1 : cur = [] := List.length_eq_zero.1 (by simpa using hc)
    have h2 : vir = [] := List.length_eq_zero.1 (by simpa using hv)
    subst h1 h2
    simp [has_few_bits_loop]
  | succ i ih =>
    have hW : wordBytes w64 * (i + 1) = wordBytes w64 * i + wordBytes w64 := by ring
    have hlv : (vir.take (wordBytes w64)).length = wordBytes w64 := by
      simp only [List.length_take]; omega
    have hlc : (cur.take (wordBytes w64)).length = wordBytes w64 := by
      simp only [List.length_take]; omega
    have hsplit : List.zipWith dropped vir cur =
        List.zipWith dropped (vir.take (wordBytes w64)) (cur.take (wordBytes w64)) ++
          List.zipWith dropped (vir.drop (wordBytes w64)) (cur.drop (wordBytes w64)) := by
      rw [← List.zipWith_append _ _ _ _ _ (by rw [hlv, hlc]), List.take_append_drop,
        List.take_append_drop]
    rw [has_few_bits_loop_succ]
    simp only
    rw [ih _ _ _ _ (by simp only [List.length_drop]; omega) (by simp only [List.length_drop]; omega)
        (fun x hx => hb x (mem_of_mem_drop hx)),
      has_few_bits_word_cov w64 afl _ _ cov hcn (fun x hx => hb x (mem_of_mem_take hx)) hlv,
      hsplit, List.any_append]
    cases (List.zipWith dropped (vir.take (wordBytes w64)) (cur.take (wordBytes w64))).any id <;>
      cases (List.zipWith dropped (vir.drop (wordBytes w64)) (cur.drop (wordBytes w64))).any id <;>
      simp


theorem wordAt_zero (w64 : Bool) (buf : List Nat) :
    wordAt w64 buf 0 = loadLE (buf.take (wordBytes w64)) := by
  simp [wordAt]

theorem wordAt_drop (w64 : Bool) (buf : List Nat) (j : Nat) :
    wordAt w64 (buf.drop (wordBytes w64)) j = wordAt w64 buf (j + 1) := by
  unfold wordAt
  rw [List.drop_drop]
  have h : wordBytes w64 + wordBytes w64 * j = wordBytes w64 * (j + 1) := by ring
  rw [h]

theorem exists_word_succ (w64 : Bool) (Q : Nat → Nat → Prop) (cur vir : List Nat) (i : Nat) :
    (∃ j, j < i + 1 ∧ Q (wordAt w64 cur j) (wordAt w64 vir j)) ↔
      Q (loadLE (cur.take (wordBytes w64))) (loadLE (vir.take (wordBytes w64))) ∨
        ∃ j, j < i ∧ Q (wordAt w64 (cur.drop (wordBytes w64)) j)
          (wordAt w64 (vir.drop (wordBytes w64)) j) := by
  constructor
  · rintro ⟨j, hj, hq⟩
    cases j with
    | zero =>
      rw [wordAt_zero, wordAt_zero] at hq
      exact Or.inl hq
    | succ j =>
      refine Or.inr ⟨j, by omega, ?_⟩
      rw [wordAt_drop, wordAt_drop]
      exact hq
  · rintro (hq | ⟨j, hj, hq⟩)
    · refine ⟨0, by omega, ?_⟩
      rw [wordAt_zero, wordAt_zero]
      exact hq
    · refine ⟨j + 1, by omega, ?_⟩
      rw [wordAt_drop, wordAt_drop] at hq
      exact hq

/-- The word test under which `has_few_bits` raises `hcn_decrease`. -/
theorem has_few_bits_loop_hcn (w64 : Bool) (afl : afl_state) (i : Nat) (cur vir : List Nat)
    (cov hcn : Nat) :
    ((∃ j, j < i ∧ ((wordAt w64 vir j + 1) % 2 ^ (8 * wordBytes w64) ≠ 0 ∧
        ((wordAt w64 cur j &&& wordAt w64 vir j) ≠ 0 ∧
          afl.actual_counts < afl.min_actual_cnts))) →
      (has_few_bits_loop w64 afl i cur vir cov hcn).hcn_decrease = 1) ∧
    ((¬ ∃ j, j < i ∧ ((wordAt w64 vir j + 1) % 2 ^ (8 * wordBytes w64) ≠ 0 ∧
        ((wordAt w64 cur j &&& wordAt w64 vir j) ≠ 0 ∧
          afl.actual_counts < afl.min_actual_cnts))) →
      (has_few_bits_loop w64 afl i cur vir cov hcn).hcn_decrease = hcn) := by
  induction i generalizing cur vir cov hcn with
  | zero => simp [has_few_bits_loop]
  | succ i ih =>
    rw [has_few_bits_loop_succ]
    simp only
    rw [exists_word_succ w64 (fun c v => (v + 1) % 2 ^ (8 * wordBytes w64) ≠ 0 ∧
      ((c &&& v) ≠ 0 ∧ afl.actual_counts < afl.min_actual_cnts))]
    rw [has_few_bits_word_hcn]
    have ih1 := ih (cur.drop (wordBytes w64)) (vir.drop (wordBytes w64))
    constructor
    · rintro (hq | hex)
      · rw [if_pos hq]
        by_cases hex : ∃ j, j < i ∧ ((wordAt w64 (vir.drop (wordBytes w64)) j + 1) %
            2 ^ (8 * wordBytes w64) ≠ 0 ∧
            ((wordAt w64 (cur.drop (wordBytes w64)) j &&&
              wordAt w64 (vir.drop (wordBytes w64)) j) ≠ 0 ∧
              afl.actual_counts < afl.min_actual_cnts))
        · exact (ih1 _ _).1 hex
        · exact (ih1 _ _).2 hex
      · exact (ih1 _ _).1 hex
    · intro hno
      rw [not_or] at hno
      rw [if_neg hno.1]
      exact (ih1 _ _).2 hno.2

theorem any_dropped_iff (vs cs : List Nat) (hlen : vs.length = cs.length) :
    (List.zipWith dropped vs cs).any id = true ↔
      ∃ i, i < vs.length ∧ (vs.getD i 0 ≠ 0xFF ∧ cs.getD i 0 = 0) := by
  induction vs generalizing cs with
  | nil => simp
  | cons v vs ih =>
    cases cs with
    | nil => simp at hlen
    | cons c cs =>
      rw [exists_index_cons (fun v c => v ≠ 0xFF ∧ c = 0), ← ih cs (by simpa using hlen)]
      simp [dropped]

theorem has_few_bits_loop_cov_le (w64 : Bool) (afl : afl_state) (i : Nat) (cur vir : List Nat)
    (cov hcn : Nat) (h : cov ≤ 1) :
    (has_few_bits_loop w64 afl i cur vir cov hcn).cov_decrease ≤ 1 := by
  induction i generalizing cur vir cov hcn with
  | zero => simpa [has_few_bits_loop] using h
  | succ i ih =>
    rw [has_few_bits_loop_succ]
    apply ih
    unfold has_few_bits_word
    split
    · simp only
      split
      · exact Nat.le_refl 1
      · exact h
    · exact h

theorem has_few_bits_loop_hcn_le (w64 : Bool) (afl : afl_state) (i : Nat) (cur vir : List Nat)
    (cov hcn : Nat) (h : hcn ≤ 1) :
    (has_few_bits_loop w64 afl i cur vir cov hcn).hcn_decrease ≤ 1 := by
  induction i generalizing cur vir cov hcn with
  | zero => simpa [has_few_bits_loop] using h
  | succ i ih =>
    rw [has_few_bits_loop_succ]
    apply ih
    rw [has_few_bits_word_hcn]
    split
    · exact Nat.le_refl 1
    · exact h


theorem discover_word_skip (ret : Nat) (cs vs : List Nat) (hlen : cs.length = vs.length)
    (h : ∀ i, i < cs.length → cs.getD i 0 &&& vs.getD i 0 = 0) :
    discover_word ret cs vs = (ret, vs) := by
  induction cs generalizing ret vs with
  | nil => simp [discover_word]
  | cons c cs ih =>
    cases vs with
    | nil => simp at hlen
    | cons v vs =>
      rw [forall_index_cons (fun c v => c &&& v = 0)] at h
      rw [discover_word_cons]
      have hb : discover_byte ret c v = (ret, v) := by simp [discover_byte, h.1]
      rw [hb]
      simp only
      rw [ih ret vs (by simpa using hlen) h.2]

theorem setVirgin_getVirgin (afl : afl_state) (m : VirginMap) :
    afl.setVirgin m (afl.getVirgin m) = afl := by
  cases m <;> rfl

theorem has_new_bits_eq_discover (w64 : Bool) (afl : afl_state) (m : VirginMap)
    (hT : afl.trace_bits.length = wordBytes w64 * scanWords w64 afl.real_map_size)
    (hV : (afl.getVirgin m).length = wordBytes w64 * scanWords w64 afl.real_map_size) :
    (has_new_bits w64 afl m).1 = (discover_word 0 afl.trace_bits (afl.getVirgin m)).1 ∧
    (has_new_bits w64 afl m).2.getVirgin m =
      (discover_word 0 afl.trace_bits (afl.getVirgin m)).2 := by
  rw [has_new_bits_fst, has_new_bits_getVirgin, has_new_bits_loop_eq w64 _ _ _ 0 hT hV]
  exact ⟨rfl, rfl⟩

theorem has_new_bits_bytes (w64 : Bool) (afl : afl_state) (m : VirginMap)
    (hT : afl.trace_bits.length = wordBytes w64 * scanWords w64 afl.real_map_size)
    (hV : (afl.getVirgin m).length = wordBytes w64 * scanWords w64 afl.real_map_size)
    (hTb : ∀ b ∈ afl.trace_bits, b < 256) (hVb : ∀ b ∈ afl.getVirgin m, b < 256) :
    ((has_new_bits w64 afl m).2.getVirgin m).length = (afl.getVirgin m).length ∧
    (∀ i, i < (afl.getVirgin m).length →
      ((has_new_bits w64 afl m).2.getVirgin m).getD i 0 =
        (afl.getVirgin m).getD i 0 &&& (0xFF - afl.trace_bits.getD i 0)) ∧
    (has_new_bits w64 afl m).2.trace_bits = afl.trace_bits := by
  have hlen : afl.trace_bits.length = (afl.getVirgin m).length := by rw [hT, hV]
  rw [(has_new_bits_eq_discover w64 afl m hT hV).2,
    discover_word_virgin 0 _ _ hlen hTb hVb]
  refine ⟨by simp [hlen], fun i hi => ?_, has_new_bits_trace w64 afl m⟩
  exact getD_zipWith _ _ _ hlen.symm i hi

/-! ## Claims about `has_new_bits` -/

/-- C1: for every virgin map `V` and every trace `t` of the same length (a whole
number of scanning words), after `has_new_bits` runs on `t` every byte `i` of the
virgin map passed satisfies `V'[i] == V[i] & ~t[i]` (for a byte, the low eight
bits of `~t[i]` are `0xFF - t[i]`), and the trace itself is unchanged. -/
theorem has_new_bits_virgin_update (w64 : Bool) (afl : afl_state) (m : VirginMap)
    (hT : afl.trace_bits.length = wordBytes w64 * scanWords w64 afl.real_map_size)
    (hV : (afl.getVirgin m).length = wordBytes w64 * scanWords w64 afl.real_map_size)
    (hTb : ∀ b ∈ afl.trace_bits, b < 256) (hVb : ∀ b ∈ afl.getVirgin m, b < 256) :
    ((has_new_bits w64 afl m).2.getVirgin m).length = (afl.getVirgin m).length ∧
    (∀ i, i < (afl.getVirgin m).length →
      ((has_new_bits w64 afl m).2.getVirgin m).getD i 0 =
        (afl.getVirgin m).getD i 0 &&& (0xFF - afl.trace_bits.getD i 0)) ∧
    (has_new_bits w64 afl m).2.trace_bits = afl.trace_bits :=
  has_new_bits_bytes w64 afl m hT hV hTb hVb

/-- Instance of C1 on boundary scenario 1, read at byte 1. -/
theorem has_new_bits_virgin_update_witness :
    ((has_new_bits true scenario1 VirginMap.virgin_bits).2.getVirgin
        VirginMap.virgin_bits).getD 1 0 =
      (scenario1.getVirgin VirginMap.virgin_bits).getD 1 0 &&&
        (0xFF - scenario1.trace_bits.getD 1 0) ∧
    (has_new_bits true scenario1 VirginMap.virgin_bits).2.trace_bits = scenario1.trace_bits :=
  ⟨(has_new_bits_virgin_update true scenario1 VirginMap.virgin_bits
      (by decide) (by decide) (by decide) (by decide)).2.1 1 (by decide),
    (has_new_bits_virgin_update true scenario1 VirginMap.virgin_bits
      (by decide) (by decide) (by decide) (by decide)).2.2⟩

/-- C2: `has_new_bits` returns the maximum class over all bytes: `2` iff some
byte `i` has `t[i] != 0` and `V[i] == 0xFF`; otherwise `1` iff some byte `i` has
`(t[i] & V[i]) != 0`; otherwise `0`. On an eight-byte all-`0xFF` virgin map the
trace `[00 01 00 00 00 00 00 00]` returns `2`, leaves virgin
`[FF FE FF FF FF FF FF FF]` and sets the dirty flag; then the trace
`[00 02 00 00 00 00 00 00]` returns `1` and leaves virgin `[FF FC FF FF FF FF FF FF]`. -/
theorem has_new_bits_class (w64 : Bool) (afl : afl_state) (m : VirginMap)
    (hT : afl.trace_bits.length = wordBytes w64 * scanWords w64 afl.real_map_size)
    (hV : (afl.getVirgin m).length = wordBytes w64 * scanWords w64 afl.real_map_size)
    (hTb : ∀ b ∈ afl.trace_bits, b < 256) :
    ((has_new_bits w64 afl m).1 = 2 ↔
      ∃ i, i < afl.trace_bits.length ∧
        (afl.trace_bits.getD i 0 ≠ 0 ∧ (afl.getVirgin m).getD i 0 = 0xFF)) ∧
    ((has_new_bits w64 afl m).1 = 1 ↔
      (¬ ∃ i, i < afl.trace_bits.length ∧
        (afl.trace_bits.getD i 0 ≠ 0 ∧ (afl.getVirgin m).getD i 0 = 0xFF)) ∧
      ∃ i, i < afl.trace_bits.length ∧
        afl.trace_bits.getD i 0 &&& (afl.getVirgin m).getD i 0 ≠ 0) ∧
    ((has_new_bits w64 afl m).1 = 0 ↔
      (¬ ∃ i, i < afl.trace_bits.length ∧
        (afl.trace_bits.getD i 0 ≠ 0 ∧ (afl.getVirgin m).getD i 0 = 0xFF)) ∧
      ¬ ∃ i, i < afl.trace_bits.length ∧
        afl.trace_bits.getD i 0 &&& (afl.getVirgin m).getD i 0 ≠ 0) ∧
    ((has_new_bits w64 scenario1 VirginMap.virgin_bits).1 = 2 ∧
      (has_new_bits w64 scenario1 VirginMap.virgin_bits).2.virgin_bits =
        [0xFF, 0xFE, 0xFF, 0xFF, 0xFF, 0xFF, 0xFF, 0xFF] ∧
      (has_new_bits w64 scenario1 VirginMap.virgin_bits).2.bitmap_changed = 1) ∧
    ((has_new_bits w64 (scenario2 w64) VirginMap.virgin_bits).1 = 1 ∧
      (has_new_bits w64 (scenario2 w64) VirginMap.virgin_bits).2.virgin_bits =
          [0xFF, 0xFC, 0xFF, 0xFF, 0xFF, 0xFF, 0xFF, 0xFF]) := by
  have hlen : afl.trace_bits.length = (afl.getVirgin m).length := by rw [hT, hV]
  have h2 := discover_word_eq_two 0 afl.trace_bits (afl.getVirgin m) hlen
  have h0 := discover_word_eq_zero 0 afl.trace_bits (afl.getVirgin m) hlen
  have hle := discover_word_le_two 0 afl.trace_bits (afl.getVirgin m) (by decide)
  rw [← (has_new_bits_eq_discover w64 afl m hT hV).1] at h2 h0 hle
  have htuple : (∃ i, i < afl.trace_bits.length ∧
      (afl.trace_bits.getD i 0 &&& (afl.getVirgin m).getD i 0 ≠ 0 ∧
        (afl.getVirgin m).getD i 0 = 0xFF)) ↔
      ∃ i, i < afl.trace_bits.length ∧
        (afl.trace_bits.getD i 0 ≠ 0 ∧ (afl.getVirgin m).getD i 0 = 0xFF) := by
    constructor
    · rintro ⟨i, hi, hne, hff⟩
      refine ⟨i, hi, ?_, hff⟩
      intro hz
      rw [hz] at hne
      simp at hne
    · rintro ⟨i, hi, hne, hff⟩
      refine ⟨i, hi, ?_, hff⟩
      rw [hff, and_ff_of_lt (getD_lt_of_forall_mem _ hTb i)]
      exact hne
  have hhit : (∀ i, i < afl.trace_bits.length →
      afl.trace_bits.getD i 0 &&& (afl.getVirgin m).getD i 0 = 0) ↔
      ¬ ∃ i, i < afl.trace_bits.length ∧
        afl.trace_bits.getD i 0 &&& (afl.getVirgin m).getD i 0 ≠ 0 := by
    constructor
    · rintro h ⟨i, hi, hne⟩
      exact hne (h i hi)
    · intro h i hi
      by_contra hne
      exact h ⟨i, hi, hne⟩
  have hsub : (∃ i, i < afl.trace_bits.length ∧
      (afl.trace_bits.getD i 0 ≠ 0 ∧ (afl.getVirgin m).getD i 0 = 0xFF)) →
      ∃ i, i < afl.trace_bits.length ∧
        afl.trace_bits.getD i 0 &&& (afl.getVirgin m).getD i 0 ≠ 0 := by
    intro h
    obtain ⟨i, hi, hne, _⟩ := htuple.2 h
    exact ⟨i, hi, hne⟩
  simp only [show (0 : Nat) = 2 ↔ False from by decide, false_or, true_and] at h2 h0
  rw [htuple] at h2
  rw [hhit] at h0
  refine ⟨h2, ?_, ?_, ?_, ?_⟩
  · constructor
    · intro h1
      refine ⟨fun ht => ?_, ?_⟩
      · have := h2.2 ht
        omega
      · by_contra hno
        have := h0.2 hno
        omega
    · rintro ⟨hnt, hh⟩
      have hn2 : (has_new_bits w64 afl m).1 ≠ 2 := fun h => hnt (h2.1 h)
      have hn0 : (has_new_bits w64 afl m).1 ≠ 0 := fun h => h0.1 h hh
      omega
  · constructor
    · intro h
      exact ⟨fun ht => h0.1 h (hsub ht), h0.1 h⟩
    · rintro ⟨_, hno⟩
      exact h0.2 hno
  · cases w64 <;> decide
  · cases w64 <;> decide

/-- Instance of C2 on boundary scenario 1: the class is `2` exactly because a
trace byte is non-zero where the virgin byte is still `0xFF`. -/
theorem has_new_bits_class_witness :
    (has_new_bits true scenario1 VirginMap.virgin_bits).1 = 2 ↔
      ∃ i, i < scenario1.trace_bits.length ∧
        (scenario1.trace_bits.getD i 0 ≠ 0 ∧
          (scenario1.getVirgin VirginMap.virgin_bits).getD i 0 = 0xFF) :=
  (has_new_bits_class true scenario1 VirginMap.virgin_bits
    (by decide) (by decide) (by decide)).1

/-- C3: `has_new_bits` never re-reports the same novelty: a second call with the
same trace on the state produced by the first call returns `0` and leaves the
virgin map passed (indeed the whole state) unchanged. -/
theorem has_new_bits_idempotent (w64 : Bool) (afl : afl_state) (m : VirginMap)
    (hT : afl.trace_bits.length = wordBytes w64 * scanWords w64 afl.real_map_size)
    (hV : (afl.getVirgin m).length = wordBytes w64 * scanWords w64 afl.real_map_size)
    (hTb : ∀ b ∈ afl.trace_bits, b < 256) (hVb : ∀ b ∈ afl.getVirgin m, b < 256) :
    (has_new_bits w64 (has_new_bits w64 afl m).2 m).1 = 0 ∧
    (has_new_bits w64 (has_new_bits w64 afl m).2 m).2.getVirgin m =
      (has_new_bits w64 afl m).2.getVirgin m ∧
    (has_new_bits w64 (has_new_bits w64 afl m).2 m).2 = (has_new_bits w64 afl m).2 := by
  have hlen : afl.trace_bits.length = (afl.getVirgin m).length := by rw [hT, hV]
  obtain ⟨hlen1, hbytes, htrace⟩ := has_new_bits_bytes w64 afl m hT hV hTb hVb
  have hsize := has_new_bits_real_map_size w64 afl m
  have hT1 : (has_new_bits w64 afl m).2.trace_bits.length =
      wordBytes w64 * scanWords w64 (has_new_bits w64 afl m).2.real_map_size := by
    rw [htrace, hsize, hT]
  have hV1 : ((has_new_bits w64 afl m).2.getVirgin m).length =
      wordBytes w64 * scanWords w64 (has_new_bits w64 afl m).2.real_map_size := by
    rw [hlen1, hsize, hV]
  have hskip : discover_word 0 (has_new_bits w64 afl m).2.trace_bits
      ((has_new_bits w64 afl m).2.getVirgin m) = (0, (has_new_bits w64 afl m).2.getVirgin m) := by
    apply discover_word_skip
    · rw [hT1, hV1]
    · intro i hi
      rw [htrace] at hi ⊢
      rw [hbytes i (by omega)]
      exact and_not8_and_self (getD_lt_of_forall_mem _ hTb i) _
  obtain ⟨hr, hv⟩ := has_new_bits_eq_discover w64 (has_new_bits w64 afl m).2 m hT1 hV1
  rw [hskip] at hr hv
  refine ⟨hr, hv, ?_⟩
  have hloop : has_new_bits_loop w64 (scanWords w64 (has_new_bits w64 afl m).2.real_map_size)
      (has_new_bits w64 afl m).2.trace_bits ((has_new_bits w64 afl m).2.getVirgin m) 0 =
      (0, (has_new_bits w64 afl m).2.getVirgin m) := by
    rw [has_new_bits_loop_eq w64 _ _ _ 0 hT1 hV1, hskip]
  generalize (has_new_bits w64 afl m).2 = s1 at hloop
  unfold has_new_bits
  simp only [hloop, ne_eq, not_true_eq_false, false_and, if_false, setVirgin_getVirgin]

/-- Instance of C3 on boundary scenario 1. -/
theorem has_new_bits_idempotent_witness :
    (has_new_bits true (has_new_bits true scenario1 VirginMap.virgin_bits).2
        VirginMap.virgin_bits).1 = 0 ∧
    (has_new_bits true (has_new_bits true scenario1 VirginMap.virgin_bits).2
        VirginMap.virgin_bits).2.getVirgin VirginMap.virgin_bits =
      (has_new_bits true scenario1 VirginMap.virgin_bits).2.getVirgin VirginMap.virgin_bits ∧
    (has_new_bits true (has_new_bits true scenario1 VirginMap.virgin_bits).2
        VirginMap.virgin_bits).2 = (has_new_bits true scenario1 VirginMap.virgin_bits).2 :=
  has_new_bits_idempotent true scenario1 VirginMap.virgin_bits
    (by decide) (by decide) (by decide) (by decide)


/-! ## `has_few_bits` with a testcase matrix: result and state -/

theorem bms_decrease_le (afl : afl_state) : bms_decrease afl ≤ 1 := by
  unfold bms_decrease
  split <;> simp

theorem few_bits_scan_cov_le (w64 : Bool) (afl : afl_state) (m : VirginMap) :
    (few_bits_scan w64 afl m).cov_decrease ≤ 1 :=
  has_few_bits_loop_cov_le w64 afl _ _ _ 0 0 (by decide)

theorem few_bits_scan_hcn_le (w64 : Bool) (afl : afl_state) (m : VirginMap) :
    (few_bits_scan w64 afl m).hcn_decrease ≤ 1 :=
  has_few_bits_loop_hcn_le w64 afl _ _ _ 0 0 (by decide)

theorem has_few_bits_fst (w64 : Bool) (afl : afl_state) (m : VirginMap)
    (hm : afl.testcase_matrix = true) :
    (has_few_bits w64 afl m).1 =
      (((0x10 + (bms_decrease afl <<< 2)) % 256 +
        ((few_bits_scan w64 afl m).cov_decrease <<< 1)) % 256 +
        (few_bits_scan w64 afl m).hcn_decrease) % 256 := by
  simp [has_few_bits, hm]

/-- The packed value for flags in `{0, 1}`: no carry, no wrap, and each flag is one bit. -/
theorem pack_flags (bms cov hcn : Nat) (hb : bms ≤ 1) (hc : cov ≤ 1) (hh : hcn ≤ 1) :
    (((0x10 + (bms <<< 2)) % 256 + (cov <<< 1)) % 256 + hcn) % 256 =
        0x10 ||| (bms <<< 2) ||| (cov <<< 1) ||| hcn ∧
    ((((0x10 + (bms <<< 2)) % 256 + (cov <<< 1)) % 256 + hcn) % 256).testBit 2 =
        decide (bms = 1) ∧
    ((((0x10 + (bms <<< 2)) % 256 + (cov <<< 1)) % 256 + hcn) % 256).testBit 1 =
        decide (cov = 1) ∧
    ((((0x10 + (bms <<< 2)) % 256 + (cov <<< 1)) % 256 + hcn) % 256).testBit 0 =
        decide (hcn = 1) ∧
    0x10 ≤ (((0x10 + (bms <<< 2)) % 256 + (cov <<< 1)) % 256 + hcn) % 256 ∧
    (((0x10 + (bms <<< 2)) % 256 + (cov <<< 1)) % 256 + hcn) % 256 ≤ 0x17 ∧
    ((((0x10 + (bms <<< 2)) % 256 + (cov <<< 1)) % 256 + hcn) % 256 = 0x10 ↔
      bms = 0 ∧ cov = 0 ∧ hcn = 0) := by
  have h1 : bms = 0 ∨ bms = 1 := by omega
  have h2 : cov = 0 ∨ cov = 1 := by omega
  have h3 : hcn = 0 ∨ hcn = 1 := by omega
  rcases h1 with rfl | rfl <;> rcases h2 with rfl | rfl <;> rcases h3 with rfl | rfl <;> decide

theorem has_few_bits_getVirgin (w64 : Bool) (afl : afl_state) (m : VirginMap)
    (hm : afl.testcase_matrix = true) :
    (has_few_bits w64 afl m).2.getVirgin m = (few_bits_scan w64 afl m).virgin := by
  simp only [has_few_bits, hm, Bool.not_true, Bool.false_eq_true, if_false]
  split <;> simp

theorem has_few_bits_getVirgin_ne (w64 : Bool) (afl : afl_state) {m n : VirginMap}
    (hm : afl.testcase_matrix = true) (hn : n ≠ m) :
    (has_few_bits w64 afl m).2.getVirgin n = afl.getVirgin n := by
  simp only [has_few_bits, hm, Bool.not_true, Bool.false_eq_true, if_false]
  split <;> simp [getVirgin_setVirgin_ne afl hn]

theorem has_few_bits_frame (w64 : Bool) (afl : afl_state) (m : VirginMap)
    (hm : afl.testcase_matrix = true) :
    (has_few_bits w64 afl m).2.trace_bits = afl.trace_bits ∧
    (has_few_bits w64 afl m).2.min_bitmap_size = afl.min_bitmap_size ∧
    (has_few_bits w64 afl m).2.min_actual_cnts = afl.min_actual_cnts ∧
    (has_few_bits w64 afl m).2.actual_counts = afl.actual_counts ∧
    (has_few_bits w64 afl m).2.real_map_size = afl.real_map_size ∧
    (has_few_bits w64 afl m).2.testcase_matrix = afl.testcase_matrix := by
  simp only [has_few_bits, hm, Bool.not_true, Bool.false_eq_true, if_false]
  split <;> cases m <;> simp [afl_state.setVirgin, hm]

theorem few_bits_scan_virgin (w64 : Bool) (afl : afl_state) (m : VirginMap)
    (hT : afl.trace_bits.length = wordBytes w64 * scanWords w64 afl.real_map_size)
    (hV : (afl.getVirgin m).length = wordBytes w64 * scanWords w64 afl.real_map_size)
    (hVb : ∀ b ∈ afl.getVirgin m, b < 256) :
    (few_bits_scan w64 afl m).virgin =
      List.zipWith reset_byte (afl.getVirgin m) afl.trace_bits :=
  has_few_bits_loop_virgin w64 afl _ _ _ 0 0 hT hV hVb

theorem few_bits_scan_cov (w64 : Bool) (afl : afl_state) (m : VirginMap)
    (hT : afl.trace_bits.length = wordBytes w64 * scanWords w64 afl.real_map_size)
    (hV : (afl.getVirgin m).length = wordBytes w64 * scanWords w64 afl.real_map_size)
    (hVb : ∀ b ∈ afl.getVirgin m, b < 256) :
    (few_bits_scan w64 afl m).cov_decrease = 1 ↔
      ∃ i, i < (afl.getVirgin m).length ∧
        ((afl.getVirgin m).getD i 0 ≠ 0xFF ∧ afl.trace_bits.getD i 0 = 0) := by
  rw [← any_dropped_iff _ _ (by rw [hT, hV])]
  unfold few_bits_scan
  rw [has_few_bits_loop_cov w64 afl _ _ _ 0 0 hT hV hVb]
  cases (List.zipWith dropped (afl.getVirgin m) afl.trace_bits).any id <;> simp

theorem few_bits_scan_hcn (w64 : Bool) (afl : afl_state) (m : VirginMap) :
    (few_bits_scan w64 afl m).hcn_decrease = 1 ↔
      afl.actual_counts < afl.min_actual_cnts ∧
      ∃ j, j < scanWords w64 afl.real_map_size ∧
        ((wordAt w64 (afl.getVirgin m) j + 1) % 2 ^ (8 * wordBytes w64) ≠ 0 ∧
          (wordAt w64 afl.trace_bits j &&& wordAt w64 (afl.getVirgin m) j) ≠ 0) := by
  have h := has_few_bits_loop_hcn w64 afl (scanWords w64 afl.real_map_size) afl.trace_bits
    (afl.getVirgin m) 0 0
  unfold few_bits_scan
  constructor
  · intro h1
    by_contra hno
    have h0 := h.2 (by
      rintro ⟨j, hj, ha, hb, hc⟩
      exact hno ⟨hc, j, hj, ha, hb⟩)
    omega
  · rintro ⟨hc, j, hj, ha, hb⟩
    exact h.1 ⟨j, hj, ha, hb, hc⟩


/-! ## Claims about `has_few_bits` -/

/-- C4: when a testcase matrix is present, `has_few_bits` returns exactly
`0x10 | (bms<<2) | (cov<<1) | hcn` for the three flags `bms`, `cov`, `hcn` it
computed, each in `{0, 1}`; hence the result lies in `0x10..0x17` and is `0x10`
exactly when none of the three signals fired. -/
theorem has_few_bits_packed (w64 : Bool) (afl : afl_state) (m : VirginMap)
    (hm : afl.testcase_matrix = true) :
    (has_few_bits w64 afl m).1 =
      0x10 ||| (bms_decrease afl <<< 2) ||| ((few_bits_scan w64 afl m).cov_decrease <<< 1) |||
        (few_bits_scan w64 afl m).hcn_decrease ∧
    bms_decrease afl ≤ 1 ∧
    (few_bits_scan w64 afl m).cov_decrease ≤ 1 ∧
    (few_bits_scan w64 afl m).hcn_decrease ≤ 1 ∧
    0x10 ≤ (has_few_bits w64 afl m).1 ∧
    (has_few_bits w64 afl m).1 ≤ 0x17 ∧
    ((has_few_bits w64 afl m).1 = 0x10 ↔
      bms_decrease afl = 0 ∧ (few_bits_scan w64 afl m).cov_decrease = 0 ∧
        (few_bits_scan w64 afl m).hcn_decrease = 0) := by
  have hb := bms_decrease_le afl
  have hc := few_bits_scan_cov_le w64 afl m
  have hh := few_bits_scan_hcn_le w64 afl m
  obtain ⟨h1, _, _, _, h5, h6, h7⟩ := pack_flags _ _ _ hb hc hh
  rw [has_few_bits_fst w64 afl m hm]
  exact ⟨h1, hb, hc, hh, h5, h6, h7⟩

/-- Instance of C4 on boundary scenario 3. -/
theorem has_few_bits_packed_witness :
    (has_few_bits true scenario3 VirginMap.virgin_bits).1 =
      0x10 ||| (bms_decrease scenario3 <<< 2) |||
        ((few_bits_scan true scenario3 VirginMap.virgin_bits).cov_decrease <<< 1) |||
        (few_bits_scan true scenario3 VirginMap.virgin_bits).hcn_decrease ∧
    0x10 ≤ (has_few_bits true scenario3 VirginMap.virgin_bits).1 ∧
    (has_few_bits true scenario3 VirginMap.virgin_bits).1 ≤ 0x17 :=
  ⟨(has_few_bits_packed true scenario3 VirginMap.virgin_bits (by decide)).1,
    (has_few_bits_packed true scenario3 VirginMap.virgin_bits (by decide)).2.2.2.2.1,
    (has_few_bits_packed true scenario3 VirginMap.virgin_bits (by decide)).2.2.2.2.2.1⟩

/-- C5: when a testcase matrix is present, bit 1 (`cov`) of the result of
`has_few_bits` is set if and only if some byte index `i` has `virgin[i] != 0xFF`
(virgin as it was before the call) and `current[i] == 0`; the skip of all-`0xFF`
virgin words, which is part of the scan, does not change this answer. -/
theorem has_few_bits_cov_bit (w64 : Bool) (afl : afl_state) (m : VirginMap)
    (hm : afl.testcase_matrix = true)
    (hT : afl.trace_bits.length = wordBytes w64 * scanWords w64 afl.real_map_size)
    (hV : (afl.getVirgin m).length = wordBytes w64 * scanWords w64 afl.real_map_size)
    (hVb : ∀ b ∈ afl.getVirgin m, b < 256) :
    (has_few_bits w64 afl m).1.testBit 1 = true ↔
      ∃ i, i < (afl.getVirgin m).length ∧
        ((afl.getVirgin m).getD i 0 ≠ 0xFF ∧ afl.trace_bits.getD i 0 = 0) := by
  obtain ⟨_, _, h3, _⟩ := pack_flags _ _ _ (bms_decrease_le afl)
    (few_bits_scan_cov_le w64 afl m) (few_bits_scan_hcn_le w64 afl m)
  rw [has_few_bits_fst w64 afl m hm, h3, ← few_bits_scan_cov w64 afl m hT hV hVb]
  simp

/-- Instance of C5 on boundary scenario 3 (byte 1 was covered and is no longer hit). -/
theorem has_few_bits_cov_bit_witness :
    (has_few_bits true scenario3 VirginMap.virgin_bits).1.testBit 1 = true ↔
      ∃ i, i < (scenario3.getVirgin VirginMap.virgin_bits).length ∧
        ((scenario3.getVirgin VirginMap.virgin_bits).getD i 0 ≠ 0xFF ∧
          scenario3.trace_bits.getD i 0 = 0) :=
  has_few_bits_cov_bit true scenario3 VirginMap.virgin_bits
    (by decide) (by decide) (by decide) (by decide)

/-- C6 as stated fails: on an all-`0xFF` virgin map with trace
`[01 00 00 00 00 00 00 00]` and hit-count sum `7 < 10`, the word `0` has
`(current_word & virgin_word) != 0`, yet bit 0 (`hcn`) of the result is clear. -/
theorem has_few_bits_hcn_any_word_refuted :
    ¬ ((has_few_bits true untouchedHit VirginMap.virgin_bits).1.testBit 0 = true ↔
      (untouchedHit.actual_counts < untouchedHit.min_actual_cnts ∧
        ∃ j, j < scanWords true untouchedHit.real_map_size ∧
          (wordAt true untouchedHit.trace_bits j &&&
            wordAt true (untouchedHit.getVirgin VirginMap.virgin_bits) j) ≠ 0)) := by
  intro h
  have hr : untouchedHit.actual_counts < untouchedHit.min_actual_cnts ∧
      ∃ j, j < scanWords true untouchedHit.real_map_size ∧
        (wordAt true untouchedHit.trace_bits j &&&
          wordAt true (untouchedHit.getVirgin VirginMap.virgin_bits) j) ≠ 0 :=
    ⟨by decide, 0, by decide, by decide⟩
  have hbit := h.2 hr
  revert hbit
  decide

/-- C6, amended: when a testcase matrix is present, bit 0 (`hcn`) of the result
of `has_few_bits` is set if and only if `actual_counts < min_actual_cnts` and
there is a word position whose virgin word is not all-`0xFF` (its successor does
not wrap to zero) and where `(current_word & virgin_word) != 0`. -/
theorem has_few_bits_hcn_bit (w64 : Bool) (afl : afl_state) (m : VirginMap)
    (hm : afl.testcase_matrix = true) :
    (has_few_bits w64 afl m).1.testBit 0 = true ↔
      (afl.actual_counts < afl.min_actual_cnts ∧
        ∃ j, j < scanWords w64 afl.real_map_size ∧
          ((wordAt w64 (afl.getVirgin m) j + 1) % 2 ^ (8 * wordBytes w64) ≠ 0 ∧
            (wordAt w64 afl.trace_bits j &&& wordAt w64 (afl.getVirgin m) j) ≠ 0)) := by
  obtain ⟨_, _, _, h4, _⟩ := pack_flags _ _ _ (bms_decrease_le afl)
    (few_bits_scan_cov_le w64 afl m) (few_bits_scan_hcn_le w64 afl m)
  rw [has_few_bits_fst w64 afl m hm, h4, ← few_bits_scan_hcn w64 afl m]
  simp

/-- Instance of amended C6 on boundary scenario 3 (byte 2 is hit with a count not
yet cleared from the virgin map, and the hit-count sum `7` is below `10`). -/
theorem has_few_bits_hcn_bit_witness :
    (has_few_bits true scenario3 VirginMap.virgin_bits).1.testBit 0 = true ↔
      (scenario3.actual_counts < scenario3.min_actual_cnts ∧
        ∃ j, j < scanWords true scenario3.real_map_size ∧
          ((wordAt true (scenario3.getVirgin VirginMap.virgin_bits) j + 1) %
              2 ^ (8 * wordBytes true) ≠ 0 ∧
            (wordAt true scenario3.trace_bits j &&&
              wordAt true (scenario3.getVirgin VirginMap.virgin_bits) j) ≠ 0)) :=
  has_few_bits_hcn_bit true scenario3 VirginMap.virgin_bits (by decide)

/-- C7: when a testcase matrix is present, bit 2 (`bms`) of the result of
`has_few_bits` is set if and only if `count_bytes` of the current trace is
strictly less than `min_bitmap_size`; in particular equality does not fire it. -/
theorem has_few_bits_bms_bit (w64 : Bool) (afl : afl_state) (m : VirginMap)
    (hm : afl.testcase_matrix = true) :
    ((has_few_bits w64 afl m).1.testBit 2 = true ↔
      count_bytes afl afl.trace_bits < afl.min_bitmap_size) ∧
    (count_bytes afl afl.trace_bits = afl.min_bitmap_size →
      (has_few_bits w64 afl m).1.testBit 2 = false) := by
  obtain ⟨_, h2, _⟩ := pack_flags _ _ _ (bms_decrease_le afl)
    (few_bits_scan_cov_le w64 afl m) (few_bits_scan_hcn_le w64 afl m)
  rw [has_few_bits_fst w64 afl m hm, h2]
  unfold bms_decrease
  constructor
  · split <;> simp [*]
  · intro heq
    have hnlt : ¬ count_bytes afl afl.trace_bits < afl.min_bitmap_size := by omega
    simp [hnlt]

/-- Instance of C7 on boundary scenario 3 (one byte set, minimum three). -/
theorem has_few_bits_bms_bit_witness :
    (has_few_bits true scenario3 VirginMap.virgin_bits).1.testBit 2 = true ↔
      count_bytes scenario3 scenario3.trace_bits < scenario3.min_bitmap_size :=
  (has_few_bits_bms_bit true scenario3 VirginMap.virgin_bits (by decide)).1


theorem reset_byte_dropped (v c : Nat) (hv : v ≠ 0xFF) (hc : c = 0) : reset_byte v c = 0xFF := by
  subst hc
  simp [reset_byte, dropped, hv]

theorem reset_byte_keep (v c : Nat) (h : c ≠ 0 ∨ v = 0xFF) : reset_byte v c = v := by
  rcases h with hc | hv
  · simp [reset_byte, dropped, hc]
  · subst hv
    simp [reset_byte, dropped]

theorem has_few_bits_bytes (w64 : Bool) (afl : afl_state) (m : VirginMap)
    (hm : afl.testcase_matrix = true)
    (hT : afl.trace_bits.length = wordBytes w64 * scanWords w64 afl.real_map_size)
    (hV : (afl.getVirgin m).length = wordBytes w64 * scanWords w64 afl.real_map_size)
    (hVb : ∀ b ∈ afl.getVirgin m, b < 256) :
    ((has_few_bits w64 afl m).2.getVirgin m).length = (afl.getVirgin m).length ∧
    ∀ i, i < (afl.getVirgin m).length →
      ((has_few_bits w64 afl m).2.getVirgin m).getD i 0 =
        reset_byte ((afl.getVirgin m).getD i 0) (afl.trace_bits.getD i 0) := by
  have hlen : (afl.getVirgin m).length = afl.trace_bits.length := by rw [hT, hV]
  rw [has_few_bits_getVirgin w64 afl m hm, few_bits_scan_virgin w64 afl m hT hV hVb]
  exact ⟨by simp [hlen], fun i hi => getD_zipWith _ _ _ hlen i hi⟩

/-- C8: after `has_few_bits` with a testcase matrix present, for every byte `i`
where `trace[i] == 0` and the old virgin byte `V[i] != 0xFF`, the new virgin
byte is `V'[i] == 0xFF`. -/
theorem has_few_bits_resets_dropped (w64 : Bool) (afl : afl_state) (m : VirginMap)
    (hm : afl.testcase_matrix = true)
    (hT : afl.trace_bits.length = wordBytes w64 * scanWords w64 afl.real_map_size)
    (hV : (afl.getVirgin m).length = wordBytes w64 * scanWords w64 afl.real_map_size)
    (hVb : ∀ b ∈ afl.getVirgin m, b < 256) (i : Nat) (hi : i < (afl.getVirgin m).length)
    (ht : afl.trace_bits.getD i 0 = 0) (hv : (afl.getVirgin m).getD i 0 ≠ 0xFF) :
    ((has_few_bits w64 afl m).2.getVirgin m).getD i 0 = 0xFF := by
  rw [(has_few_bits_bytes w64 afl m hm hT hV hVb).2 i hi]
  exact reset_byte_dropped _ _ hv ht

/-- Instance of C8 on boundary scenario 3: byte 1 (`FC`, no longer hit) is reset. -/
theorem has_few_bits_resets_dropped_witness :
    ((has_few_bits true scenario3 VirginMap.virgin_bits).2.getVirgin
      VirginMap.virgin_bits).getD 1 0 = 0xFF :=
  has_few_bits_resets_dropped true scenario3 VirginMap.virgin_bits
    (by decide) (by decide) (by decide) (by decide) 1 (by decide) (by decide) (by decide)

/-- With a testcase matrix present, `has_few_bits` sets `bitmap_changed` when
`cov_decrease` is set and leaves it as it was otherwise, whatever map it was
given. -/
theorem has_few_bits_bitmap_changed (w64 : Bool) (afl : afl_state) (m : VirginMap)
    (hm : afl.testcase_matrix = true) :
    (has_few_bits w64 afl m).2.bitmap_changed =
      if (few_bits_scan w64 afl m).cov_decrease ≠ 0 then 1 else afl.bitmap_changed := by
  unfold has_few_bits
  rw [hm]
  simp only [Bool.not_true, Bool.false_eq_true, if_false]
  by_cases hc : (few_bits_scan w64 afl m).cov_decrease ≠ 0
  · rw [if_pos hc, if_pos hc]
  · rw [if_neg hc, if_neg hc]
    cases m <;> rfl

/-- C9 as stated fails: on boundary scenario 3, where the dirty flag is clear,
`has_few_bits` resets byte 1 of the virgin map and also sets `bitmap_changed`
to 1, for both word sizes: a field other than the reset bytes has changed. -/
theorem has_few_bits_frame_dirty_flag :
    scenario3.testcase_matrix = true ∧ scenario3.bitmap_changed = 0 ∧
    (has_few_bits true scenario3 VirginMap.virgin_bits).2.bitmap_changed = 1 ∧
    (has_few_bits false scenario3 VirginMap.virgin_bits).2.bitmap_changed = 1 := by
  decide

/-- C9, amended: `has_few_bits` with a testcase matrix present changes nothing
but the reset bytes of the map passed and the dirty flag `bitmap_changed`. Every
byte `i` of the map passed with `trace[i] != 0` or old `V[i] == 0xFF` keeps its
old value, no virgin bit is cleared at any byte (`V'[i] & V[i] == V[i]`), the
other virgin maps are untouched, and the trace, `min_bitmap_size`,
`min_actual_cnts`, `actual_counts`, `real_map_size` and the matrix pointer are
unchanged. The flag `bitmap_changed` is 1 after the call when some byte is reset
(a byte with old `V[i] != 0xFF` and `trace[i] == 0` exists) and keeps its value
when none is. -/
theorem has_few_bits_frame_effect (w64 : Bool) (afl : afl_state) (m : VirginMap)
    (hm : afl.testcase_matrix = true)
    (hT : afl.trace_bits.length = wordBytes w64 * scanWords w64 afl.real_map_size)
    (hV : (afl.getVirgin m).length = wordBytes w64 * scanWords w64 afl.real_map_size)
    (hVb : ∀ b ∈ afl.getVirgin m, b < 256) :
    ((has_few_bits w64 afl m).2.getVirgin m).length = (afl.getVirgin m).length ∧
    (∀ i, i < (afl.getVirgin m).length →
      (afl.trace_bits.getD i 0 ≠ 0 ∨ (afl.getVirgin m).getD i 0 = 0xFF) →
        ((has_few_bits w64 afl m).2.getVirgin m).getD i 0 = (afl.getVirgin m).getD i 0) ∧
    (∀ i, i < (afl.getVirgin m).length →
      ((has_few_bits w64 afl m).2.getVirgin m).getD i 0 &&& (afl.getVirgin m).getD i 0 =
        (afl.getVirgin m).getD i 0) ∧
    (∀ n, n ≠ m → (has_few_bits w64 afl m).2.getVirgin n = afl.getVirgin n) ∧
    (has_few_bits w64 afl m).2.trace_bits = afl.trace_bits ∧
    (has_few_bits w64 afl m).2.min_bitmap_size = afl.min_bitmap_size ∧
    (has_few_bits w64 afl m).2.min_actual_cnts = afl.min_actual_cnts ∧
    (has_few_bits w64 afl m).2.actual_counts = afl.actual_counts ∧
    (has_few_bits w64 afl m).2.real_map_size = afl.real_map_size ∧
    (has_few_bits w64 afl m).2.testcase_matrix = afl.testcase_matrix ∧
    ((∃ i, i < (afl.getVirgin m).length ∧
        ((afl.getVirgin m).getD i 0 ≠ 0xFF ∧ afl.trace_bits.getD i 0 = 0)) →
      (has_few_bits w64 afl m).2.bitmap_changed = 1) ∧
    ((¬∃ i, i < (afl.getVirgin m).length ∧
        ((afl.getVirgin m).getD i 0 ≠ 0xFF ∧ afl.trace_bits.getD i 0 = 0)) →
      (has_few_bits w64 afl m).2.bitmap_changed = afl.bitmap_changed) := by
  obtain ⟨hlen, hbytes⟩ := has_few_bits_bytes w64 afl m hm hT hV hVb
  obtain ⟨f1, f2, f3, f4, f5, f6⟩ := has_few_bits_frame w64 afl m hm
  have hbc := has_few_bits_bitmap_changed w64 afl m hm
  have hcov := few_bits_scan_cov w64 afl m hT hV hVb
  have hle := few_bits_scan_cov_le w64 afl m
  refine ⟨hlen, ?_, ?_, fun n hn => has_few_bits_getVirgin_ne w64 afl hm hn, f1, f2, f3, f4,
    f5, f6, ?_, ?_⟩
  · intro i hi hkeep
    rw [hbytes i hi]
    exact reset_byte_keep _ _ hkeep
  · intro i hi
    rw [hbytes i hi]
    unfold reset_byte
    split
    · rw [Nat.and_comm]
      exact and_ff_of_lt (getD_lt_of_forall_mem _ hVb i)
    · exact Nat.and_self _
  · intro hex
    have h1 := hcov.2 hex
    rw [hbc, if_pos (by omega)]
  · intro hno
    have h0 : (few_bits_scan w64 afl m).cov_decrease = 0 := by
      have hne : (few_bits_scan w64 afl m).cov_decrease ≠ 1 := fun h => hno (hcov.1 h)
      omega
    rw [hbc, if_neg (by omega)]

/-- Instance of amended C9 on boundary scenario 3: byte 2 (still hit) keeps its
value, the trace is unchanged, and the dirty flag is set because byte 1 is
reset. -/
theorem has_few_bits_frame_effect_witness :
    ((has_few_bits true scenario3 VirginMap.virgin_bits).2.getVirgin
        VirginMap.virgin_bits).getD 2 0 =
      (scenario3.getVirgin VirginMap.virgin_bits).getD 2 0 ∧
    (has_few_bits true scenario3 VirginMap.virgin_bits).2.trace_bits = scenario3.trace_bits ∧
    (has_few_bits true scenario3 VirginMap.virgin_bits).2.bitmap_changed = 1 :=
  ⟨(has_few_bits_frame_effect true scenario3 VirginMap.virgin_bits
      (by decide) (by decide) (by decide) (by decide)).2.1 2 (by decide) (Or.inl (by decide)),
    (has_few_bits_frame_effect true scenario3 VirginMap.virgin_bits
      (by decide) (by decide) (by decide) (by decide)).2.2.2.2.1,
    (has_few_bits_frame_effect true scenario3 VirginMap.virgin_bits
      (by decide) (by decide) (by decide) (by decide)).2.2.2.2.2.2.2.2.2.2.1
      ⟨1, by decide, by decide, by decide⟩⟩

/-! ## The virgin-map invariant -/

theorem has_few_bits_no_matrix (w64 : Bool) (afl : afl_state) (m : VirginMap)
    (hm : afl.testcase_matrix = false) : has_few_bits w64 afl m = has_new_bits w64 afl m := by
  simp [has_few_bits, hm]

/-- C10 as stated fails: with a testcase matrix present, virgin
`[FE FF FF FF FF FF FF FF]` and trace `[02 00 00 00 00 00 00 00]`,
`has_few_bits` leaves virgin byte 0 at `FE`, which is neither `0xFF` nor
disjoint from the trace byte `02`. -/
theorem virgin_invariant_refuted :
    ¬ ∀ i, i < 8 →
      ((has_few_bits true changedCount VirginMap.virgin_bits).2.getVirgin
          VirginMap.virgin_bits).getD i 0 = 0xFF ∨
        ((has_few_bits true changedCount VirginMap.virgin_bits).2.getVirgin
          VirginMap.virgin_bits).getD i 0 &&&
          (has_few_bits true changedCount VirginMap.virgin_bits).2.trace_bits.getD i 0 = 0 := by
  intro h
  have h0 := h 0 (by decide)
  revert h0
  decide

/-- C10, amended: after `has_new_bits`, and after `has_few_bits` without a
testcase matrix, every byte `i` of the virgin map passed satisfies
`virgin[i] == 0xFF` or `(virgin[i] & current[i]) == 0`; after `has_few_bits`
with a testcase matrix the property holds at every byte where it held before
the call. -/
theorem virgin_invariant (w64 : Bool) (afl : afl_state) (m : VirginMap)
    (hT : afl.trace_bits.length = wordBytes w64 * scanWords w64 afl.real_map_size)
    (hV : (afl.getVirgin m).length = wordBytes w64 * scanWords w64 afl.real_map_size)
    (hTb : ∀ b ∈ afl.trace_bits, b < 256) (hVb : ∀ b ∈ afl.getVirgin m, b < 256) :
    (∀ i, i < (afl.getVirgin m).length →
      ((has_new_bits w64 afl m).2.getVirgin m).getD i 0 = 0xFF ∨
        ((has_new_bits w64 afl m).2.getVirgin m).getD i 0 &&&
          (has_new_bits w64 afl m).2.trace_bits.getD i 0 = 0) ∧
    (afl.testcase_matrix = false →
      ∀ i, i < (afl.getVirgin m).length →
        ((has_few_bits w64 afl m).2.getVirgin m).getD i 0 = 0xFF ∨
          ((has_few_bits w64 afl m).2.getVirgin m).getD i 0 &&&
            (has_few_bits w64 afl m).2.trace_bits.getD i 0 = 0) ∧
    (afl.testcase_matrix = true →
      ∀ i, i < (afl.getVirgin m).length →
        ((afl.getVirgin m).getD i 0 = 0xFF ∨
          (afl.getVirgin m).getD i 0 &&& afl.trace_bits.getD i 0 = 0) →
        (((has_few_bits w64 afl m).2.getVirgin m).getD i 0 = 0xFF ∨
          ((has_few_bits w64 afl m).2.getVirgin m).getD i 0 &&&
            (has_few_bits w64 afl m).2.trace_bits.getD i 0 = 0)) := by
  have hnew : ∀ i, i < (afl.getVirgin m).length →
      ((has_new_bits w64 afl m).2.getVirgin m).getD i 0 = 0xFF ∨
        ((has_new_bits w64 afl m).2.getVirgin m).getD i 0 &&&
          (has_new_bits w64 afl m).2.trace_bits.getD i 0 = 0 := by
    obtain ⟨_, hbytes, htrace⟩ := has_new_bits_bytes w64 afl m hT hV hTb hVb
    intro i hi
    right
    rw [hbytes i hi, htrace, Nat.and_comm]
    exact and_not8_and_self (getD_lt_of_forall_mem _ hTb i) _
  refine ⟨hnew, ?_, ?_⟩
  · intro hm
    rw [has_few_bits_no_matrix w64 afl m hm]
    exact hnew
  · intro hm i hi hinv
    rw [(has_few_bits_bytes w64 afl m hm hT hV hVb).2 i hi,
      (has_few_bits_frame w64 afl m hm).1]
    unfold reset_byte
    split
    · exact Or.inl rfl
    · exact hinv

/-- Instance of amended C10 on boundary scenario 1, read at byte 1: the invariant
holds after `has_new_bits`. -/
theorem virgin_invariant_witness :
    ((has_new_bits true scenario1 VirginMap.virgin_bits).2.getVirgin
        VirginMap.virgin_bits).getD 1 0 = 0xFF ∨
      ((has_new_bits true scenario1 VirginMap.virgin_bits).2.getVirgin
        VirginMap.virgin_bits).getD 1 0 &&&
        (has_new_bits true scenario1 VirginMap.virgin_bits).2.trace_bits.getD 1 0 = 0 :=
  (virgin_invariant true scenario1 VirginMap.virgin_bits
    (by decide) (by decide) (by decide) (by decide)).1 1 (by decide)

/-! ## Boundary scenario 3 and the delegation to `has_new_bits` -/

/-- C11 as stated fails: on boundary scenario 3 `has_few_bits` does not return
`0x16`, for either word size. -/
theorem scenario3_not_0x16 :
    (has_few_bits true scenario3 VirginMap.virgin_bits).1 ≠ 0x16 ∧
    (has_few_bits false scenario3 VirginMap.virgin_bits).1 ≠ 0x16 := by
  decide

/-- C11, amended: on boundary scenario 3 (matrix present, eight-byte map,
`min_bitmap_size = 3`, `min_actual_cnts = 10`, `actual_counts = 7`, virgin
`[FF FC FC FF FF FF FF FF]`, trace `[00 00 04 00 00 00 00 00]`) `has_few_bits`
returns `0x17` (`bms = 1`, `cov = 1`, `hcn = 1`: byte 2 has `04 & FC != 0` in a
word that is not all-`0xFF`, and `7 < 10`) and the virgin map becomes
`[FF FF FC FF FF FF FF FF]`. -/
theorem scenario3_result (w64 : Bool) :
    (has_few_bits w64 scenario3 VirginMap.virgin_bits).1 = 0x17 ∧
    bms_decrease scenario3 = 1 ∧
    (few_bits_scan w64 scenario3 VirginMap.virgin_bits).cov_decrease = 1 ∧
    (few_bits_scan w64 scenario3 VirginMap.virgin_bits).hcn_decrease = 1 ∧
    (has_few_bits w64 scenario3 VirginMap.virgin_bits).2.virgin_bits =
      [0xFF, 0xFF, 0xFC, 0xFF, 0xFF, 0xFF, 0xFF, 0xFF] := by
  cases w64 <;> decide

theorem has_new_bits_loop_le_two (w64 : Bool) (i : Nat) (cur vir : List Nat) (ret : Nat)
    (h : ret ≤ 2) : (has_new_bits_loop w64 i cur vir ret).1 ≤ 2 := by
  induction i generalizing cur vir ret with
  | zero => simpa [has_new_bits_loop] using h
  | succ i ih =>
    simp only [has_new_bits_loop]
    apply ih
    split
    · exact discover_word_le_two ret _ _ h
    · exact h

/-- C12: if no testcase matrix exists, `has_few_bits` is exactly `has_new_bits`:
it returns the same value, which is `0`, `1` or `2` (never `0x10..0x17`), and
leaves the same state, the virgin map and the dirty flag included. -/
theorem has_few_bits_delegates (w64 : Bool) (afl : afl_state) (m : VirginMap)
    (hm : afl.testcase_matrix = false) :
    has_few_bits w64 afl m = has_new_bits w64 afl m ∧
    (has_few_bits w64 afl m).1 = (has_new_bits w64 afl m).1 ∧
    (has_few_bits w64 afl m).1 ≤ 2 ∧
    (has_few_bits w64 afl m).2.getVirgin m = (has_new_bits w64 afl m).2.getVirgin m ∧
    (has_few_bits w64 afl m).2.bitmap_changed = (has_new_bits w64 afl m).2.bitmap_changed := by
  have h := has_few_bits_no_matrix w64 afl m hm
  rw [h]
  exact ⟨rfl, rfl, has_new_bits_loop_le_two w64 _ _ _ 0 (by decide), rfl, rfl⟩

/-- Instance of C12 on boundary scenario 1 (no matrix). -/
theorem has_few_bits_delegates_witness :
    has_few_bits true scenario1 VirginMap.virgin_bits =
      has_new_bits true scenario1 VirginMap.virgin_bits ∧
    (has_few_bits true scenario1 VirginMap.virgin_bits).1 ≤ 2 :=
  ⟨(has_few_bits_delegates true scenario1 VirginMap.virgin_bits (by decide)).1,
    (has_few_bits_delegates true scenario1 VirginMap.virgin_bits (by decide)).2.2.1⟩

/-! ## Bitwise AND over byte positions -/

theorem land_split (k a b c d : Nat) (hb : b < 2 ^ k) (hd : d < 2 ^ k) :
    (2 ^ k * a + b) &&& (2 ^ k * c + d) = 2 ^ k * (a &&& c) + (b &&& d) := by
  apply Nat.eq_of_testBit_eq
  intro j
  have hbd : b &&& d < 2 ^ k := Nat.and_lt_two_pow b hd
  rw [Nat.testBit_and, Nat.testBit_mul_pow_two_add a hb, Nat.testBit_mul_pow_two_add c hd,
    Nat.testBit_mul_pow_two_add (a &&& c) hbd]
  by_cases h : j < k
  · simp [h]
  · simp [h]

theorem loadLE_four (b0 b1 b2 b3 : Nat) :
    loadLE [b0, b1, b2, b3] = b0 + 256 * b1 + 65536 * b2 + 16777216 * b3 := by
  simp only [loadLE]
  omega

set_option maxHeartbeats 2000000 in
theorem and_bytes4 (a0 a1 a2 a3 m0 m1 m2 m3 : Nat)
    (ha0 : a0 < 256) (ha1 : a1 < 256) (ha2 : a2 < 256)
    (hm0 : m0 < 256) (hm1 : m1 < 256) (hm2 : m2 < 256) :
    (a0 + 256 * a1 + 65536 * a2 + 16777216 * a3) &&&
        (m0 + 256 * m1 + 65536 * m2 + 16777216 * m3) =
      (a0 &&& m0) + 256 * (a1 &&& m1) + 65536 * (a2 &&& m2) + 16777216 * (a3 &&& m3) := by
  have e1 : a0 + 256 * a1 + 65536 * a2 + 16777216 * a3 =
      2 ^ 8 * (2 ^ 8 * (2 ^ 8 * a3 + a2) + a1) + a0 := by
    norm_num; omega
  have e2 : m0 + 256 * m1 + 65536 * m2 + 16777216 * m3 =
      2 ^ 8 * (2 ^ 8 * (2 ^ 8 * m3 + m2) + m1) + m0 := by
    norm_num; omega
  rw [e1, e2, land_split 8 _ a0 _ m0 (by simpa using ha0) (by simpa using hm0),
    land_split 8 _ a1 _ m1 (by simpa using ha1) (by simpa using hm1),
    land_split 8 _ a2 _ m2 (by simpa using ha2) (by simpa using hm2)]
  norm_num
  omega

theorem and_mask_byte0 (b0 b1 b2 b3 : Nat) (h0 : b0 < 256) (h1 : b1 < 256) (h2 : b2 < 256)
    (_h3 : b3 < 256) : loadLE [b0, b1, b2, b3] &&& 0x000000ff = b0 := by
  have e : (0x000000ff : Nat) = 255 + 256 * 0 + 65536 * 0 + 16777216 * 0 := by norm_num
  rw [loadLE_four, e, and_bytes4 _ _ _ _ _ _ _ _ h0 h1 h2 (by decide) (by decide) (by decide),
    and_ff_of_lt h0]
  simp

theorem and_mask_byte1 (b0 b1 b2 b3 : Nat) (h0 : b0 < 256) (h1 : b1 < 256) (h2 : b2 < 256)
    (_h3 : b3 < 256) : loadLE [b0, b1, b2, b3] &&& 0x0000ff00 = 256 * b1 := by
  have e : (0x0000ff00 : Nat) = 0 + 256 * 255 + 65536 * 0 + 16777216 * 0 := by norm_num
  rw [loadLE_four, e, and_bytes4 _ _ _ _ _ _ _ _ h0 h1 h2 (by decide) (by decide) (by decide),
    and_ff_of_lt h1]
  simp

theorem and_mask_byte2 (b0 b1 b2 b3 : Nat) (h0 : b0 < 256) (h1 : b1 < 256) (h2 : b2 < 256)
    (_h3 : b3 < 256) : loadLE [b0, b1, b2, b3] &&& 0x00ff0000 = 65536 * b2 := by
  have e : (0x00ff0000 : Nat) = 0 + 256 * 0 + 65536 * 255 + 16777216 * 0 := by norm_num
  rw [loadLE_four, e, and_bytes4 _ _ _ _ _ _ _ _ h0 h1 h2 (by decide) (by decide) (by decide),
    and_ff_of_lt h2]
  simp

theorem and_mask_byte3 (b0 b1 b2 b3 : Nat) (h0 : b0 < 256) (h1 : b1 < 256) (h2 : b2 < 256)
    (h3 : b3 < 256) : loadLE [b0, b1, b2, b3] &&& 0xff000000 = 16777216 * b3 := by
  have e : (0xff000000 : Nat) = 0 + 256 * 0 + 65536 * 0 + 16777216 * 255 := by norm_num
  rw [loadLE_four, e, and_bytes4 _ _ _ _ _ _ _ _ h0 h1 h2 (by decide) (by decide) (by decide),
    and_ff_of_lt h3]
  simp

/-! ## `count_bytes` counts the non-zero bytes -/

theorem exists_four_of_length {mem : List Nat} {i : Nat} (h : mem.length = 4 * (i + 1)) :
    ∃ b0 b1 b2 b3 rest, mem = b0 :: b1 :: b2 :: b3 :: rest ∧ rest.length = 4 * i := by
  match mem, h with
  | b0 :: b1 :: b2 :: b3 :: rest, h =>
    exact ⟨b0, b1, b2, b3, rest, rfl, by simp at h; omega⟩

theorem nonzeroBytes_four (b0 b1 b2 b3 : Nat) (rest : List Nat) :
    nonzeroBytes (b0 :: b1 :: b2 :: b3 :: rest) =
      (if b0 ≠ 0 then 1 else 0) + (if b1 ≠ 0 then 1 else 0) + (if b2 ≠ 0 then 1 else 0) +
        (if b3 ≠ 0 then 1 else 0) + nonzeroBytes rest := by
  simp only [nonzeroBytes, List.countP_cons]
  by_cases h0 : b0 = 0 <;> by_cases h1 : b1 = 0 <;> by_cases h2 : b2 = 0 <;>
    by_cases h3 : b3 = 0 <;> simp [h0, h1, h2, h3] <;> omega

set_option maxHeartbeats 2000000 in
theorem count_bytes_loop_eq (i : Nat) (mem : List Nat) (ret : Nat)
    (hlen : mem.length = 4 * i) (hb : ∀ b ∈ mem, b < 256) (hret : ret + 4 * i < 2 ^ 32) :
    count_bytes_loop i mem ret = ret + nonzeroBytes mem := by
  induction i generalizing mem ret with
  | zero =>
    have h1 : mem = [] := List.length_eq_zero.1 (by simpa using hlen)
    subst h1
    simp [count_bytes_loop, nonzeroBytes]
  | succ i ih =>
    obtain ⟨b0, b1, b2, b3, rest, rfl, hrest⟩ := exists_four_of_length hlen
    have h0 : b0 < 256 := hb b0 (by simp)
    have h1 : b1 < 256 := hb b1 (by simp)
    have h2 : b2 < 256 := hb b2 (by simp)
    have h3 : b3 < 256 := hb b3 (by simp)
    have hbr : ∀ b ∈ rest, b < 256 := fun b hbm => hb b (by simp [hbm])
    have htake : (b0 :: b1 :: b2 :: b3 :: rest).take 4 = [b0, b1, b2, b3] := by simp
    have hdrop : (b0 :: b1 :: b2 :: b3 :: rest).drop 4 = rest := by simp
    have key : ∀ e, e = ret + (if b0 ≠ 0 then 1 else 0) + (if b1 ≠ 0 then 1 else 0) +
        (if b2 ≠ 0 then 1 else 0) + (if b3 ≠ 0 then 1 else 0) →
        count_bytes_loop i rest e =
          ret + ((if b0 ≠ 0 then 1 else 0) + (if b1 ≠ 0 then 1 else 0) +
            (if b2 ≠ 0 then 1 else 0) + (if b3 ≠ 0 then 1 else 0) + nonzeroBytes rest) := by
      intro e he
      rw [ih rest e hrest hbr (by rw [he]; split_ifs <;> omega), he]
      omega
    rw [count_bytes_loop, htake, hdrop, nonzeroBytes_four]
    simp only [and_mask_byte0 b0 b1 b2 b3 h0 h1 h2 h3, and_mask_byte1 b0 b1 b2 b3 h0 h1 h2 h3,
      and_mask_byte2 b0 b1 b2 b3 h0 h1 h2 h3, and_mask_byte3 b0 b1 b2 b3 h0 h1 h2 h3]
    simp only [loadLE_four]
    apply key
    by_cases e0 : b0 = 0 <;> by_cases e1 : b1 = 0 <;> by_cases e2 : b2 = 0 <;>
      by_cases e3 : b3 = 0 <;>
      simp [e0, e1, e2, e3] <;> omega

/-- C14: for every bitmap whose length is a multiple of 4 bytes (the words
`count_bytes` scans), `count_bytes` returns the number of byte positions whose
value is non-zero. -/
theorem count_bytes_nonzero (afl : afl_state) (mem : List Nat)
    (hlen : mem.length = 4 * (((afl.real_map_size + 3) % 2 ^ 32) >>> 2))
    (hb : ∀ b ∈ mem, b < 256) :
    count_bytes afl mem = nonzeroBytes mem := by
  have hi : 4 * (((afl.real_map_size + 3) % 2 ^ 32) >>> 2) < 2 ^ 32 := by
    rw [Nat.shiftRight_eq_div_pow]
    omega
  unfold count_bytes
  rw [count_bytes_loop_eq _ mem 0 hlen hb (by omega)]
  omega

/-- Instance of C14 on the trace of boundary scenario 3 (one byte set). -/
theorem count_bytes_nonzero_witness :
    count_bytes scenario3 scenario3.trace_bits = nonzeroBytes scenario3.trace_bits ∧
    nonzeroBytes scenario3.trace_bits = 1 :=
  ⟨count_bytes_nonzero scenario3 scenario3.trace_bits (by decide) (by decide), by decide⟩

/-! ## `count_bits`: the SWAR population count -/

set_option maxRecDepth 100000 in
theorem swar_byte : ∀ b, b < 256 →
    swarNibbles (swarPairs b) % 16 ≤ 4 ∧ swarNibbles (swarPairs b) / 16 ≤ 4 ∧
      swarNibbles (swarPairs b) % 16 + swarNibbles (swarPairs b) / 16 = popcount8 b := by
  decide

theorem and_drop_high (k y c m : Nat) (hy : y < 2 ^ k) (hm : m < 2 ^ k) :
    (y + 2 ^ k * c) &&& m = y &&& m := by
  have h := land_split k c y 0 m hy hm
  simp only [Nat.mul_zero, Nat.zero_add, Nat.and_zero] at h
  rw [Nat.add_comm]
  exact h

theorem swarPairs_le (b : Nat) : swarPairs b ≤ b := Nat.sub_le _ _

set_option maxHeartbeats 2000000 in
/-- First SWAR step on a word acts on each byte separately. -/
theorem swar_step1 (b0 b1 b2 b3 : Nat) (h0 : b0 < 256) (h1 : b1 < 256) (h2 : b2 < 256)
    (_h3 : b3 < 256) :
    (loadLE [b0, b1, b2, b3] + 2 ^ 32 - ((loadLE [b0, b1, b2, b3] >>> 1) &&& 0x55555555)) %
        2 ^ 32 =
      loadLE [swarPairs b0, swarPairs b1, swarPairs b2, swarPairs b3] := by
  have hs : loadLE [b0, b1, b2, b3] >>> 1 =
      (b0 / 2 + 2 ^ 7 * (b1 % 2)) + 256 * (b1 / 2 + 2 ^ 7 * (b2 % 2)) +
        65536 * (b2 / 2 + 2 ^ 7 * (b3 % 2)) + 16777216 * (b3 / 2) := by
    rw [Nat.shiftRight_eq_div_pow, loadLE_four]
    omega
  have hm : (0x55555555 : Nat) = 0x55 + 256 * 0x55 + 65536 * 0x55 + 16777216 * 0x55 := by
    norm_num
  rw [hs, hm, and_bytes4 _ _ _ _ _ _ _ _ (by omega) (by omega) (by omega) (by decide)
      (by decide) (by decide),
    and_drop_high 7 (b0 / 2) _ 0x55 (by omega) (by decide),
    and_drop_high 7 (b1 / 2) _ 0x55 (by omega) (by decide),
    and_drop_high 7 (b2 / 2) _ 0x55 (by omega) (by decide)]
  have e0 : (b0 / 2) &&& 0x55 ≤ b0 / 2 := Nat.and_le_left
  have e1 : (b1 / 2) &&& 0x55 ≤ b1 / 2 := Nat.and_le_left
  have e2 : (b2 / 2) &&& 0x55 ≤ b2 / 2 := Nat.and_le_left
  have e3 : (b3 / 2) &&& 0x55 ≤ b3 / 2 := Nat.and_le_left
  simp only [loadLE_four, swarPairs]
  generalize (b0 / 2) &&& 0x55 = s0 at e0 ⊢
  generalize (b1 / 2) &&& 0x55 = s1 at e1 ⊢
  generalize (b2 / 2) &&& 0x55 = s2 at e2 ⊢
  generalize (b3 / 2) &&& 0x55 = s3 at e3 ⊢
  obtain ⟨c0, rfl⟩ : ∃ c, b0 = s0 + c := ⟨b0 - s0, by omega⟩
  obtain ⟨c1, rfl⟩ : ∃ c, b1 = s1 + c := ⟨b1 - s1, by omega⟩
  obtain ⟨c2, rfl⟩ : ∃ c, b2 = s2 + c := ⟨b2 - s2, by omega⟩
  obtain ⟨c3, rfl⟩ : ∃ c, b3 = s3 + c := ⟨b3 - s3, by omega⟩
  have hL : s0 + c0 + 256 * (s1 + c1) + 65536 * (s2 + c2) + 16777216 * (s3 + c3) + 2 ^ 32 -
      (s0 + 256 * s1 + 65536 * s2 + 16777216 * s3) =
      2 ^ 32 + (c0 + 256 * c1 + 65536 * c2 + 16777216 * c3) := by omega
  rw [hL, Nat.add_mod_left, Nat.mod_eq_of_lt (by omega), Nat.add_sub_cancel_left,
    Nat.add_sub_cancel_left, Nat.add_sub_cancel_left, Nat.add_sub_cancel_left]

set_option maxHeartbeats 2000000 in
/-- Second SWAR step on a word acts on each byte separately. -/
theorem swar_step2 (c0 c1 c2 c3 : Nat) (h0 : c0 < 256) (h1 : c1 < 256) (h2 : c2 < 256)
    (_h3 : c3 < 256) :
    ((loadLE [c0, c1, c2, c3] &&& 0x33333333) +
        ((loadLE [c0, c1, c2, c3] >>> 2) &&& 0x33333333)) % 2 ^ 32 =
      loadLE [swarNibbles c0, swarNibbles c1, swarNibbles c2, swarNibbles c3] := by
  have hs : loadLE [c0, c1, c2, c3] >>> 2 =
      (c0 / 4 + 2 ^ 6 * (c1 % 4)) + 256 * (c1 / 4 + 2 ^ 6 * (c2 % 4)) +
        65536 * (c2 / 4 + 2 ^ 6 * (c3 % 4)) + 16777216 * (c3 / 4) := by
    rw [Nat.shiftRight_eq_div_pow, loadLE_four]
    omega
  have hm : (0x33333333 : Nat) = 0x33 + 256 * 0x33 + 65536 * 0x33 + 16777216 * 0x33 := by
    norm_num
  rw [hs, hm, and_bytes4 _ _ _ _ _ _ _ _ (by omega) (by omega) (by omega) (by decide)
      (by decide) (by decide),
    and_drop_high 6 (c0 / 4) _ 0x33 (by omega) (by decide),
    and_drop_high 6 (c1 / 4) _ 0x33 (by omega) (by decide),
    and_drop_high 6 (c2 / 4) _ 0x33 (by omega) (by decide),
    loadLE_four, and_bytes4 _ _ _ _ _ _ _ _ h0 h1 h2 (by decide) (by decide) (by decide)]
  have e0 : c0 &&& 0x33 ≤ 0x33 := Nat.and_le_right
  have e1 : c1 &&& 0x33 ≤ 0x33 := Nat.and_le_right
  have e2 : c2 &&& 0x33 ≤ 0x33 := Nat.and_le_right
  have e3 : c3 &&& 0x33 ≤ 0x33 := Nat.and_le_right
  have f0 : (c0 / 4) &&& 0x33 ≤ 0x33 := Nat.and_le_right
  have f1 : (c1 / 4) &&& 0x33 ≤ 0x33 := Nat.and_le_right
  have f2 : (c2 / 4) &&& 0x33 ≤ 0x33 := Nat.and_le_right
  have f3 : (c3 / 4) &&& 0x33 ≤ 0x33 := Nat.and_le_right
  simp only [loadLE_four, swarNibbles]
  generalize c0 &&& 0x33 = s0 at e0 ⊢
  generalize c1 &&& 0x33 = s1 at e1 ⊢
  generalize c2 &&& 0x33 = s2 at e2 ⊢
  generalize c3 &&& 0x33 = s3 at e3 ⊢
  generalize (c0 / 4) &&& 0x33 = t0 at f0 ⊢
  generalize (c1 / 4) &&& 0x33 = t1 at f1 ⊢
  generalize (c2 / 4) &&& 0x33 = t2 at f2 ⊢
  generalize (c3 / 4) &&& 0x33 = t3 at f3 ⊢
  rw [Nat.mod_eq_of_lt (by omega)]
  omega

set_option maxHeartbeats 2000000 in
/-- Last SWAR step: fold the nibbles of each byte and sum the four bytes in the
top byte of the wrapping product. -/
theorem swar_step3 (d0 d1 d2 d3 : Nat)
    (l0 : d0 % 16 ≤ 4) (u0 : d0 / 16 ≤ 4) (l1 : d1 % 16 ≤ 4) (u1 : d1 / 16 ≤ 4)
    (l2 : d2 % 16 ≤ 4) (u2 : d2 / 16 ≤ 4) (l3 : d3 % 16 ≤ 4) (u3 : d3 / 16 ≤ 4) :
    (((((loadLE [d0, d1, d2, d3] + (loadLE [d0, d1, d2, d3] >>> 4)) % 2 ^ 32) &&& 0xF0F0F0F) *
        0x01010101) % 2 ^ 32) >>> 24 =
      (d0 % 16 + d0 / 16) + (d1 % 16 + d1 / 16) + (d2 % 16 + d2 / 16) + (d3 % 16 + d3 / 16) := by
  have hs : (loadLE [d0, d1, d2, d3] + (loadLE [d0, d1, d2, d3] >>> 4)) % 2 ^ 32 =
      (d0 + d0 / 16 + 16 * (d1 % 16)) + 256 * (d1 + d1 / 16 + 16 * (d2 % 16)) +
        65536 * (d2 + d2 / 16 + 16 * (d3 % 16)) + 16777216 * (d3 + d3 / 16) := by
    rw [Nat.shiftRight_eq_div_pow, loadLE_four]
    have hd : (d0 + 256 * d1 + 65536 * d2 + 16777216 * d3) / 2 ^ 4 =
        d0 / 16 + 16 * d1 + 4096 * d2 + 1048576 * d3 := by omega
    have q0 : d0 = 16 * (d0 / 16) + d0 % 16 := by omega
    have q1 : d1 = 16 * (d1 / 16) + d1 % 16 := by omega
    have q2 : d2 = 16 * (d2 / 16) + d2 % 16 := by omega
    have q3 : d3 = 16 * (d3 / 16) + d3 % 16 := by omega
    rw [hd, Nat.mod_eq_of_lt (by omega)]
    omega
  have hm : (0xF0F0F0F : Nat) = 0xF + 256 * 0xF + 65536 * 0xF + 16777216 * 0xF := by
    norm_num
  have hF : ∀ x : Nat, x &&& 0xF = x % 16 := fun x => by
    have h := Nat.and_pow_two_sub_one_eq_mod x 4
    simpa using h
  rw [hs, hm, and_bytes4 _ _ _ _ _ _ _ _ (by omega) (by omega) (by omega) (by decide)
      (by decide) (by decide), hF, hF, hF, hF, Nat.shiftRight_eq_div_pow]
  have x0 : (d0 + d0 / 16 + 16 * (d1 % 16)) % 16 = d0 % 16 + d0 / 16 := by omega
  have x1 : (d1 + d1 / 16 + 16 * (d2 % 16)) % 16 = d1 % 16 + d1 / 16 := by omega
  have x2 : (d2 + d2 / 16 + 16 * (d3 % 16)) % 16 = d2 % 16 + d2 / 16 := by omega
  have x3 : (d3 + d3 / 16) % 16 = d3 % 16 + d3 / 16 := by omega
  rw [x0, x1, x2, x3]
  clear hs x0 x1 x2 x3
  have b0 : d0 % 16 + d0 / 16 ≤ 8 := by omega
  have b1 : d1 % 16 + d1 / 16 ≤ 8 := by omega
  have b2 : d2 % 16 + d2 / 16 ≤ 8 := by omega
  have b3 : d3 % 16 + d3 / 16 ≤ 8 := by omega
  generalize d0 % 16 + d0 / 16 = e0 at b0 ⊢
  generalize d1 % 16 + d1 / 16 = e1 at b1 ⊢
  generalize d2 % 16 + d2 / 16 = e2 at b2 ⊢
  generalize d3 % 16 + d3 / 16 = e3 at b3 ⊢
  have hP : (e0 + 256 * e1 + 65536 * e2 + 16777216 * e3) * 0x01010101 =
      2 ^ 32 * (e1 + e2 + e3 + 256 * (e2 + e3) + 65536 * e3) +
        (e0 + 256 * (e0 + e1) + 65536 * (e0 + e1 + e2) + 16777216 * (e0 + e1 + e2 + e3)) := by
    ring
  rw [hP, Nat.mul_add_mod, Nat.mod_eq_of_lt (by omega)]
  omega

theorem popcount_four (b0 b1 b2 b3 : Nat) (rest : List Nat) :
    popcount (b0 :: b1 :: b2 :: b3 :: rest) =
      popcount8 b0 + popcount8 b1 + popcount8 b2 + popcount8 b3 + popcount rest := by
  simp only [popcount, List.map_cons, List.sum_cons]
  omega

set_option maxHeartbeats 2000000 in
theorem count_bits_loop_eq (i : Nat) (mem : List Nat) (ret : Nat)
    (hlen : mem.length = 4 * i) (hb : ∀ b ∈ mem, b < 256) (hret : ret < 2 ^ 32) :
    count_bits_loop i mem ret = (ret + popcount mem) % 2 ^ 32 := by
  induction i generalizing mem ret with
  | zero =>
    have h1 : mem = [] := List.length_eq_zero.1 (by simpa using hlen)
    subst h1
    simp only [count_bits_loop, popcount, List.map_nil, List.sum_nil, Nat.add_zero]
    exact (Nat.mod_eq_of_lt hret).symm
  | succ i ih =>
    obtain ⟨b0, b1, b2, b3, rest, rfl, hrest⟩ := exists_four_of_length hlen
    have h0 : b0 < 256 := hb b0 (by simp)
    have h1 : b1 < 256 := hb b1 (by simp)
    have h2 : b2 < 256 := hb b2 (by simp)
    have h3 : b3 < 256 := hb b3 (by simp)
    have hbr : ∀ b ∈ rest, b < 256 := fun b hbm => hb b (by simp [hbm])
    have htake : (b0 :: b1 :: b2 :: b3 :: rest).take 4 = [b0, b1, b2, b3] := by simp
    have hdrop : (b0 :: b1 :: b2 :: b3 :: rest).drop 4 = rest := by simp
    obtain ⟨l0, u0, p0⟩ := swar_byte b0 h0
    obtain ⟨l1, u1, p1⟩ := swar_byte b1 h1
    obtain ⟨l2, u2, p2⟩ := swar_byte b2 h2
    obtain ⟨l3, u3, p3⟩ := swar_byte b3 h3
    have key : ∀ e, e = (ret + (popcount8 b0 + popcount8 b1 + popcount8 b2 + popcount8 b3)) %
        2 ^ 32 →
        count_bits_loop i rest e =
          (ret + (popcount8 b0 + popcount8 b1 + popcount8 b2 + popcount8 b3 + popcount rest)) %
            2 ^ 32 := by
      intro e he
      rw [ih rest e hrest hbr (by rw [he]; exact Nat.mod_lt _ (by decide)), he]
      omega
    rw [count_bits_loop, htake, hdrop, popcount_four]
    simp only [swar_step1 b0 b1 b2 b3 h0 h1 h2 h3,
      swar_step2 (swarPairs b0) (swarPairs b1) (swarPairs b2) (swarPairs b3)
        (Nat.lt_of_le_of_lt (swarPairs_le b0) h0) (Nat.lt_of_le_of_lt (swarPairs_le b1) h1)
        (Nat.lt_of_le_of_lt (swarPairs_le b2) h2) (Nat.lt_of_le_of_lt (swarPairs_le b3) h3),
      swar_step3 _ _ _ _ l0 u0 l1 u1 l2 u2 l3 u3]
    apply key
    split
    · next hall =>
      rw [loadLE_four] at hall
      have e0 : b0 = 255 := by omega
      have e1 : b1 = 255 := by omega
      have e2 : b2 = 255 := by omega
      have e3 : b3 = 255 := by omega
      subst e0 e1 e2 e3
      have h8 : popcount8 255 = 8 := by decide
      rw [h8]
    · rw [p0, p1, p2, p3]

theorem popcount8_le (b : Nat) : popcount8 b ≤ 8 := by
  unfold popcount8
  exact (List.length_filter_le _ _).trans (by simp)

theorem popcount_le (mem : List Nat) : popcount mem ≤ 8 * mem.length := by
  induction mem with
  | nil => simp [popcount]
  | cons b bs ih =>
    have h := popcount8_le b
    simp only [popcount, List.map_cons, List.sum_cons, List.length_cons] at ih ⊢
    omega

theorem popcount_replicate_ff (n : Nat) : popcount (List.replicate n 0xFF) = 8 * n := by
  induction n with
  | zero => simp [popcount]
  | succ n ih =>
    have h8 : popcount8 0xFF = 8 := by decide
    simp only [popcount, List.replicate_succ, List.map_cons, List.sum_cons, h8] at ih ⊢
    omega

theorem count_bits_mod (afl : afl_state) (mem : List Nat)
    (hlen : mem.length = 4 * (((afl.real_map_size + 3) % 2 ^ 32) >>> 2))
    (hb : ∀ b ∈ mem, b < 256) :
    count_bits afl mem = popcount mem % 2 ^ 32 := by
  unfold count_bits
  rw [count_bits_loop_eq _ mem 0 hlen hb (by decide), Nat.zero_add]

/-- C13 as stated fails: on a 512 MiB map whose bytes are all `0xFF` the
population count is `2 ^ 32`, and `count_bits`, accumulating in a `u32`,
returns `0`. -/
theorem count_bits_wraps :
    count_bits hugeMap (List.replicate (2 ^ 29) 0xFF) = 0 ∧
    popcount (List.replicate (2 ^ 29) 0xFF) = 2 ^ 32 ∧
    count_bits hugeMap (List.replicate (2 ^ 29) 0xFF) ≠
      popcount (List.replicate (2 ^ 29) 0xFF) := by
  have hc := count_bits_mod hugeMap (List.replicate (2 ^ 29) 0xFF)
    (by rw [List.length_replicate]; decide)
    (fun b hbm => by rw [List.eq_of_mem_replicate hbm]; decide)
  have hp := popcount_replicate_ff (2 ^ 29)
  rw [hp] at hc
  have hc0 : count_bits hugeMap (List.replicate (2 ^ 29) 0xFF) = 0 := by
    rw [hc]
    norm_num
  refine ⟨hc0, by rw [hp]; norm_num, ?_⟩
  rw [hc0, hp]
  norm_num

/-- C13, amended: for every bitmap whose length is a multiple of 4 bytes (the
words `count_bits` scans), `count_bits` returns the population count of the
whole map (the sum over all bytes of the number of `1` bits in that byte)
reduced modulo `2 ^ 32`, the width of its accumulator; it is the population
count itself whenever that is below `2 ^ 32`, in particular for every map
shorter than `2 ^ 29` bytes. The all-ones fast path and the wrapping SWAR
arithmetic never change this value. -/
theorem count_bits_popcount (afl : afl_state) (mem : List Nat)
    (hlen : mem.length = 4 * (((afl.real_map_size + 3) % 2 ^ 32) >>> 2))
    (hb : ∀ b ∈ mem, b < 256) :
    count_bits afl mem = popcount mem % 2 ^ 32 ∧
    (popcount mem < 2 ^ 32 → count_bits afl mem = popcount mem) ∧
    (mem.length < 2 ^ 29 → count_bits afl mem = popcount mem) := by
  have h := count_bits_mod afl mem hlen hb
  refine ⟨h, fun hlt => ?_, fun hlt => ?_⟩
  · rw [h, Nat.mod_eq_of_lt hlt]
  · have hle := popcount_le mem
    rw [h, Nat.mod_eq_of_lt (by omega)]

/-- Instance of amended C13 on the virgin map of boundary scenario 3. -/
theorem count_bits_popcount_witness :
    count_bits scenario3 scenario3.virgin_bits = popcount scenario3.virgin_bits ∧
    popcount scenario3.virgin_bits = 60 :=
  ⟨(count_bits_popcount scenario3 scenario3.virgin_bits (by decide) (by decide)).2.2
      (by decide), by decide⟩

/-! ## The lookup tables -/

/-- C18: for every byte value `v` in `0..255`, `simplify_lookup[v] == 1` if
`v == 0` and `simplify_lookup[v] == 128` otherwise. -/
theorem simplify_lookup_spec (v : Nat) (hv : v ≤ 255) :
    (v = 0 → simplify_lookup v = 1) ∧ (v ≠ 0 → simplify_lookup v = 128) ∧
    (simplify_lookup v = 1 ↔ v = 0) := by
  unfold simplify_lookup
  refine ⟨fun h => by simp [h], fun h => by simp [h, hv], ?_⟩
  split_ifs <;> simp_all

/-- Instance of C18 at `v = 7`. -/
theorem simplify_lookup_spec_witness : simplify_lookup 7 = 128 :=
  (simplify_lookup_spec 7 (by decide)).2.1 (by decide)

set_option maxHeartbeats 2000000 in
theorem count_class_lookup8_cases (v : Nat) (hv : v ≤ 255) :
    (v = 0 ∧ count_class_lookup8 v = 0) ∨ (v = 1 ∧ count_class_lookup8 v = 1) ∨
    (v = 2 ∧ count_class_lookup8 v = 2) ∨ (v = 3 ∧ count_class_lookup8 v = 4) ∨
    (4 ≤ v ∧ v ≤ 7 ∧ count_class_lookup8 v = 8) ∨
    (8 ≤ v ∧ v ≤ 15 ∧ count_class_lookup8 v = 16) ∨
    (16 ≤ v ∧ v ≤ 31 ∧ count_class_lookup8 v = 32) ∨
    (32 ≤ v ∧ v ≤ 127 ∧ count_class_lookup8 v = 64) ∨
    (128 ≤ v ∧ v ≤ 255 ∧ count_class_lookup8 v = 128) := by
  unfold count_class_lookup8
  by_cases h0 : v = 0
  · simp [h0]
  by_cases h1 : v = 1
  · simp [h1]
  by_cases h2 : v = 2
  · simp [h2]
  by_cases h3 : v = 3
  · simp [h3]
  by_cases h7 : v ≤ 7
  · rw [if_neg h0, if_neg h1, if_neg h2, if_neg h3, if_pos h7]
    exact Or.inr (Or.inr (Or.inr (Or.inr (Or.inl ⟨by omega, h7, rfl⟩))))
  by_cases h15 : v ≤ 15
  · rw [if_neg h0, if_neg h1, if_neg h2, if_neg h3, if_neg h7, if_pos h15]
    exact Or.inr (Or.inr (Or.inr (Or.inr (Or.inr (Or.inl ⟨by omega, h15, rfl⟩)))))
  by_cases h31 : v ≤ 31
  · rw [if_neg h0, if_neg h1, if_neg h2, if_neg h3, if_neg h7, if_neg h15, if_pos h31]
    exact Or.inr (Or.inr (Or.inr (Or.inr (Or.inr (Or.inr (Or.inl ⟨by omega, h31, rfl⟩))))))
  by_cases h127 : v ≤ 127
  · rw [if_neg h0, if_neg h1, if_neg h2, if_neg h3, if_neg h7, if_neg h15, if_neg h31,
      if_pos h127]
    exact Or.inr (Or.inr (Or.inr (Or.inr (Or.inr (Or.inr (Or.inr
      (Or.inl ⟨by omega, h127, rfl⟩)))))))
  · rw [if_neg h0, if_neg h1, if_neg h2, if_neg h3, if_neg h7, if_neg h15, if_neg h31,
      if_neg h127, if_pos hv]
    exact Or.inr (Or.inr (Or.inr (Or.inr (Or.inr (Or.inr (Or.inr
      (Or.inr ⟨by omega, hv, rfl⟩)))))))

set_option maxHeartbeats 2000000 in
theorem count_class_lookup8_mono (u v : Nat) (huv : u ≤ v) (hv : v ≤ 255) :
    count_class_lookup8 u ≤ count_class_lookup8 v := by
  have hu := count_class_lookup8_cases u (by omega)
  have hv1 := count_class_lookup8_cases v hv
  omega

/-- C16: for every byte value `v` in `0..255`, `count_class_lookup8[v]` is a
member of `{0,1,2,4,8,16,32,64,128}`, it is `0` iff `v == 0`, the table is
monotone non-decreasing in `v`, and the buckets are `1 -> 1`, `2 -> 2`, `3 -> 4`,
`4..7 -> 8`, `8..15 -> 16`, `16..31 -> 32`, `32..127 -> 64`, `128..255 -> 128`. -/
theorem count_class_lookup8_spec (v : Nat) (hv : v ≤ 255) :
    count_class_lookup8 v ∈ [0, 1, 2, 4, 8, 16, 32, 64, 128] ∧
    (count_class_lookup8 v = 0 ↔ v = 0) ∧
    (∀ u, u ≤ v → count_class_lookup8 u ≤ count_class_lookup8 v) ∧
    (v = 1 → count_class_lookup8 v = 1) ∧
    (v = 2 → count_class_lookup8 v = 2) ∧
    (v = 3 → count_class_lookup8 v = 4) ∧
    (4 ≤ v ∧ v ≤ 7 → count_class_lookup8 v = 8) ∧
    (8 ≤ v ∧ v ≤ 15 → count_class_lookup8 v = 16) ∧
    (16 ≤ v ∧ v ≤ 31 → count_class_lookup8 v = 32) ∧
    (32 ≤ v ∧ v ≤ 127 → count_class_lookup8 v = 64) ∧
    (128 ≤ v ∧ v ≤ 255 → count_class_lookup8 v = 128) := by
  have h := count_class_lookup8_cases v hv
  refine ⟨?_, by omega, fun u hu => count_class_lookup8_mono u v hu hv, by omega, by omega,
    by omega, by omega, by omega, by omega, by omega, by omega⟩
  simp only [List.mem_cons, List.mem_singleton, List.not_mem_nil, or_false]
  omega

/-- Instance of C16 at `v = 5` (bucket `4..7`). -/
theorem count_class_lookup8_spec_witness :
    count_class_lookup8 5 = 8 ∧ count_class_lookup8 3 ≤ count_class_lookup8 5 :=
  ⟨(count_class_lookup8_spec 5 (by decide)).2.2.2.2.2.2.1 (by decide),
    (count_class_lookup8_spec 5 (by decide)).2.2.1 3 (by decide)⟩

/-! ## `init_count_class16` -/

/-- The inner loop of `init_count_class16` for a fixed `b1`, over any list of `b2`. -/
theorem init_inner_spec (b1 : Nat) (l2 : List Nat) (t : Nat → Option Nat) (idx : Nat) :
    ((∃ b2, b2 ∈ l2 ∧ (b1 <<< 8) + b2 = idx) →
      ∃ b2, b2 ∈ l2 ∧ (b1 <<< 8) + b2 = idx ∧
        l2.foldl (fun t b2 => store16 t ((b1 <<< 8) + b2)
          ((count_class_lookup8 b1 <<< 8) ||| count_class_lookup8 b2)) t idx =
          some (((count_class_lookup8 b1 <<< 8) ||| count_class_lookup8 b2) % 2 ^ 16)) ∧
    ((¬ ∃ b2, b2 ∈ l2 ∧ (b1 <<< 8) + b2 = idx) →
      l2.foldl (fun t b2 => store16 t ((b1 <<< 8) + b2)
        ((count_class_lookup8 b1 <<< 8) ||| count_class_lookup8 b2)) t idx = t idx) := by
  induction l2 generalizing t with
  | nil => simp
  | cons b l ih =>
    simp only [List.foldl_cons]
    have ih1 := ih (store16 t ((b1 <<< 8) + b)
      ((count_class_lookup8 b1 <<< 8) ||| count_class_lookup8 b))
    constructor
    · intro hex
      by_cases hl : ∃ b2, b2 ∈ l ∧ (b1 <<< 8) + b2 = idx
      · obtain ⟨b2, hb2, hk, hv⟩ := ih1.1 hl
        exact ⟨b2, List.mem_cons_of_mem _ hb2, hk, hv⟩
      · obtain ⟨b2, hb2, hk⟩ := hex
        rcases List.mem_cons.1 hb2 with rfl | hb2
        · refine ⟨b2, List.mem_cons_self _ _, hk, ?_⟩
          rw [ih1.2 hl]
          simp [store16, hk]
        · exact absurd ⟨b2, hb2, hk⟩ hl
    · intro hno
      have hl : ¬ ∃ b2, b2 ∈ l ∧ (b1 <<< 8) + b2 = idx := by
        rintro ⟨b2, hb2, hk⟩
        exact hno ⟨b2, List.mem_cons_of_mem _ hb2, hk⟩
      rw [ih1.2 hl]
      have hne : idx ≠ (b1 <<< 8) + b := by
        intro h
        exact hno ⟨b, List.mem_cons_self _ _, h.symm⟩
      simp [store16, hne]

theorem key16_inj {b1 b2 c1 c2 : Nat} (hb : b2 < 256) (hc : c2 < 256)
    (h : (b1 <<< 8) + b2 = (c1 <<< 8) + c2) : b1 = c1 ∧ b2 = c2 := by
  rw [Nat.shiftLeft_eq, Nat.shiftLeft_eq] at h
  omega

/-- The nested loops of `init_count_class16`, over any list of `b1`. -/
theorem init_outer_spec (l1 : List Nat) (t : Nat → Option Nat) (b1 b2 : Nat)
    (hb2 : b2 < 256) :
    (b1 ∈ l1 →
      l1.foldl (fun t b1 => (List.range 256).foldl (fun t b2 => store16 t ((b1 <<< 8) + b2)
        ((count_class_lookup8 b1 <<< 8) ||| count_class_lookup8 b2)) t) t ((b1 <<< 8) + b2) =
        some (((count_class_lookup8 b1 <<< 8) ||| count_class_lookup8 b2) % 2 ^ 16)) ∧
    (b1 ∉ l1 →
      l1.foldl (fun t b1 => (List.range 256).foldl (fun t b2 => store16 t ((b1 <<< 8) + b2)
        ((count_class_lookup8 b1 <<< 8) ||| count_class_lookup8 b2)) t) t ((b1 <<< 8) + b2) =
        t ((b1 <<< 8) + b2)) := by
  induction l1 generalizing t with
  | nil => simp
  | cons c l ih =>
    simp only [List.foldl_cons]
    have ih1 := ih ((List.range 256).foldl (fun t b2 => store16 t ((c <<< 8) + b2)
      ((count_class_lookup8 c <<< 8) ||| count_class_lookup8 b2)) t)
    have hin := init_inner_spec c (List.range 256) t ((b1 <<< 8) + b2)
    constructor
    · intro hmem
      by_cases hl : b1 ∈ l
      · exact ih1.1 hl
      · have hcb : b1 = c := by
          rcases List.mem_cons.1 hmem with h | h
          · exact h
          · exact absurd h hl
        subst hcb
        rw [ih1.2 hl]
        obtain ⟨c2, hc2, hk, hv⟩ := hin.1 ⟨b2, List.mem_range.2 hb2, rfl⟩
        have hc2lt : c2 < 256 := List.mem_range.1 hc2
        have he := (key16_inj hc2lt hb2 hk).2
        subst he
        exact hv
    · intro hno
      have hl : b1 ∉ l := fun h => hno (List.mem_cons_of_mem _ h)
      have hne : b1 ≠ c := fun h => hno (h ▸ List.mem_cons_self _ _)
      rw [ih1.2 hl]
      apply hin.2
      rintro ⟨c2, hc2, hk⟩
      exact hne (key16_inj (List.mem_range.1 hc2) hb2 hk).1.symm

theorem class_pair_lt (b1 b2 : Nat) (h1 : b1 ≤ 255) (h2 : b2 ≤ 255) :
    (count_class_lookup8 b1 <<< 8) ||| count_class_lookup8 b2 =
        256 * count_class_lookup8 b1 + count_class_lookup8 b2 ∧
      count_class_lookup8 b1 ≤ 128 ∧ count_class_lookup8 b2 ≤ 128 := by
  have c1 := count_class_lookup8_cases b1 h1
  have c2 := count_class_lookup8_cases b2 h2
  have l1 : count_class_lookup8 b1 ≤ 128 := by omega
  have l2 : count_class_lookup8 b2 ≤ 128 := by omega
  refine ⟨?_, l1, l2⟩
  rw [Nat.shiftLeft_eq]
  have h := Nat.mul_add_lt_is_or (i := 8) (b := count_class_lookup8 b2) (by omega)
    (count_class_lookup8 b1)
  rw [Nat.mul_comm, ← h]

theorem init_count_class16_entry (t : Nat → Option Nat) (b1 b2 : Nat)
    (h1 : b1 < 256) (h2 : b2 < 256) :
    init_count_class16 t ((b1 <<< 8) + b2) =
      some ((count_class_lookup8 b1 <<< 8) ||| count_class_lookup8 b2) := by
  unfold init_count_class16
  rw [(init_outer_spec (List.range 256) t b1 b2 h2).1 (List.mem_range.2 h1)]
  obtain ⟨he, l1, l2⟩ := class_pair_lt b1 b2 (by omega) (by omega)
  rw [Nat.mod_eq_of_lt (by rw [he]; omega)]

theorem init_count_class16_written (t : Nat → Option Nat) (idx : Nat) (h : idx < 65536) :
    (init_count_class16 t idx).isSome = true := by
  have hk : ((idx / 256) <<< 8) + idx % 256 = idx := by
    rw [Nat.shiftLeft_eq]
    omega
  have he := init_count_class16_entry t (idx / 256) (idx % 256) (by omega) (by omega)
  rw [hk] at he
  rw [he]
  rfl

/-- C17: after `init_count_class16`, for all byte values `b1` and `b2` in
`0..255`, `count_class_lookup16[(b1 << 8) + b2] ==
(count_class_lookup8[b1] << 8) | count_class_lookup8[b2]`, and every one of the
65536 entries is written; consequently the 16-bit table maps the word with high
byte `b1` and low byte `b2` to the word whose high byte is
`count_class_lookup8[b1]` and whose low byte is `count_class_lookup8[b2]`. -/
theorem init_count_class16_spec (t : Nat → Option Nat) (b1 b2 : Nat)
    (h1 : b1 < 256) (h2 : b2 < 256) :
    init_count_class16 t ((b1 <<< 8) + b2) =
      some ((count_class_lookup8 b1 <<< 8) ||| count_class_lookup8 b2) ∧
    (∀ idx, idx < 65536 → (init_count_class16 t idx).isSome = true) ∧
    count_class_lookup16 ((b1 <<< 8) + b2) =
      (count_class_lookup8 b1 <<< 8) ||| count_class_lookup8 b2 ∧
    count_class_lookup16 ((b1 <<< 8) + b2) / 256 = count_class_lookup8 b1 ∧
    count_class_lookup16 ((b1 <<< 8) + b2) % 256 = count_class_lookup8 b2 := by
  have he := init_count_class16_entry (fun _ => none) b1 b2 h1 h2
  obtain ⟨hv, l1, l2⟩ := class_pair_lt b1 b2 (by omega) (by omega)
  have h16 : count_class_lookup16 ((b1 <<< 8) + b2) =
      (count_class_lookup8 b1 <<< 8) ||| count_class_lookup8 b2 := by
    unfold count_class_lookup16
    rw [he]
    rfl
  refine ⟨init_count_class16_entry t b1 b2 h1 h2,
    fun idx hidx => init_count_class16_written t idx hidx, h16, ?_, ?_⟩
  · rw [h16, hv]
    omega
  · rw [h16, hv]
    omega

/-- Instance of C17 at `b1 = 3`, `b2 = 200`: entry `0x03C8` holds `0x0480`. -/
theorem init_count_class16_spec_witness :
    init_count_class16 (fun _ => none) ((3 <<< 8) + 200) = some 0x0480 ∧
    count_class_lookup16 0x03C8 = 0x0480 :=
  ⟨(init_count_class16_spec (fun _ => none) 3 200 (by decide) (by decide)).1,
    (init_count_class16_spec (fun _ => none) 3 200 (by decide) (by decide)).2.2.1⟩

/-! ## `classify_counts` -/

theorem classify_word (lo hi : Nat) (hlo : lo < 256) (hhi : hi < 256) :
    count_class_lookup16 (loadLE [lo, hi]) % 256 = count_class_lookup8 lo ∧
    count_class_lookup16 (loadLE [lo, hi]) / 256 % 256 = count_class_lookup8 hi := by
  have hk : loadLE [lo, hi] = (hi <<< 8) + lo := by
    simp only [loadLE]
    rw [Nat.shiftLeft_eq]
    omega
  have he := init_count_class16_entry (fun _ => none) hi lo hhi hlo
  obtain ⟨hv, l1, l2⟩ := class_pair_lt hi lo (by omega) (by omega)
  have h16 : count_class_lookup16 (loadLE [lo, hi]) =
      256 * count_class_lookup8 hi + count_class_lookup8 lo := by
    unfold count_class_lookup16
    rw [hk, he, ← hv]
    rfl
  rw [h16]
  constructor <;> omega

theorem classify_counts_eq_map : ∀ (t : List Nat), t.length % 2 = 0 → (∀ b ∈ t, b < 256) →
    classify_counts t = t.map count_class_lookup8
  | [], _, _ => rfl
  | [_], h, _ => by simp at h
  | lo :: hi :: rest, h, hb => by
    have hlo : lo < 256 := hb lo (by simp)
    have hhi : hi < 256 := hb hi (by simp)
    have hrest := classify_counts_eq_map rest (by simp at h; omega)
      (fun b hbm => hb b (by simp [hbm]))
    obtain ⟨e1, e2⟩ := classify_word lo hi hlo hhi
    rw [classify_counts, e1, e2, hrest]
    rfl

theorem class_of_class (b : Nat) (hb : b < 256) :
    count_class_lookup8 (count_class_lookup8 b) = count_class_lookup8 b ↔ b ≤ 2 ∨ 32 ≤ b := by
  have h := count_class_lookup8_cases b (by omega)
  have e0 : count_class_lookup8 0 = 0 := by decide
  have e1 : count_class_lookup8 1 = 1 := by decide
  have e2 : count_class_lookup8 2 = 2 := by decide
  have e4 : count_class_lookup8 4 = 8 := by decide
  have e8 : count_class_lookup8 8 = 16 := by decide
  have e16 : count_class_lookup8 16 = 32 := by decide
  have e32 : count_class_lookup8 32 = 64 := by decide
  have e64 : count_class_lookup8 64 = 64 := by decide
  have e128 : count_class_lookup8 128 = 128 := by decide
  rcases h with ⟨hb0, hv⟩ | ⟨hb0, hv⟩ | ⟨hb0, hv⟩ | ⟨hb0, hv⟩ | ⟨hb0, hb1, hv⟩ | ⟨hb0, hb1, hv⟩ |
    ⟨hb0, hb1, hv⟩ | ⟨hb0, hb1, hv⟩ | ⟨hb0, hb1, hv⟩ <;> rw [hv] <;> omega

theorem classify_counts_twice (t : List Nat) (hlen : t.length % 2 = 0)
    (hb : ∀ b ∈ t, b < 256) :
    classify_counts t = t.map count_class_lookup8 ∧
    classify_counts (classify_counts t) = (t.map count_class_lookup8).map count_class_lookup8 ∧
    (classify_counts (classify_counts t) = classify_counts t ↔ ∀ b ∈ t, b ≤ 2 ∨ 32 ≤ b) := by
  have h1 := classify_counts_eq_map t hlen hb
  have h2 := classify_counts_eq_map (t.map count_class_lookup8) (by simpa using hlen)
    (fun b hbm => by
      obtain ⟨a, ha, rfl⟩ := List.mem_map.1 hbm
      have := (class_pair_lt a a (by have := hb a ha; omega) (by have := hb a ha; omega)).2.1
      omega)
  rw [h1, h2]
  refine ⟨rfl, rfl, ?_⟩
  rw [List.map_map, List.map_inj_left]
  constructor
  · intro h b hbm
    exact (class_of_class b (hb b hbm)).1 (h b hbm)
  · intro h b hbm
    exact (class_of_class b (hb b hbm)).2 (h b hbm)

/-- C15 as stated fails: the raw trace `[03 00]` classifies to `[04 00]`, and
classifying that again gives `[08 00]`. -/
theorem classify_counts_not_idempotent :
    classify_counts [3, 0] = [4, 0] ∧
    classify_counts (classify_counts [3, 0]) = [8, 0] ∧
    classify_counts (classify_counts [3, 0]) ≠ classify_counts [3, 0] := by
  obtain ⟨h1, h2, _⟩ := classify_counts_twice [3, 0] (by decide) (by decide)
  have e1 : classify_counts [3, 0] = [4, 0] := by rw [h1]; decide
  have e2 : classify_counts (classify_counts [3, 0]) = [8, 0] := by rw [h2]; decide
  refine ⟨e1, e2, ?_⟩
  rw [e2, e1]
  decide

/-- C15, amended: `classify_counts` replaces each byte `v` of a raw trace by
`count_class_lookup8[v]`, and applying it twice is the same as applying it once
exactly when every byte of the raw trace is `0`, `1`, `2` or at least `32`; a
byte in `3..31` is moved one bucket further by the second application. -/
theorem classify_counts_idempotent_iff (t : List Nat) (hlen : t.length % 2 = 0)
    (hb : ∀ b ∈ t, b < 256) :
    classify_counts t = t.map count_class_lookup8 ∧
    (classify_counts (classify_counts t) = classify_counts t ↔ ∀ b ∈ t, b ≤ 2 ∨ 32 ≤ b) ∧
    (∀ b, b ∈ t → 3 ≤ b → b ≤ 31 →
      count_class_lookup8 (count_class_lookup8 b) = 2 * count_class_lookup8 b) := by
  obtain ⟨h1, _, h3⟩ := classify_counts_twice t hlen hb
  refine ⟨h1, h3, fun b _ h3 h31 => ?_⟩
  have h := count_class_lookup8_cases b (by omega)
  have e4 : count_class_lookup8 4 = 8 := by decide
  have e8 : count_class_lookup8 8 = 16 := by decide
  have e16 : count_class_lookup8 16 = 32 := by decide
  have e32 : count_class_lookup8 32 = 64 := by decide
  rcases h with ⟨hb0, hv⟩ | ⟨hb0, hv⟩ | ⟨hb0, hv⟩ | ⟨hb0, hv⟩ | ⟨hb0, hb1, hv⟩ | ⟨hb0, hb1, hv⟩ |
    ⟨hb0, hb1, hv⟩ | ⟨hb0, hb1, hv⟩ | ⟨hb0, hb1, hv⟩ <;> rw [hv] <;> omega

/-- Instance of amended C15 on the raw trace `[01 02 40 FF]`, all of whose bytes
are fixed by a second classification. -/
theorem classify_counts_idempotent_iff_witness :
    classify_counts (classify_counts [1, 2, 0x40, 0xFF]) = classify_counts [1, 2, 0x40, 0xFF] :=
  (classify_counts_idempotent_iff [1, 2, 0x40, 0xFF] (by decide) (by decide)).2.1.2 (by decide)

/-! ## `minimize_bits` -/

theorem getD_set_bit (dst : List Nat) (i p : Nat) (hp : p / 8 < dst.length) :
    ((dst.set (i >>> 3) ((dst.getD (i >>> 3) 0 ||| (1 <<< (i &&& 7))) % 256)).getD
        (p / 8) 0).testBit (p % 8) =
      ((dst.getD (p / 8) 0).testBit (p % 8) || decide (p = i)) := by
  have h3 : i >>> 3 = i / 8 := by rw [Nat.shiftRight_eq_div_pow]
  have h7 : i &&& 7 = i % 8 := by
    have h := Nat.and_pow_two_sub_one_eq_mod i 3
    simpa using h
  rw [h3, h7, Nat.one_shiftLeft]
  simp only [List.getD_eq_getElem?_getD, List.getElem?_set]
  by_cases hq : i / 8 = p / 8
  · have hlt : i / 8 < dst.length := by omega
    rw [if_pos hq, if_pos hlt, hq]
    have h256 : (256 : Nat) = 2 ^ 8 := by norm_num
    simp only [Option.getD_some, h256, Nat.testBit_mod_two_pow, Nat.testBit_or,
      Nat.testBit_two_pow]
    have hp8 : p % 8 < 8 := Nat.mod_lt _ (by decide)
    by_cases hr : i % 8 = p % 8
    · have hpi : p = i := by omega
      simp [hp8, hr, hpi]
    · have hpi : p ≠ i := by
        intro h
        exact hr (by rw [h])
      simp [hp8, hr, hpi]
  · have hpi : p ≠ i := by
      intro h
      exact hq (by rw [h])
    rw [if_neg hq]
    simp [hpi]

theorem minimize_bits_loop_length (n i : Nat) (dst src : List Nat) :
    (minimize_bits_loop n i dst src).length = dst.length := by
  induction n generalizing i dst src with
  | zero => rfl
  | succ n ih =>
    rw [minimize_bits_loop, ih]
    split <;> simp

theorem getD_tail (src : List Nat) (k : Nat) : src.tail.getD k 0 = src.getD (k + 1) 0 := by
  cases src <;> simp

theorem headD_eq_getD (src : List Nat) : src.headD 0 = src.getD 0 0 := by
  cases src <;> simp

/-- Bit `p` of the output of the loop of `minimize_bits`: it was set before, or
`p` is one of the positions still to scan and its source byte is non-zero. -/
theorem minimize_bits_loop_bit (n i : Nat) (dst src : List Nat) (p : Nat)
    (hp : p / 8 < dst.length) :
    ((minimize_bits_loop n i dst src).getD (p / 8) 0).testBit (p % 8) =
      ((dst.getD (p / 8) 0).testBit (p % 8) ||
        (decide (i ≤ p ∧ p < i + n) && (src.getD (p - i) 0 != 0))) := by
  induction n generalizing i dst src with
  | zero =>
    have hno : ¬ (i ≤ p ∧ p < i + 0) := by omega
    simp [minimize_bits_loop, hno]
  | succ n ih =>
    rw [minimize_bits_loop]
    by_cases hh : src.headD 0 ≠ 0
    · rw [if_pos hh, ih (i + 1) _ src.tail (by simpa using hp), getD_set_bit dst i p hp,
        getD_tail]
      rw [headD_eq_getD] at hh
      by_cases h1 : p = i
      · subst h1
        have hin : p ≤ p ∧ p < p + (n + 1) := by omega
        have hout : ¬ (p + 1 ≤ p ∧ p < p + 1 + n) := by omega
        have hpp : p - p = 0 := by omega
        have hb : (src.getD 0 0 != 0) = true := bne_iff_ne.2 hh
        rw [hpp, hb]
        simp [hin]
      · by_cases h2 : i + 1 ≤ p ∧ p < i + 1 + n
        · have hin : i ≤ p ∧ p < i + (n + 1) := by omega
          have hk : p - (i + 1) + 1 = p - i := by omega
          simp [h1, h2, hin, hk]
        · have hout : ¬ (i ≤ p ∧ p < i + (n + 1)) := by omega
          simp [h1, h2, hout]
    · rw [if_neg hh, ih (i + 1) dst src.tail hp, getD_tail]
      rw [headD_eq_getD] at hh
      have hz : src.getD 0 0 = 0 := by
        by_contra hne
        exact hh hne
      by_cases h1 : p = i
      · subst h1
        have hin : p ≤ p ∧ p < p + (n + 1) := by omega
        have hout : ¬ (p + 1 ≤ p ∧ p < p + 1 + n) := by omega
        have hpp : p - p = 0 := by omega
        rw [hpp, hz]
        simp [hout]
      · by_cases h2 : i + 1 ≤ p ∧ p < i + 1 + n
        · have hin : i ≤ p ∧ p < i + (n + 1) := by omega
          have hk : p - (i + 1) + 1 = p - i := by omega
          rw [hk]
          simp only [h2, hin]
        · have hout : ¬ (i ≤ p ∧ p < i + (n + 1)) := by omega
          simp [h2, hout]

/-- C19: for every trace `t` of `map_size` bytes, after `minimize_bits` into a
zero-initialised destination (of at least `map_size / 8` rounded-up bytes), for
every index `i < map_size` bit `i & 7` of `dst[i >> 3]` is set if and only if
`t[i] != 0`; so expanding `dst` gives back the non-zero positions of `t`. -/
theorem minimize_bits_expand (map_size n : Nat) (t : List Nat) (i : Nat)
    (hlen : t.length = map_size) (hn : map_size ≤ 8 * n) (hi : i < map_size) :
    ((minimize_bits map_size (List.replicate n 0) t).getD (i >>> 3) 0).testBit (i &&& 7) = true ↔
      t.getD i 0 ≠ 0 := by
  have h3 : i >>> 3 = i / 8 := by rw [Nat.shiftRight_eq_div_pow]
  have h7 : i &&& 7 = i % 8 := by
    have h := Nat.and_pow_two_sub_one_eq_mod i 3
    simpa using h
  have _hsrc : i < t.length := by omega
  have hp : i / 8 < (List.replicate n 0).length := by
    rw [List.length_replicate]
    omega
  have hin : 0 ≤ i ∧ i < 0 + map_size := by omega
  have hz : ((List.replicate n 0).getD (i / 8) 0).testBit (i % 8) = false := by
    rw [List.getD_eq_getElem?_getD, List.getElem?_replicate]
    split <;> simp
  rw [h3, h7]
  unfold minimize_bits
  rw [minimize_bits_loop_bit map_size 0 _ t i hp, hz]
  simp [hi]

/-- Instance of C19 on the trace of boundary scenario 3, read at index 2. -/
theorem minimize_bits_expand_witness :
    ((minimize_bits 8 (List.replicate 1 0) scenario3.trace_bits).getD (2 >>> 3) 0).testBit
        (2 &&& 7) = true ↔ scenario3.trace_bits.getD 2 0 ≠ 0 :=
  minimize_bits_expand 8 1 scenario3.trace_bits 2 (by decide) (by decide) (by decide)

/-! ## `find_crash_site` -/

theorem find_crash_site_line_blocked (cfg : callstack_config) (target_path : List Char)
    (symbolize : List Char → Nat → Nat × Option (List Char)) (site : crash_site)
    (line_buf path_ addr_str : List Char)
    (hp : parse_line cfg line_buf = some (path_, addr_str))
    (hb : module_blocked cfg target_path path_ = true) :
    find_crash_site_line cfg target_path symbolize site line_buf = crash_site.empty := by
  simp [find_crash_site_line, hp, hb]

theorem find_crash_site_line_eligible (cfg : callstack_config) (target_path : List Char)
    (symbolize : List Char → Nat → Nat × Option (List Char)) (site : crash_site)
    (line_buf path_ addr_str : List Char) (n : Nat) (func : List Char)
    (hp : parse_line cfg line_buf = some (path_, addr_str))
    (hb : module_blocked cfg target_path path_ = false)
    (hs : symbolize path_ (strtoul16 addr_str % 2 ^ 32) = (n, some func))
    (hn : n ≠ 0) (hf : func_blocked func = false) :
    find_crash_site_line cfg target_path symbolize site line_buf =
      if site.module.isNone then ⟨some func, some path_, strtoul16 addr_str % 2 ^ 32⟩
      else site := by
  unfold find_crash_site_line
  rw [hp]
  simp only [hb, hs]
  simp [hn, hf]

theorem scenario5_lines :
    fgets_all asanFormat.MAX_LINELEN [] scenario5File =
      [scenario5Line1, scenario5Line2, scenario5Line3] := by
  decide

theorem scenario5_parse :
    parse_line asanFormat scenario5Line1 = some ("mytarget".toList, "aa)".toList) ∧
    parse_line asanFormat scenario5Line2 = some ("libasan".toList, "bb)".toList) ∧
    parse_line asanFormat scenario5Line3 = some ("mytarget".toList, "cc)".toList) := by
  decide

theorem scenario5_blocked (cfg : callstack_config) (target_path : List Char)
    (hmode : cfg.EXACT_MODULE = false ∨ module_name_of target_path = "mytarget".toList) :
    module_blocked cfg target_path "mytarget".toList = false ∧
    module_blocked cfg target_path "libasan".toList = true := by
  unfold module_blocked
  cases hx : cfg.EXACT_MODULE with
  | false =>
    rw [if_neg (by decide), if_neg (by decide)]
    decide
  | true =>
    have ht : module_name_of target_path = "mytarget".toList := by
      rcases hmode with h | h
      · rw [hx] at h
        exact absurd h (by decide)
      · exact h
    rw [if_pos rfl, if_pos rfl, ht]
    decide

theorem scenario5_addr :
    strtoul16 "aa)".toList % 2 ^ 32 = 0xaa ∧ strtoul16 "cc)".toList % 2 ^ 32 = 0xcc := by
  decide

/-- Three frames `mytarget`, `libasan`, `mytarget`, whatever the line format. -/
theorem three_frames_site (cfg : callstack_config) (target_path : List Char)
    (symbolize : List Char → Nat → Nat × Option (List Char))
    (file l1 l2 l3 a1 a2 a3 : List Char) (n1 n3 : Nat) (f1 f3 : List Char)
    (hmode : cfg.EXACT_MODULE = false ∨ module_name_of target_path = "mytarget".toList)
    (hfile : fgets_all cfg.MAX_LINELEN [] file = [l1, l2, l3])
    (p1 : parse_line cfg l1 = some ("mytarget".toList, a1))
    (p2 : parse_line cfg l2 = some ("libasan".toList, a2))
    (p3 : parse_line cfg l3 = some ("mytarget".toList, a3))
    (h1 : symbolize "mytarget".toList (strtoul16 a1 % 2 ^ 32) = (n1, some f1)) (hn1 : n1 ≠ 0)
    (hf1 : func_blocked f1 = false)
    (h3 : symbolize "mytarget".toList (strtoul16 a3 % 2 ^ 32) = (n3, some f3)) (hn3 : n3 ≠ 0)
    (hf3 : func_blocked f3 = false) :
    find_crash_site cfg target_path symbolize (some file) =
      ⟨some f3, some "mytarget".toList, strtoul16 a3 % 2 ^ 32⟩ ∧
    find_crash_site_line cfg target_path symbolize crash_site.empty l1 =
      ⟨some f1, some "mytarget".toList, strtoul16 a1 % 2 ^ 32⟩ ∧
    find_crash_site_line cfg target_path symbolize
      (find_crash_site_line cfg target_path symbolize crash_site.empty l1) l2 =
        crash_site.empty := by
  obtain ⟨b1, b2⟩ := scenario5_blocked cfg target_path hmode
  have s1 := find_crash_site_line_eligible cfg target_path symbolize crash_site.empty
    l1 _ _ n1 f1 p1 b1 h1 hn1 hf1
  have s2 := find_crash_site_line_blocked cfg target_path symbolize
    (find_crash_site_line cfg target_path symbolize crash_site.empty l1) l2 _ _ p2 b2
  have s3 := find_crash_site_line_eligible cfg target_path symbolize crash_site.empty
    l3 _ _ n3 f3 p3 b1 h3 hn3 hf3
  refine ⟨?_, ?_, s2⟩
  · unfold find_crash_site
    simp only [hfile, List.foldl_cons, List.foldl_nil]
    rw [s2, s3]
    rfl
  · rw [s1]
    rfl

/-- C20 as stated fails: on the stack file of boundary scenario 5, with a
symbolizer reporting the symbol `main` for every frame, `find_crash_site` does
not return the empty crash site but the frame `mytarget+0xcc`. -/
theorem scenario5_not_empty :
    find_crash_site asanFormat "mytarget".toList symbolizeMain (some scenario5File) ≠
      crash_site.empty ∧
    find_crash_site asanFormat "mytarget".toList symbolizeMain (some scenario5File) =
      ⟨some "main".toList, some "mytarget".toList, 0xcc⟩ := by
  obtain ⟨p1, p2, p3⟩ := scenario5_parse
  have h := (three_frames_site asanFormat "mytarget".toList symbolizeMain scenario5File
    scenario5Line1 scenario5Line2 scenario5Line3 _ _ _ 1 1 "main".toList "main".toList
    (Or.inl rfl) scenario5_lines p1 p2 p3 rfl (by decide) (by decide) rfl (by decide)
    (by decide)).1
  rw [h, scenario5_addr.2]
  exact ⟨by decide, rfl⟩

/-- C20, amended: for a stack file whose frames are, in file order,
`mytarget+0xaa`, `libasan+0xbb`, `mytarget+0xcc` (with the symbolizer reporting a
non-blacklisted symbol for both `mytarget` frames), `find_crash_site` returns
the frame after the blacklisted one: the symbol reported for `mytarget+0xcc`,
module `mytarget`, offset `0xcc`. The `libasan` frame drops the candidate
`mytarget+0xaa` found before it, and the frame `mytarget+0xcc` then sets the
site anew. This holds for every value of the line-format macros under which the
three lines of the file parse to these frames, with the module blacklist in
force or, in exact-module mode, a target whose module name is `mytarget`. -/
theorem scenario5_crash_site (cfg : callstack_config) (target_path : List Char)
    (symbolize : List Char → Nat → Nat × Option (List Char))
    (file l1 l2 l3 a1 a2 a3 : List Char) (n1 n3 : Nat) (f1 f3 : List Char)
    (hmode : cfg.EXACT_MODULE = false ∨ module_name_of target_path = "mytarget".toList)
    (hfile : fgets_all cfg.MAX_LINELEN [] file = [l1, l2, l3])
    (p1 : parse_line cfg l1 = some ("mytarget".toList, a1))
    (v1 : strtoul16 a1 % 2 ^ 32 = 0xaa)
    (p2 : parse_line cfg l2 = some ("libasan".toList, a2))
    (p3 : parse_line cfg l3 = some ("mytarget".toList, a3))
    (v3 : strtoul16 a3 % 2 ^ 32 = 0xcc)
    (h1 : symbolize "mytarget".toList 0xaa = (n1, some f1)) (hn1 : n1 ≠ 0)
    (hf1 : func_blocked f1 = false)
    (h3 : symbolize "mytarget".toList 0xcc = (n3, some f3)) (hn3 : n3 ≠ 0)
    (hf3 : func_blocked f3 = false) :
    find_crash_site cfg target_path symbolize (some file) =
      ⟨some f3, some "mytarget".toList, 0xcc⟩ ∧
    find_crash_site_line cfg target_path symbolize crash_site.empty l1 =
      ⟨some f1, some "mytarget".toList, 0xaa⟩ ∧
    find_crash_site_line cfg target_path symbolize
      (find_crash_site_line cfg target_path symbolize crash_site.empty l1) l2 =
        crash_site.empty := by
  have h := three_frames_site cfg target_path symbolize file l1 l2 l3 a1 a2 a3 n1 n3 f1 f3
    hmode hfile p1 p2 p3 (by rw [v1]; exact h1) hn1 hf1 (by rw [v3]; exact h3) hn3 hf3
  rw [v1, v3] at h
  exact h

/-- Instance of amended C20: the file of boundary scenario 5 in the line format
`(module+0xoffset)`, with a symbolizer that reports `main` for every frame. -/
theorem scenario5_crash_site_witness :
    find_crash_site asanFormat "mytarget".toList symbolizeMain (some scenario5File) =
      ⟨some "main".toList, some "mytarget".toList, 0xcc⟩ :=
  (scenario5_crash_site asanFormat "mytarget".toList symbolizeMain scenario5File
    scenario5Line1 scenario5Line2 scenario5Line3 "aa)".toList "bb)".toList "cc)".toList
    1 1 "main".toList "main".toList (Or.inl rfl) scenario5_lines scenario5_parse.1
    scenario5_addr.1 scenario5_parse.2.1 scenario5_parse.2.2 scenario5_addr.2
    rfl (by decide) (by decide) rfl (by decide) (by decide)).1

/-! ## Claim C21: the comparison of crash sites -/

/-- C21: the comparison of `same_crash_site` reports "same" exactly when the
offsets are equal and the modules are both absent or both present and equal
character by character; it is reflexive and symmetric, and it never depends on
the symbol of either crash site. -/
theorem is_same_spec (a b : crash_site) :
    (is_same a b = 1 ↔
      a.offset = b.offset ∧
        ((a.module = none ∧ b.module = none) ∨
          ∃ m, a.module = some m ∧ b.module = some m)) ∧
    (is_same a b = 0 ∨ is_same a b = 1) ∧
    is_same a a = 1 ∧
    is_same a b = is_same b a ∧
    ∀ s t : Option (List Char),
      is_same ⟨s, a.module, a.offset⟩ ⟨t, b.module, b.offset⟩ = is_same a b := by
  obtain ⟨sa, ma, oa⟩ := a
  obtain ⟨sb, mb, ob⟩ := b
  refine ⟨?_, ?_, ?_, ?_, fun _ _ => rfl⟩
  · by_cases ho : oa = ob <;> cases ma <;> cases mb <;> simp [is_same, ho]
    exact eq_comm
  · by_cases ho : oa = ob <;> cases ma <;> cases mb <;> simp [is_same, ho]
    exact (em _).symm
  · cases ma <;> simp [is_same]
  · by_cases ho : oa = ob
    · subst ho
      cases ma <;> cases mb <;> simp [is_same]
      rename_i x y
      by_cases hxy : x = y
      · subst hxy; simp
      · have : ¬ y = x := fun h => hxy h.symm
        simp [hxy, this]
    · have : ¬ ob = oa := fun h => ho h.symm
      simp [is_same, ho, this]

/-! ## Module names and basenames -/

theorem strrchr_drop (s : List Char) (c : Char) (i : Nat) (h : strrchr s c = some i) :
    s.drop i = c :: s.drop (i + 1) := by
  induction s generalizing i with
  | nil => simp [strrchr] at h
  | cons x xs ih =>
    unfold strrchr at h
    cases hr : strrchr xs c with
    | some j =>
      rw [hr] at h
      simp only [Option.some.injEq] at h
      subst h
      simpa using ih j hr
    | none =>
      rw [hr] at h
      by_cases hx : x = c
      · simp only [hx, if_true, Option.some.injEq] at h
        subst h
        simp [hx]
      · simp [hx] at h

theorem module_name_of_slash (path : List Char) (i : Nat)
    (h : strrchr path '/' = some i) : module_name_of path = '/' :: basename_of path := by
  unfold module_name_of basename_of
  rw [h]
  exact strrchr_drop path '/' i h

theorem module_name_of_no_slash (path : List Char) (h : strrchr path '/' = none) :
    module_name_of path = basename_of path := by
  unfold module_name_of basename_of
  rw [h]

theorem strstr_slash (s n : List Char) (c : Char) (hc : c ≠ '/') :
    (strstr ('/' :: s) (c :: n)).isSome = (strstr s (c :: n)).isSome := by
  have hp : (c :: n).isPrefixOf ('/' :: s) = false := by
    simp [List.isPrefixOf, hc]
  rw [strstr]
  simp only [hp, Bool.false_eq_true, if_false, Option.isSome_map']

/-- With the module blacklist in force, the module test of `find_crash_site`
looks for the blacklist entries in the basename of the image path. -/
theorem module_blocked_basename (cfg : callstack_config) (target_path path_ : List Char)
    (hx : cfg.EXACT_MODULE = false) :
    module_blocked cfg target_path path_ =
      sym_blacklist_module.any (fun b => (strstr (basename_of path_) b).isSome) := by
  unfold module_blocked
  rw [hx]
  simp only [Bool.false_eq_true, if_false]
  cases h : strrchr path_ '/' with
  | none => rw [module_name_of_no_slash _ h]
  | some i =>
    rw [module_name_of_slash _ i h]
    simp only [sym_blacklist_module, List.any_cons, List.any_nil, Bool.or_false]
    have e1 := strstr_slash (basename_of path_) "ibasan".toList 'l' (by decide)
    have e2 := strstr_slash (basename_of path_) "iblsan".toList 'l' (by decide)
    have e3 := strstr_slash (basename_of path_) "ibubsan".toList 'l' (by decide)
    have e4 := strstr_slash (basename_of path_) "ibclang_rt.".toList 'l' (by decide)
    exact congrArg₂ (· || ·) e1 (congrArg₂ (· || ·) e2 (congrArg₂ (· || ·) e3 e4))

/-! ## Claim C27: the frame that `find_crash_site` returns -/

theorem find_crash_site_line_none (cfg : callstack_config) (target_path : List Char)
    (symbolize : List Char → Nat → Nat × Option (List Char)) (site : crash_site)
    (line_buf : List Char) (hp : parse_line cfg line_buf = none) :
    find_crash_site_line cfg target_path symbolize site line_buf = site := by
  simp [find_crash_site_line, hp]

theorem find_crash_site_line_frame_blocked (cfg : callstack_config) (target_path : List Char)
    (symbolize : List Char → Nat → Nat × Option (List Char)) (site : crash_site)
    (line_buf : List Char) (fr : List Char × List Char)
    (hp : parse_line cfg line_buf = some fr)
    (hb : frame_blocked cfg target_path symbolize fr = true) :
    find_crash_site_line cfg target_path symbolize site line_buf = crash_site.empty := by
  obtain ⟨path_, addr_str⟩ := fr
  unfold find_crash_site_line
  rw [hp]
  unfold frame_blocked frame_addr at hb
  dsimp only at hb ⊢
  generalize strtoul16 addr_str % 2 ^ 32 = a at hb ⊢
  generalize symbolize path_ a = r at hb ⊢
  obtain ⟨n, f⟩ := r
  cases hm : module_blocked cfg target_path path_ <;> cases f <;>
    by_cases hn : n = 0 <;> simp_all

theorem find_crash_site_line_frame_eligible (cfg : callstack_config)
    (target_path : List Char)
    (symbolize : List Char → Nat → Nat × Option (List Char)) (site : crash_site)
    (line_buf : List Char) (fr : List Char × List Char)
    (hp : parse_line cfg line_buf = some fr)
    (he : frame_eligible cfg target_path symbolize fr = true) :
    find_crash_site_line cfg target_path symbolize site line_buf =
      if site.module.isNone then frame_site symbolize fr else site := by
  obtain ⟨path_, addr_str⟩ := fr
  unfold find_crash_site_line
  rw [hp]
  unfold frame_eligible frame_blocked frame_addr at he
  unfold frame_site frame_addr
  dsimp only at he ⊢
  generalize strtoul16 addr_str % 2 ^ 32 = a at he ⊢
  generalize symbolize path_ a = r at he ⊢
  obtain ⟨n, f⟩ := r
  cases hm : module_blocked cfg target_path path_ <;> cases f <;>
    by_cases hn : n = 0 <;> simp_all

theorem find_crash_site_line_frame_neutral (cfg : callstack_config)
    (target_path : List Char)
    (symbolize : List Char → Nat → Nat × Option (List Char)) (site : crash_site)
    (line_buf : List Char) (fr : List Char × List Char)
    (hp : parse_line cfg line_buf = some fr)
    (hb : frame_blocked cfg target_path symbolize fr = false)
    (he : frame_eligible cfg target_path symbolize fr = false) :
    find_crash_site_line cfg target_path symbolize site line_buf = site := by
  obtain ⟨path_, addr_str⟩ := fr
  unfold find_crash_site_line
  rw [hp]
  unfold frame_eligible at he
  rw [hb] at he
  unfold frame_blocked at hb
  unfold frame_addr at he hb
  dsimp only at he hb ⊢
  generalize strtoul16 addr_str % 2 ^ 32 = a at he hb ⊢
  generalize symbolize path_ a = r at he hb ⊢
  obtain ⟨n, f⟩ := r
  cases hm : module_blocked cfg target_path path_ <;> cases f <;>
    by_cases hn : n = 0 <;> simp_all

theorem after_last_of_none {α : Type} (p : α → Bool) (l : List α)
    (h : l.any p = false) : after_last p l = l := by
  induction l with
  | nil => rfl
  | cons x xs ih =>
    rw [List.any_cons, Bool.or_eq_false_iff] at h
    simp [after_last, h.1, h.2]

theorem frame_site_module (symbolize : List Char → Nat → Nat × Option (List Char))
    (fr : List Char × List Char) : (frame_site symbolize fr).module.isNone = false := rfl

/-- The loop of `find_crash_site`, started from any candidate `site`. -/
theorem find_crash_site_fold (cfg : callstack_config) (target_path : List Char)
    (symbolize : List Char → Nat → Nat × Option (List Char))
    (chunks : List (List Char)) (site : crash_site) :
    chunks.foldl (find_crash_site_line cfg target_path symbolize) site =
      if (chunks.filterMap (parse_line cfg)).any (frame_blocked cfg target_path symbolize)
      then first_eligible_after_last_blocked cfg target_path symbolize
        (chunks.filterMap (parse_line cfg))
      else if site.module.isNone then
        match (chunks.filterMap (parse_line cfg)).find?
          (frame_eligible cfg target_path symbolize) with
        | some fr => frame_site symbolize fr
        | none => site
      else site := by
  induction chunks generalizing site with
  | nil => simp
  | cons c cs ih =>
    rw [List.foldl_cons, ih]
    cases hp : parse_line cfg c with
    | none =>
      rw [find_crash_site_line_none _ _ _ _ _ hp, List.filterMap_cons_none hp]
    | some fr =>
      rw [List.filterMap_cons_some hp]
      by_cases hrest : (cs.filterMap (parse_line cfg)).any
          (frame_blocked cfg target_path symbolize) = true
      · have e : first_eligible_after_last_blocked cfg target_path symbolize
            (fr :: cs.filterMap (parse_line cfg)) =
            first_eligible_after_last_blocked cfg target_path symbolize
              (cs.filterMap (parse_line cfg)) := by
          unfold first_eligible_after_last_blocked
          simp [after_last, hrest]
        rw [if_pos hrest, e, List.any_cons, hrest, Bool.or_true, if_pos rfl]
      · rw [if_neg hrest, List.any_cons]
        rw [Bool.not_eq_true] at hrest
        rw [hrest, Bool.or_false]
        by_cases hb : frame_blocked cfg target_path symbolize fr = true
        · rw [find_crash_site_line_frame_blocked _ _ _ _ _ _ hp hb, if_pos hb]
          unfold first_eligible_after_last_blocked
          simp [after_last, hrest, hb, crash_site.empty]
        · rw [if_neg hb]
          rw [Bool.not_eq_true] at hb
          by_cases he : frame_eligible cfg target_path symbolize fr = true
          · rw [find_crash_site_line_frame_eligible _ _ _ _ _ _ hp he]
            by_cases hs : site.module.isNone = true
            · rw [if_pos hs, if_pos hs, if_neg (by rw [frame_site_module]; simp)]
              simp [List.find?, he]
            · rw [if_neg hs, if_neg hs, if_neg hs]
          · rw [Bool.not_eq_true] at he
            rw [find_crash_site_line_frame_neutral _ _ _ _ _ _ hp hb he]
            simp [List.find?, he]

theorem find_crash_site_eq (cfg : callstack_config) (target_path : List Char)
    (symbolize : List Char → Nat → Nat × Option (List Char)) (content : List Char) :
    find_crash_site cfg target_path symbolize (some content) =
      first_eligible_after_last_blocked cfg target_path symbolize
        (frames_of cfg content) := by
  unfold find_crash_site frames_of
  simp only
  rw [find_crash_site_fold]
  split_ifs with h1 h2
  · rfl
  · rw [Bool.not_eq_true] at h1
    unfold first_eligible_after_last_blocked
    rw [after_last_of_none _ _ h1]
  · exact absurd rfl h2

theorem scenario4_frames :
    frames_of asanFormat scenario4File =
      [("libasan.so".toList, "1234)".toList), ("mytarget".toList, "dead)".toList)] := by
  decide

/-- C27: for every call-stack file, `find_crash_site` returns the first eligible
frame that comes after the last blocked frame among the frames the file parses
to, in file order, and the empty site when there is none (also when the file
cannot be read). A frame is blocked when its module name is blocked (with the
module blacklist in force: when the basename of its image path contains a
module-blacklist entry) or the first symbol reported for it contains a
function-blacklist entry, and eligible when it is not blocked and the
symbolizer reports at least one symbol. For the frames
`libasan.so+0x1234`, `mytarget+0xdead` the result is the symbol reported for
`mytarget+0xdead`, with module `mytarget` and offset `0xdead`. -/
theorem find_crash_site_first_after_last_blocked (cfg : callstack_config)
    (target_path : List Char)
    (symbolize : List Char → Nat → Nat × Option (List Char)) (content : List Char) :
    find_crash_site cfg target_path symbolize (some content) =
      first_eligible_after_last_blocked cfg target_path symbolize
        (frames_of cfg content) ∧
    find_crash_site cfg target_path symbolize none = crash_site.empty ∧
    (∀ path_, module_blocked { cfg with EXACT_MODULE := false } target_path path_ =
      sym_blacklist_module.any (fun b => (strstr (basename_of path_) b).isSome)) ∧
    find_crash_site asanFormat "mytarget".toList symbolizeMain (some scenario4File) =
      ⟨(symbolizeMain "mytarget".toList 0xdead).2, some "mytarget".toList, 0xdead⟩ := by
  refine ⟨find_crash_site_eq cfg target_path symbolize content, rfl,
    fun path_ => module_blocked_basename _ target_path path_ rfl, ?_⟩
  rw [find_crash_site_eq, scenario4_frames]
  decide

/-! ## Claim C26: the module test of exact-module mode -/

/-- In exact-module mode, for a target path and an image path that both contain a
`/` or both contain none, a frame is blocked exactly when the basenames differ. -/
theorem exact_module_blocked_iff (cfg : callstack_config) (target_path path_ : List Char)
    (hx : cfg.EXACT_MODULE = true)
    (hs : (strrchr target_path '/').isSome = (strrchr path_ '/').isSome) :
    (module_blocked cfg target_path path_ = true ↔
      basename_of target_path ≠ basename_of path_) := by
  unfold module_blocked
  rw [if_pos hx, decide_eq_true_iff]
  cases ht : strrchr target_path '/' with
  | none =>
    cases hp : strrchr path_ '/' with
    | none => rw [module_name_of_no_slash _ ht, module_name_of_no_slash _ hp]
    | some j => rw [ht, hp] at hs; simp at hs
  | some i =>
    cases hp : strrchr path_ '/' with
    | none => rw [ht, hp] at hs; simp at hs
    | some j =>
      rw [module_name_of_slash _ i ht, module_name_of_slash _ j hp]
      simp

/-- In exact-module mode, when exactly one of the target path and the image path
contains a `/`, the frame is blocked whatever the basenames are. -/
theorem exact_module_blocked_of_one_slash (cfg : callstack_config)
    (target_path path_ : List Char) (hx : cfg.EXACT_MODULE = true)
    (hs : (strrchr target_path '/').isSome ≠ (strrchr path_ '/').isSome)
    (ht : '/' ∉ basename_of target_path) (hp : '/' ∉ basename_of path_) :
    module_blocked cfg target_path path_ = true := by
  unfold module_blocked
  rw [if_pos hx, decide_eq_true_iff]
  cases h1 : strrchr target_path '/' with
  | none =>
    cases h2 : strrchr path_ '/' with
    | none => rw [h1, h2] at hs; exact absurd rfl hs
    | some j =>
      rw [module_name_of_no_slash _ h1, module_name_of_slash _ j h2]
      intro h
      rw [h] at ht
      exact ht (List.mem_cons_self _ _)
  | some i =>
    cases h2 : strrchr path_ '/' with
    | none =>
      rw [module_name_of_slash _ i h1, module_name_of_no_slash _ h2]
      intro h
      rw [← h] at hp
      exact hp (List.mem_cons_self _ _)
    | some j => rw [h1, h2] at hs; exact absurd rfl hs

/-- C26, at the input that breaks it: in exact-module mode, with the target path
`mytarget` (no directory part) and a frame whose image path is `/work/mytarget`,
the two basenames are both `mytarget`, yet `find_crash_site` blocks the frame and
returns the empty site: the module name it compares keeps the `/` that
`strrchr` points at. With the target path `/bin/mytarget`, or with the image
path `mytarget`, the same frame is not blocked. -/
theorem exact_module_keeps_slash (cfg : callstack_config) :
    basename_of "mytarget".toList = basename_of "/work/mytarget".toList ∧
    module_blocked { cfg with EXACT_MODULE := true } "mytarget".toList
      "/work/mytarget".toList = true ∧
    module_blocked { cfg with EXACT_MODULE := true } "/bin/mytarget".toList
      "/work/mytarget".toList = false ∧
    module_blocked { cfg with EXACT_MODULE := true } "mytarget".toList
      "mytarget".toList = false ∧
    find_crash_site { asanFormat with EXACT_MODULE := true } "mytarget".toList
      symbolizeMain (some "    #0 0x40dead  (/work/mytarget+0xdead)\n".toList) =
        crash_site.empty ∧
    find_crash_site { asanFormat with EXACT_MODULE := true } "/bin/mytarget".toList
      symbolizeMain (some "    #0 0x40dead  (/work/mytarget+0xdead)\n".toList) =
        ⟨some "main".toList, some "/work/mytarget".toList, 0xdead⟩ := by
  refine ⟨by decide, ?_, ?_, ?_, by decide, by decide⟩
  · unfold module_blocked
    rw [if_pos rfl]
    decide
  · unfold module_blocked
    rw [if_pos rfl]
    decide
  · unfold module_blocked
    rw [if_pos rfl]
    decide

/-! ## Claim C25: the tags of `describe_op` -/

set_option maxRecDepth 100000 in
theorem flag20_le : ∀ n, n < 256 → n &&& 0x20 ≠ 0 → 0x20 ≤ n := by
  decide

theorem class_tag_other (n : Nat)
    (h : n ∉ [0x02, 0x11, 0x12, 0x13, 0x14, 0x15, 0x16, 0x17]) : class_tag n = [] := by
  simp only [List.mem_cons, List.mem_singleton, List.not_mem_nil, or_false, not_or] at h
  obtain ⟨h1, h2, h3, h4, h5, h6, h7, h8⟩ := h
  unfold class_tag
  rw [if_neg h1, if_neg h2, if_neg h3, if_neg h4, if_neg h5, if_neg h6, if_neg h7, if_neg h8]

theorem describe_op_eq (K : fuzz_config) (d : describe_state) (new_bits max : Nat)
    (h : new_bits < 256) :
    describe_op K d new_bits max =
      (op_description K d (decide (new_bits &&& 0x20 ≠ 0))
        (min max K.describe_op_buf_size)).bind (fun desc =>
          if (desc ++ (if new_bits &&& 0x20 ≠ 0
              then ",+tout".toList ++ class_tag (new_bits - 0x20)
              else class_tag new_bits)).length ≥ max then none
          else some (desc ++ (if new_bits &&& 0x20 ≠ 0
              then ",+tout".toList ++ class_tag (new_bits - 0x20)
              else class_tag new_bits))) := by
  unfold describe_op
  rw [Nat.mod_eq_of_lt h]
  by_cases hf : new_bits &&& 0x20 ≠ 0
  · have hle := flag20_le new_bits h hf
    have e : (new_bits + 256 - 0x20) % 256 = new_bits - 0x20 := by omega
    have hd : decide (new_bits &&& 0x20 ≠ 0) = true := decide_eq_true hf
    simp only [hd, e, if_true, if_pos hf]
    cases op_description K d true (min max K.describe_op_buf_size) with
    | none => rfl
    | some ret => simp only [Option.bind, List.append_assoc]
  · have hd : decide (new_bits &&& 0x20 ≠ 0) = false := decide_eq_false hf
    simp only [hd, if_neg hf, Bool.false_eq_true, if_false]
    cases op_description K d false (min max K.describe_op_buf_size) with
    | none => rfl
    | some ret => simp only [Option.bind]

/-- C25: the tag that `describe_op` appends for a class argument is `,+cov` for
`0x02`, `,-xxh` for `0x11`, `,-xcx` for `0x12`, `,-xch` for `0x13`, `,-bxx` for
`0x14`, `,-bxh` for `0x15`, `,-bcx` for `0x16`, `,-bch` for `0x17`, and none for
any other class. For every argument, whenever `describe_op` returns, its result
is the description of the operation followed, when the flag `0x20` is set in the
argument, by `,+tout` and the tag of the argument minus `0x20`, and otherwise by
the tag of the argument. For a class `c` among `0x00..0x02` and `0x10..0x17` the
argument `c + 0x20` so yields `,+tout` followed by the tag of `c`. -/
theorem describe_op_tags (K : fuzz_config) (d : describe_state) (c max : Nat)
    (hc : c ∈ [0x00, 0x01, 0x02, 0x10, 0x11, 0x12, 0x13, 0x14, 0x15, 0x16, 0x17]) :
    (class_tag 0x02 = ",+cov".toList ∧ class_tag 0x11 = ",-xxh".toList ∧
      class_tag 0x12 = ",-xcx".toList ∧ class_tag 0x13 = ",-xch".toList ∧
      class_tag 0x14 = ",-bxx".toList ∧ class_tag 0x15 = ",-bxh".toList ∧
      class_tag 0x16 = ",-bcx".toList ∧ class_tag 0x17 = ",-bch".toList) ∧
    (∀ n, n ∉ [0x02, 0x11, 0x12, 0x13, 0x14, 0x15, 0x16, 0x17] → class_tag n = []) ∧
    (∀ new_bits, new_bits < 256 →
      describe_op K d new_bits max =
        (op_description K d (decide (new_bits &&& 0x20 ≠ 0))
          (min max K.describe_op_buf_size)).bind (fun desc =>
            if (desc ++ (if new_bits &&& 0x20 ≠ 0
                then ",+tout".toList ++ class_tag (new_bits - 0x20)
                else class_tag new_bits)).length ≥ max then none
            else some (desc ++ (if new_bits &&& 0x20 ≠ 0
                then ",+tout".toList ++ class_tag (new_bits - 0x20)
                else class_tag new_bits)))) ∧
    describe_op K d c max =
      (op_description K d false (min max K.describe_op_buf_size)).bind (fun desc =>
        if (desc ++ class_tag c).length ≥ max then none
        else some (desc ++ class_tag c)) ∧
    describe_op K d (c + 0x20) max =
      (op_description K d true (min max K.describe_op_buf_size)).bind (fun desc =>
        if (desc ++ (",+tout".toList ++ class_tag c)).length ≥ max then none
        else some (desc ++ (",+tout".toList ++ class_tag c))) := by
  refine ⟨by decide, class_tag_other, fun nb h => describe_op_eq K d nb max h, ?_, ?_⟩
  · have hlt : c < 256 := by
      simp only [List.mem_cons, List.mem_singleton, List.not_mem_nil, or_false] at hc
      omega
    have hf : ¬ (c &&& 0x20 ≠ 0) := by
      simp only [List.mem_cons, List.mem_singleton, List.not_mem_nil, or_false] at hc
      rcases hc with h | h | h | h | h | h | h | h | h | h | h <;> subst h <;> decide
    rw [describe_op_eq K d c max hlt]
    simp only [if_neg hf, decide_eq_false hf]
  · have hlt : c + 0x20 < 256 := by
      simp only [List.mem_cons, List.mem_singleton, List.not_mem_nil, or_false] at hc
      omega
    have hf : (c + 0x20) &&& 0x20 ≠ 0 := by
      simp only [List.mem_cons, List.mem_singleton, List.not_mem_nil, or_false] at hc
      rcases hc with h | h | h | h | h | h | h | h | h | h | h <;> subst h <;> decide
    rw [describe_op_eq K d (c + 0x20) max hlt]
    simp only [if_pos hf, decide_eq_true hf, Nat.add_sub_cancel]

/-- Instance of C25: in the havoc stage, the class `0x16` of a hang (`0x36`)
gives a name that ends in `,+tout,-bcx`. -/
theorem describe_op_tags_witness :
    (0x16 ∈ [0x00, 0x01, 0x02, 0x10, 0x11, 0x12, 0x13, 0x14, 0x15, 0x16, 0x17]) ∧
    describe_op sampleConfig havocDescribe (0x16 + 0x20) 245 =
      (op_description sampleConfig havocDescribe true
        (min 245 sampleConfig.describe_op_buf_size)).bind (fun desc =>
        if (desc ++ (",+tout".toList ++ class_tag 0x16)).length ≥ 245 then none
        else some (desc ++ (",+tout".toList ++ class_tag 0x16))) ∧
    describe_op sampleConfig havocDescribe 0x36 245 =
      some "src:000003,time:5,execs:7,op:havoc,rep:2,+tout,-bcx".toList :=
  ⟨by decide,
    (describe_op_tags sampleConfig havocDescribe 0x16 245 (by decide)).2.2.2.2,
    by decide⟩

/-! ## Claims C28 to C30: `same_crash_site` -/

theorem is_same_cases (a b : crash_site) : is_same a b = 0 ∨ is_same a b = 1 := by
  obtain ⟨sa, ma, oa⟩ := a
  obtain ⟨sb, mb, ob⟩ := b
  by_cases ho : oa = ob <;> cases ma <;> cases mb <;> simp [is_same, ho]
  exact (em _).symm

theorem is_same_eq_one (a b : crash_site) (h : is_same a b = 1) :
    a.offset = b.offset ∧ a.module = b.module := by
  obtain ⟨sa, ma, oa⟩ := a
  obtain ⟨sb, mb, ob⟩ := b
  by_cases ho : oa = ob <;> cases ma <;> cases mb <;> simp_all [is_same]

theorem parse_crash_site_site (K : fuzz_config)
    (symbolize : List Char → Nat → Nat × Option (List Char)) (st : fuzzer) :
    (parse_crash_site K symbolize st).stored_site =
      find_crash_site K.callstack st.target_path symbolize st.call_stack_file := rfl

theorem same_crash_site_same (K : fuzz_config)
    (symbolize : List Char → Nat → Nat × Option (List Char)) (st : fuzzer)
    (q : Option queue_entry) (detail discard : Nat)
    (h : is_same st.stored_site
      (find_crash_site K.callstack st.target_path symbolize st.call_stack_file) = 1) :
    same_crash_site K symbolize st q detail discard =
      some (1, parse_crash_site K symbolize st, q) := by
  unfold same_crash_site
  simp only [parse_crash_site_site, h]
  simp

theorem same_crash_site_differ_null (K : fuzz_config)
    (symbolize : List Char → Nat → Nat × Option (List Char)) (st : fuzzer)
    (detail discard : Nat)
    (h : is_same st.stored_site
      (find_crash_site K.callstack st.target_path symbolize st.call_stack_file) = 0) :
    same_crash_site K symbolize st none detail discard =
      some (0, (parse_crash_site K symbolize st).store_site st.stored_site, none) := by
  unfold same_crash_site
  simp only [parse_crash_site_site, h]
  simp

theorem same_crash_site_differ_entry (K : fuzz_config)
    (symbolize : List Char → Nat → Nat × Option (List Char)) (st : fuzzer)
    (e : queue_entry) (detail discard : Nat)
    (h : is_same st.stored_site
      (find_crash_site K.callstack st.target_path symbolize st.call_stack_file) = 0) :
    same_crash_site K symbolize st (some e) detail discard =
      match (if detail ≠ 0 then write_crash_detail K (parse_crash_site K symbolize st) e
        else some (parse_crash_site K symbolize st)) with
      | none => none
      | some st1 =>
        if discard ≠ 0 then
          if e.was_fuzzed = 0 then
            some (0, ({ st1 with pending_not_fuzzed := dec32 st1.pending_not_fuzzed,
                                  active_items := dec32 st1.active_items }).store_site
                st.stored_site,
              some { e with disabled := 1, perf_score := 0, was_fuzzed := 1 })
          else some (0, st1.store_site st.stored_site,
            some { e with disabled := 1, perf_score := 0 })
        else some (0, st1.store_site st.stored_site, some e) := by
  unfold same_crash_site
  simp only [parse_crash_site_site, h]
  simp

theorem write_crash_detail_frame (K : fuzz_config) (st st1 : fuzzer) (e : queue_entry)
    (h : write_crash_detail K st e = some st1) :
    st1.pending_not_fuzzed = st.pending_not_fuzzed ∧ st1.active_items = st.active_items ∧
    st1.stored_site = st.stored_site ∧ st1.queue_top = st.queue_top ∧
    st1.queued_items = st.queued_items ∧ st1.maps = st.maps ∧
    st1.total_crashes = st.total_crashes ∧ st1.saved_crashes = st.saved_crashes ∧
    st1.files = st.files := by
  unfold write_crash_detail at h
  cases hr : st.readme with
  | none => rw [hr] at h; simp at h
  | some text =>
    rw [hr] at h
    simp only [Option.some.injEq] at h
    subst h
    exact ⟨rfl, rfl, rfl, rfl, rfl, rfl, rfl, rfl, rfl⟩

theorem write_crash_detail_none (K : fuzz_config) (st : fuzzer) (e : queue_entry) :
    write_crash_detail K st e = none ↔ st.readme = none := by
  unfold write_crash_detail
  cases hr : st.readme <;> simp
theorem dec32_pos (n : Nat) (h0 : 0 < n) (hn : n < 2 ^ 32) : dec32 n = n - 1 := by
  unfold dec32
  have e : n + (2 ^ 32 - 1) = (n - 1) + 2 ^ 32 := by omega
  rw [e, Nat.add_mod_right, Nat.mod_eq_of_lt (by omega)]

/-- C28 as stated does not hold: with the stored crash site `start` at
`mytarget+0xdead` and a call stack whose crash site is `mytarget+0xdead` with
the symbol `main`, `same_crash_site` returns 1 and the stored symbol is `main`
afterwards, not `start`: the stored site after the call is the freshly parsed
one. -/
theorem same_crash_site_symbol_replaced :
    (mkFuzzer scenario3 3 siteStart (some scenario4File)).stored_site =
      ⟨some "start".toList, some "mytarget".toList, 0xdead⟩ ∧
    (same_crash_site sampleConfig symbolizeMain
        (mkFuzzer scenario3 3 siteStart (some scenario4File)) none 0 0).map
      (fun r => (r.1, r.2.1.stored_site)) =
      some (1, ⟨some "main".toList, some "mytarget".toList, 0xdead⟩) := by
  decide

/-- C28, amended: when the comparison of `same_crash_site` finds the freshly
parsed site to be the same as the stored one, the call returns 1 and keeps the
freshly parsed triple: the stored module and offset after the call equal those
before it, and the stored symbol is the freshly parsed symbol, whatever the
stored symbol was. The queue entry and the counters `pending_not_fuzzed` and
`active_items` are unchanged. -/
theorem same_crash_site_keeps_fresh (K : fuzz_config)
    (symbolize : List Char → Nat → Nat × Option (List Char)) (st : fuzzer)
    (q : Option queue_entry) (detail discard : Nat)
    (h : is_same st.stored_site
      (find_crash_site K.callstack st.target_path symbolize st.call_stack_file) = 1) :
    ∃ st', same_crash_site K symbolize st q detail discard = some (1, st', q) ∧
      st'.crash_module = st.crash_module ∧ st'.crash_offset = st.crash_offset ∧
      st'.crash_symbol =
        (find_crash_site K.callstack st.target_path symbolize st.call_stack_file).symbol ∧
      st'.pending_not_fuzzed = st.pending_not_fuzzed ∧
      st'.active_items = st.active_items := by
  refine ⟨parse_crash_site K symbolize st,
    same_crash_site_same K symbolize st q detail discard h, ?_, ?_, rfl, rfl, rfl⟩
  · exact (is_same_eq_one _ _ h).2.symm
  · exact (is_same_eq_one _ _ h).1.symm

/-- Instance of amended C28: the stored site `start` at `mytarget+0xdead` and the
call stack of boundary scenario 4. -/
theorem same_crash_site_keeps_fresh_witness :
    is_same (mkFuzzer scenario3 3 siteStart (some scenario4File)).stored_site
      (find_crash_site sampleConfig.callstack "mytarget".toList symbolizeMain
        (some scenario4File)) = 1 ∧
    ∃ st', same_crash_site sampleConfig symbolizeMain
        (mkFuzzer scenario3 3 siteStart (some scenario4File)) none 0 0 =
          some (1, st', none) ∧
      st'.crash_module = some "mytarget".toList ∧ st'.crash_offset = 0xdead ∧
      st'.crash_symbol =
        (find_crash_site sampleConfig.callstack "mytarget".toList symbolizeMain
          (some scenario4File)).symbol ∧
      st'.pending_not_fuzzed = 2 ∧ st'.active_items = 3 :=
  ⟨by decide,
    same_crash_site_keeps_fresh sampleConfig symbolizeMain
      (mkFuzzer scenario3 3 siteStart (some scenario4File)) none 0 0 (by decide)⟩

/-- C29: when the comparison of `same_crash_site` finds the freshly parsed site
to differ from the stored one, every return of the call gives 0 and leaves the
stored triple (symbol, module, offset) as it was before the call; the call
returns unless a queue entry is passed with `detail` set and the README cannot
be opened. When no queue entry is passed, the call returns 0 whatever `detail`
and `discard` are, just as with both clear: the stored triple, the counters
`pending_not_fuzzed` and `active_items`, the entry `queue_top` and the README
are unchanged. -/
theorem same_crash_site_restores (K : fuzz_config)
    (symbolize : List Char → Nat → Nat × Option (List Char)) (st : fuzzer)
    (q : Option queue_entry) (detail discard : Nat)
    (h : is_same st.stored_site
      (find_crash_site K.callstack st.target_path symbolize st.call_stack_file) = 0) :
    (∀ r st' q', same_crash_site K symbolize st q detail discard = some (r, st', q') →
      r = 0 ∧ st'.stored_site = st.stored_site) ∧
    (same_crash_site K symbolize st q detail discard = none ↔
      q.isSome ∧ detail ≠ 0 ∧ st.readme = none) ∧
    (∃ st', same_crash_site K symbolize st none detail discard = some (0, st', none) ∧
      same_crash_site K symbolize st none 0 0 = some (0, st', none) ∧
      st'.stored_site = st.stored_site ∧
      st'.pending_not_fuzzed = st.pending_not_fuzzed ∧
      st'.active_items = st.active_items ∧ st'.queue_top = st.queue_top ∧
      st'.readme = st.readme) := by
  refine ⟨?_, ?_, ⟨_, same_crash_site_differ_null K symbolize st detail discard h,
    same_crash_site_differ_null K symbolize st 0 0 h, rfl, rfl, rfl, rfl, rfl⟩⟩
  · intro r st' q' hr
    cases q with
    | none =>
      rw [same_crash_site_differ_null K symbolize st detail discard h] at hr
      simp only [Option.some.injEq, Prod.mk.injEq] at hr
      obtain ⟨h1, h2, -⟩ := hr
      subst h1 h2
      exact ⟨rfl, rfl⟩
    | some e =>
      rw [same_crash_site_differ_entry K symbolize st e detail discard h] at hr
      split at hr
      · simp at hr
      · split_ifs at hr <;>
        · simp only [Option.some.injEq, Prod.mk.injEq] at hr
          obtain ⟨h1, h2, -⟩ := hr
          subst h1 h2
          exact ⟨rfl, rfl⟩
  · cases q with
    | none =>
      rw [same_crash_site_differ_null K symbolize st detail discard h]
      simp
    | some e =>
      rw [same_crash_site_differ_entry K symbolize st e detail discard h]
      by_cases hd : detail = 0
      · subst hd
        simp only [ne_eq, not_true_eq_false, if_false]
        split_ifs <;> simp
      · simp only [ne_eq, hd, not_false_eq_true, if_true]
        cases hw : write_crash_detail K (parse_crash_site K symbolize st) e with
        | none =>
          have hn : st.readme = none :=
            (write_crash_detail_none K (parse_crash_site K symbolize st) e).1 hw
          simp [hd, hn]
        | some st1 =>
          have hne : (parse_crash_site K symbolize st).readme ≠ none := by
            intro hn
            rw [(write_crash_detail_none K _ e).2 hn] at hw
            simp at hw
          have hne2 : st.readme ≠ none := hne
          simp only [Option.isSome_some, true_and]
          split_ifs <;> simp [hne2]

/-- Instance of C29: the stored site `main` at `mytarget+0xbeef` against the
call stack of boundary scenario 4, with no queue entry, `detail` and `discard`
set. -/
theorem same_crash_site_restores_witness :
    is_same (mkFuzzer scenario3 3 siteElsewhere (some scenario4File)).stored_site
      (find_crash_site sampleConfig.callstack "mytarget".toList symbolizeMain
        (some scenario4File)) = 0 ∧
    ∃ st', same_crash_site sampleConfig symbolizeMain
        (mkFuzzer scenario3 3 siteElsewhere (some scenario4File)) none 1 1 =
          some (0, st', none) ∧
      same_crash_site sampleConfig symbolizeMain
        (mkFuzzer scenario3 3 siteElsewhere (some scenario4File)) none 0 0 =
          some (0, st', none) ∧
      st'.stored_site = siteElsewhere ∧ st'.pending_not_fuzzed = 2 ∧
      st'.active_items = 3 ∧ st'.queue_top = some (sampleEntry 0) ∧
      st'.readme = some [] :=
  ⟨by decide,
    (same_crash_site_restores sampleConfig symbolizeMain
      (mkFuzzer scenario3 3 siteElsewhere (some scenario4File)) none 1 1 (by decide)).2.2⟩

/-- C30 as stated does not hold: for a queue entry that was already fuzzed
(`was_fuzzed = 1`), passed with `discard` set when the sites differ, the call
returns 0 and disables the entry, but `pending_not_fuzzed` and `active_items`
keep their values 2 and 3. -/
theorem same_crash_site_discard_fuzzed :
    (same_crash_site sampleConfig symbolizeMain
        (mkFuzzer scenario3 3 siteElsewhere (some scenario4File))
        (some (sampleEntry 1)) 0 1).map
      (fun r => (r.1, r.2.1.pending_not_fuzzed, r.2.1.active_items, r.2.2)) =
      some (0, 2, 3, some { sampleEntry 1 with disabled := 1, perf_score := 0 }) ∧
    (mkFuzzer scenario3 3 siteElsewhere (some scenario4File)).pending_not_fuzzed = 2 ∧
    (mkFuzzer scenario3 3 siteElsewhere (some scenario4File)).active_items = 3 := by
  decide

/-- C30, amended: when the comparison of `same_crash_site` finds the sites to
differ and a queue entry is passed (and the README can be opened when `detail`
is set), the call returns 0 and: with `discard` set the entry ends up disabled
with `perf_score` zero and `was_fuzzed` set, and `pending_not_fuzzed` and
`active_items` are each decremented by one (as `u32`) if the entry had not been
fuzzed before (`was_fuzzed` was 0) and unchanged if it had; with `discard`
clear the entry and both counters are unchanged. -/
theorem same_crash_site_discard (K : fuzz_config)
    (symbolize : List Char → Nat → Nat × Option (List Char)) (st : fuzzer)
    (e : queue_entry) (detail discard : Nat)
    (h : is_same st.stored_site
      (find_crash_site K.callstack st.target_path symbolize st.call_stack_file) = 0)
    (hw : detail = 0 ∨ st.readme ≠ none) :
    ∃ st' e', same_crash_site K symbolize st (some e) detail discard =
        some (0, st', some e') ∧
      (discard ≠ 0 →
        e'.disabled = 1 ∧ e'.perf_score = 0 ∧ e'.was_fuzzed ≠ 0 ∧
        (e.was_fuzzed = 0 →
          e'.was_fuzzed = 1 ∧
          st'.pending_not_fuzzed = dec32 st.pending_not_fuzzed ∧
          st'.active_items = dec32 st.active_items) ∧
        (e.was_fuzzed ≠ 0 →
          e'.was_fuzzed = e.was_fuzzed ∧
          st'.pending_not_fuzzed = st.pending_not_fuzzed ∧
          st'.active_items = st.active_items)) ∧
      (discard = 0 →
        e' = e ∧ st'.pending_not_fuzzed = st.pending_not_fuzzed ∧
        st'.active_items = st.active_items) ∧
      (∀ n, 0 < n → n < 2 ^ 32 → dec32 n = n - 1) := by
  rw [same_crash_site_differ_entry K symbolize st e detail discard h]
  obtain ⟨st1, hst1, hp, ha⟩ : ∃ st1,
      (if detail ≠ 0 then write_crash_detail K (parse_crash_site K symbolize st) e
        else some (parse_crash_site K symbolize st)) = some st1 ∧
      st1.pending_not_fuzzed = st.pending_not_fuzzed ∧
      st1.active_items = st.active_items := by
    by_cases hd : detail = 0
    · exact ⟨parse_crash_site K symbolize st, by simp [hd], rfl, rfl⟩
    · have hr : (parse_crash_site K symbolize st).readme ≠ none := by
        rcases hw with hw | hw
        · exact absurd hw hd
        · exact hw
      cases hwr : write_crash_detail K (parse_crash_site K symbolize st) e with
      | none => exact absurd ((write_crash_detail_none K _ e).1 hwr) hr
      | some st1 =>
        have hf := write_crash_detail_frame K _ st1 e hwr
        exact ⟨st1, by simp [hd], hf.1, hf.2.1⟩
  rw [hst1]
  by_cases hdis : discard = 0
  · refine ⟨st1.store_site st.stored_site, e, by simp [hdis], fun hc => absurd hdis hc,
      fun _ => ⟨rfl, hp, ha⟩, dec32_pos⟩
  · by_cases hf : e.was_fuzzed = 0
    · refine ⟨_, _, by simp only [ne_eq, hdis, not_false_eq_true, if_true, hf]; rfl, ?_,
        fun hc => absurd hc hdis, dec32_pos⟩
      intro _
      refine ⟨rfl, rfl, by simp, fun _ => ⟨rfl, ?_, ?_⟩, fun hc => absurd hf hc⟩
      · show dec32 st1.pending_not_fuzzed = _
        rw [hp]
      · show dec32 st1.active_items = _
        rw [ha]
    · refine ⟨_, _, by simp only [ne_eq, hdis, not_false_eq_true, if_true, hf, if_false]; rfl,
        ?_, fun hc => absurd hc hdis, dec32_pos⟩
      intro _
      exact ⟨rfl, rfl, hf, fun hc => absurd hc hf, fun _ => ⟨rfl, hp, ha⟩⟩

/-- Instance of amended C30: an entry not yet fuzzed, passed with `discard` set
and `detail` clear when the stored site `mytarget+0xbeef` differs from the
parsed one; the counters go from 2 and 3 to 1 and 2. -/
theorem same_crash_site_discard_witness :
    is_same (mkFuzzer scenario3 3 siteElsewhere (some scenario4File)).stored_site
      (find_crash_site sampleConfig.callstack "mytarget".toList symbolizeMain
        (some scenario4File)) = 0 ∧
    (∃ st' e', same_crash_site sampleConfig symbolizeMain
        (mkFuzzer scenario3 3 siteElsewhere (some scenario4File))
        (some (sampleEntry 0)) 0 1 = some (0, st', some e') ∧
      ((1 : Nat) ≠ 0 →
        e'.disabled = 1 ∧ e'.perf_score = 0 ∧ e'.was_fuzzed ≠ 0 ∧
        ((sampleEntry 0).was_fuzzed = 0 →
          e'.was_fuzzed = 1 ∧ st'.pending_not_fuzzed = dec32 2 ∧
          st'.active_items = dec32 3) ∧
        ((sampleEntry 0).was_fuzzed ≠ 0 →
          e'.was_fuzzed = (sampleEntry 0).was_fuzzed ∧
          st'.pending_not_fuzzed = 2 ∧ st'.active_items = 3)) ∧
      ((1 : Nat) = 0 →
        e' = sampleEntry 0 ∧ st'.pending_not_fuzzed = 2 ∧ st'.active_items = 3) ∧
      (∀ n, 0 < n → n < 2 ^ 32 → dec32 n = n - 1)) ∧
    dec32 2 = 1 ∧ dec32 3 = 2 :=
  ⟨by decide,
    same_crash_site_discard sampleConfig symbolizeMain
      (mkFuzzer scenario3 3 siteElsewhere (some scenario4File)) (sampleEntry 0) 0 1
      (by decide) (Or.inl rfl),
    by decide, by decide⟩

/-! ## Claims C22 to C24: what `save_if_interesting` leaves unchanged -/

theorem classify_counts_length : ∀ t : List Nat, (classify_counts t).length = t.length
  | [] => rfl
  | [_] => rfl
  | lo :: hi :: rest => by
    rw [classify_counts, List.length_cons, List.length_cons, classify_counts_length rest]
    rfl

/-- A call of `has_few_bits` that returns `0x10` or `0x00` leaves the map it was
given as it was. -/
theorem has_few_bits_dull (w64 : Bool) (afl : afl_state) (m : VirginMap)
    (hT : afl.trace_bits.length = wordBytes w64 * scanWords w64 afl.real_map_size)
    (hV : (afl.getVirgin m).length = wordBytes w64 * scanWords w64 afl.real_map_size)
    (hVb : ∀ b ∈ afl.getVirgin m, b < 256)
    (h : (has_few_bits w64 afl m).1 = 0x10 ∨ (has_few_bits w64 afl m).1 = 0x00) :
    (has_few_bits w64 afl m).2.getVirgin m = afl.getVirgin m := by
  cases hm : afl.testcase_matrix with
  | false =>
    rw [has_few_bits_no_matrix w64 afl m hm] at h ⊢
    obtain ⟨e1, e2⟩ := has_new_bits_eq_discover w64 afl m hT hV
    have hle := discover_word_le_two 0 afl.trace_bits (afl.getVirgin m) (by omega)
    rw [e1] at h
    have h0 : (discover_word 0 afl.trace_bits (afl.getVirgin m)).1 = 0 := by omega
    have hz := (discover_word_eq_zero 0 afl.trace_bits (afl.getVirgin m)
      (by rw [hT, hV])).1 h0
    rw [e2, discover_word_skip 0 afl.trace_bits (afl.getVirgin m) (by rw [hT, hV]) hz.2]
  | true =>
    have hf := has_few_bits_fst w64 afl m hm
    have hp := pack_flags (bms_decrease afl) (few_bits_scan w64 afl m).cov_decrease
      (few_bits_scan w64 afl m).hcn_decrease (bms_decrease_le afl)
      (few_bits_scan_cov_le w64 afl m) (few_bits_scan_hcn_le w64 afl m)
    rw [← hf] at hp
    obtain ⟨-, -, -, -, hge, -, hiff⟩ := hp
    have h10 : (has_few_bits w64 afl m).1 = 0x10 := by omega
    have hcov : (few_bits_scan w64 afl m).cov_decrease = 0 := (hiff.1 h10).2.1
    rw [has_few_bits_getVirgin w64 afl m hm, few_bits_scan_virgin w64 afl m hT hV hVb]
    apply reset_eq_of_no_drop _ _ (by rw [hT, hV])
    rw [← Bool.not_eq_true]
    intro hany
    have hex := (any_dropped_iff _ _ (by rw [hT, hV])).1 hany
    have := (few_bits_scan_cov w64 afl m hT hV hVb).2 hex
    omega

theorem path_frequency_cases (K : fuzz_config) (W : collaborators) (st : fuzzer) :
    ((path_frequency K W st).1 = 0 ∧ (path_frequency K W st).2.2 = st) ∨
    ((path_frequency K W st).1 = 1 ∧ ∃ nf,
      (path_frequency K W st).2.2 = { classify_trace st with n_fuzz := nf }) := by
  unfold path_frequency
  by_cases h1 : K.FAST ≤ st.schedule ∧ st.schedule ≤ K.RARE
  · rw [if_pos h1]
    dsimp only
    split_ifs
    · exact Or.inr ⟨rfl, _, rfl⟩
    · exact Or.inr ⟨rfl, st.n_fuzz, rfl⟩
  · rw [if_neg h1]
    exact Or.inl ⟨rfl, rfl⟩

theorem save_if_interesting_crash (K : fuzz_config) (W : collaborators) (w64 : Bool)
    (fuel : Nat) (st : fuzzer) (mem : List Nat) (len : Nat) (hlen : len ≠ 0) :
    save_if_interesting K W w64 (fuel + 1) st mem len .FSRV_RUN_CRASH =
      some (crash_case K W w64 ⟨mem, len, (path_frequency K W st).1,
        (path_frequency K W st).2.1, 0⟩ (path_frequency K W st).2.2) := by
  unfold save_if_interesting
  rw [if_neg hlen, if_neg (by simp)]
  rfl

theorem site_check_pass (K : fuzz_config) (W : collaborators) (s : fuzzer)
    (h : s.crash_mode < K.IGORFUZZ_NEW_CRASH_MODE_LV3 ∨
      is_same s.stored_site
        (find_crash_site K.callstack s.target_path W.symbolize s.call_stack_file) = 1) :
    ∃ s2, site_check K W s = some (1, s2) ∧ s2.maps = s.maps ∧
      s2.queue_top = s.queue_top ∧ s2.queued_items = s.queued_items ∧
      s2.saved_crashes = s.saved_crashes ∧ s2.files = s.files ∧
      s2.total_crashes = s.total_crashes := by
  unfold site_check
  by_cases ht : s.crash_mode ≥ K.IGORFUZZ_NEW_CRASH_MODE_LV3
  · rw [if_pos ht]
    rcases h with h | h
    · omega
    · rw [same_crash_site_same K W.symbolize s none 0 0 h]
      exact ⟨_, rfl, rfl, rfl, rfl, rfl, rfl, rfl⟩
  · rw [if_neg ht]
    exact ⟨s, rfl, rfl, rfl, rfl, rfl, rfl, rfl⟩

theorem site_check_fail (K : fuzz_config) (W : collaborators) (s : fuzzer)
    (ht : K.IGORFUZZ_NEW_CRASH_MODE_LV3 ≤ s.crash_mode)
    (hd : is_same s.stored_site
        (find_crash_site K.callstack s.target_path W.symbolize s.call_stack_file) = 0) :
    site_check K W s =
      some (0, (parse_crash_site K W.symbolize s).store_site s.stored_site) := by
  unfold site_check
  rw [if_pos ht, same_crash_site_differ_null K W.symbolize s 0 0 hd]
  rfl

theorem crash_case_after_check (K : fuzz_config) (W : collaborators) (w64 : Bool)
    (l : locals) (s s2 : fuzzer) (same : Nat)
    (hsc : site_check K W { s with total_crashes := (s.total_crashes + 1) % 2 ^ 64 } =
      some (same, s2)) :
    crash_case K W w64 l s =
      if same = 0 then .returned 0 s2
      else if (has_few_bits w64 (if l.classified ≠ 0 then s2 else classify_trace s2).maps
            VirginMap.virgin_bits).1 = 0x10 ∨
          (has_few_bits w64 (if l.classified ≠ 0 then s2 else classify_trace s2).maps
            VirginMap.virgin_bits).1 = 0x00 then
        .returned 0 { (if l.classified ≠ 0 then s2 else classify_trace s2) with
          maps := (has_few_bits w64 (if l.classified ≠ 0 then s2 else classify_trace s2).maps
            VirginMap.virgin_bits).2 }
      else
        enqueue_crash K W { l with classified := 1 }
          (has_few_bits w64 (if l.classified ≠ 0 then s2 else classify_trace s2).maps
            VirginMap.virgin_bits).1
          { (if l.classified ≠ 0 then s2 else classify_trace s2) with
            maps := (has_few_bits w64
              (if l.classified ≠ 0 then s2 else classify_trace s2).maps
              VirginMap.virgin_bits).2 } := by
  unfold crash_case
  simp only [hsc]

theorem crash_saved_cases (W : collaborators) (st : fuzzer) :
    crash_saved W st = .aborted ∨ ∃ st', crash_saved W st = .returned 1 st' := by
  unfold crash_saved
  dsimp only
  split_ifs
  · split
    · exact Or.inl rfl
    · exact Or.inr ⟨_, rfl⟩
  · exact Or.inr ⟨_, rfl⟩

theorem crash_detail_cases (K : fuzz_config) (W : collaborators) (st : fuzzer) :
    crash_detail K W st = .aborted ∨ ∃ st', crash_detail K W st = .returned 1 st' := by
  unfold crash_detail
  cases second_site_check K W st with
  | none => exact Or.inl rfl
  | some p =>
    obtain ⟨c, s⟩ := p
    dsimp only
    cases detail_written K s c with
    | none => exact Or.inl rfl
    | some s1 => exact crash_saved_cases W s1

theorem calibrate_new_entry_cases (K : fuzz_config) (W : collaborators) (l : locals)
    (few_bits : Nat) (st : fuzzer) (top : queue_entry) :
    calibrate_new_entry K W l few_bits st top = .aborted ∨
      ∃ st', calibrate_new_entry K W l few_bits st top = .returned 1 st' := by
  unfold calibrate_new_entry
  dsimp only
  split_ifs
  all_goals first
    | exact Or.inl rfl
    | exact crash_detail_cases K W _

theorem enqueue_crash_cases (K : fuzz_config) (W : collaborators) (l : locals)
    (few_bits : Nat) (st : fuzzer) :
    enqueue_crash K W l few_bits st = .aborted ∨
      ∃ st', enqueue_crash K W l few_bits st = .returned 1 st' := by
  unfold enqueue_crash
  cases describe_op K { st.describe with cur_time := W.get_cur_time st }
      (few_bits + l.is_timeout) (name_room K) with
  | none => exact Or.inl rfl
  | some desc =>
    dsimp only
    split_ifs
    · cases (write_and_enqueue W l st (queue_file_name st desc)).queue_top with
      | none => exact Or.inl rfl
      | some top => exact calibrate_new_entry_cases K W l few_bits _ top
    · exact Or.inl rfl
theorem crash_case_classes (K : fuzz_config) (W : collaborators) (w64 : Bool)
    (l : locals) (s : fuzzer) (cm : afl_state)
    (hpass : s.crash_mode < K.IGORFUZZ_NEW_CRASH_MODE_LV3 ∨
      is_same s.stored_site
        (find_crash_site K.callstack s.target_path W.symbolize s.call_stack_file) = 1)
    (hcm : (if l.classified ≠ 0 then s else classify_trace s).maps = cm) :
    ((has_few_bits w64 cm VirginMap.virgin_bits).1 = 0x10 ∨
        (has_few_bits w64 cm VirginMap.virgin_bits).1 = 0x00 →
      ∃ st', crash_case K W w64 l s = .returned 0 st' ∧
        st'.maps = (has_few_bits w64 cm VirginMap.virgin_bits).2 ∧
        st'.queue_top = s.queue_top ∧ st'.queued_items = s.queued_items ∧
        st'.saved_crashes = s.saved_crashes ∧ st'.files = s.files ∧
        st'.total_crashes = (s.total_crashes + 1) % 2 ^ 64) ∧
    (¬((has_few_bits w64 cm VirginMap.virgin_bits).1 = 0x10 ∨
        (has_few_bits w64 cm VirginMap.virgin_bits).1 = 0x00) →
      crash_case K W w64 l s = .aborted ∨
        ∃ st', crash_case K W w64 l s = .returned 1 st') := by
  obtain ⟨s2, hsc, hmaps, hq, hqi, hsv, hfiles, htc⟩ :=
    site_check_pass K W { s with total_crashes := (s.total_crashes + 1) % 2 ^ 64 } hpass
  have hm2 : s2.maps = s.maps := hmaps
  have hcm2 : (if l.classified ≠ 0 then s2 else classify_trace s2).maps = cm := by
    rw [← hcm]
    by_cases hc : l.classified ≠ 0
    · rw [if_pos hc, if_pos hc, hm2]
    · rw [if_neg hc, if_neg hc]
      unfold classify_trace
      simp only [hm2]
  have hframe : (if l.classified ≠ 0 then s2 else classify_trace s2).queue_top = s.queue_top ∧
      (if l.classified ≠ 0 then s2 else classify_trace s2).queued_items = s.queued_items ∧
      (if l.classified ≠ 0 then s2 else classify_trace s2).saved_crashes = s.saved_crashes ∧
      (if l.classified ≠ 0 then s2 else classify_trace s2).files = s.files ∧
      (if l.classified ≠ 0 then s2 else classify_trace s2).total_crashes =
        (s.total_crashes + 1) % 2 ^ 64 := by
    by_cases hc : l.classified ≠ 0
    · rw [if_pos hc]
      exact ⟨hq, hqi, hsv, hfiles, htc⟩
    · rw [if_neg hc]
      exact ⟨hq, hqi, hsv, hfiles, htc⟩
  rw [crash_case_after_check K W w64 l s s2 1 hsc, if_neg one_ne_zero, hcm2]
  constructor
  · intro hd
    rw [if_pos hd]
    exact ⟨_, rfl, rfl, hframe.1, hframe.2.1, hframe.2.2.1, hframe.2.2.2.1, hframe.2.2.2.2⟩
  · intro hd
    rw [if_neg hd]
    exact enqueue_crash_cases K W _ _ _

theorem save_if_interesting_crash_pass (K : fuzz_config) (W : collaborators) (w64 : Bool)
    (fuel : Nat) (st : fuzzer) (mem : List Nat) (len : Nat) (hlen : len ≠ 0) :
    ∃ l s, save_if_interesting K W w64 (fuel + 1) st mem len .FSRV_RUN_CRASH =
        some (crash_case K W w64 l s) ∧
      (if l.classified ≠ 0 then s else classify_trace s).maps = (classify_trace st).maps ∧
      s.crash_mode = st.crash_mode ∧ s.stored_site = st.stored_site ∧
      s.target_path = st.target_path ∧ s.call_stack_file = st.call_stack_file ∧
      s.queue_top = st.queue_top ∧ s.queued_items = st.queued_items ∧
      s.saved_crashes = st.saved_crashes ∧ s.files = st.files ∧
      s.total_crashes = st.total_crashes ∧ s.maps.virgin_bits = st.maps.virgin_bits := by
  refine ⟨_, _, save_if_interesting_crash K W w64 fuel st mem len hlen, ?_⟩
  rcases path_frequency_cases K W st with ⟨hc, hs⟩ | ⟨hc, nf, hs⟩
  · rw [hs]
    dsimp only
    rw [hc]
    exact ⟨rfl, rfl, rfl, rfl, rfl, rfl, rfl, rfl, rfl, rfl, rfl⟩
  · rw [hs]
    dsimp only
    rw [hc]
    exact ⟨rfl, rfl, rfl, rfl, rfl, rfl, rfl, rfl, rfl, rfl, rfl⟩

theorem crash_case_site_fail (K : fuzz_config) (W : collaborators) (w64 : Bool)
    (l : locals) (s : fuzzer)
    (htier : K.IGORFUZZ_NEW_CRASH_MODE_LV3 ≤ s.crash_mode)
    (hdiff : is_same s.stored_site
      (find_crash_site K.callstack s.target_path W.symbolize s.call_stack_file) = 0) :
    ∃ st', crash_case K W w64 l s = .returned 0 st' ∧
      st'.queued_items = s.queued_items ∧ st'.queue_top = s.queue_top ∧
      st'.maps = s.maps ∧ st'.stored_site = s.stored_site ∧
      st'.total_crashes = (s.total_crashes + 1) % 2 ^ 64 ∧
      st'.saved_crashes = s.saved_crashes ∧ st'.files = s.files := by
  have hsc := site_check_fail K W
    { s with total_crashes := (s.total_crashes + 1) % 2 ^ 64 } htier hdiff
  rw [crash_case_after_check K W w64 l s _ 0 hsc, if_pos rfl]
  exact ⟨_, rfl, rfl, rfl, rfl, rfl, rfl, rfl, rfl⟩

/-- C24: `save_if_interesting` returns 0 at once, with every piece of the state
as it was, whenever `len` is 0 (for any fault), and whenever the fault is a
timeout and the ignore-timeouts setting is on. -/
theorem save_if_interesting_early (K : fuzz_config) (W : collaborators) (w64 : Bool)
    (fuel : Nat) (st : fuzzer) (mem : List Nat) (len : Nat) (fault : fsrv_fault)
    (h : len = 0 ∨ (fault = .FSRV_RUN_TMOUT ∧ st.afl_ignore_timeouts ≠ 0)) :
    save_if_interesting K W w64 fuel st mem len fault = some (.returned 0 st) := by
  unfold save_if_interesting
  by_cases hl : len = 0
  · rw [if_pos hl]
  · rw [if_neg hl]
    rcases h with h | h
    · exact absurd h hl
    · rw [if_pos h]

/-- Instance of C24: an empty input with a crash fault. -/
theorem save_if_interesting_early_witness :
    ((0 : Nat) = 0 ∨ (fsrv_fault.FSRV_RUN_CRASH = .FSRV_RUN_TMOUT ∧
      (mkFuzzer scenario3 3 siteStart (some scenario4File)).afl_ignore_timeouts ≠ 0)) ∧
    save_if_interesting sampleConfig sampleWorld true 2
      (mkFuzzer scenario3 3 siteStart (some scenario4File)) [] 0 .FSRV_RUN_CRASH =
        some (.returned 0 (mkFuzzer scenario3 3 siteStart (some scenario4File))) :=
  ⟨Or.inl rfl,
    save_if_interesting_early sampleConfig sampleWorld true 2
      (mkFuzzer scenario3 3 siteStart (some scenario4File)) [] 0 .FSRV_RUN_CRASH
      (Or.inl rfl)⟩

/-- C23: for a crash fault and a non-empty input in crash mode
`IGORFUZZ_NEW_CRASH_MODE_LV3` or above, when the freshly parsed crash site
differs from the stored one (so that `same_crash_site` returns 0 before any
classification for the crash), `save_if_interesting` returns 0 in its first
pass; `queued_items`, `queue_top` and `virgin_bits` are unchanged, the stored
crash site is the one stored before the call, no file is written, and
`total_crashes` is incremented by exactly one (as `u64`). -/
theorem tier3_site_changed (K : fuzz_config) (W : collaborators) (w64 : Bool)
    (fuel : Nat) (st : fuzzer) (mem : List Nat) (len : Nat) (hlen : len ≠ 0)
    (htier : K.IGORFUZZ_NEW_CRASH_MODE_LV3 ≤ st.crash_mode)
    (hdiff : is_same st.stored_site
      (find_crash_site K.callstack st.target_path W.symbolize st.call_stack_file) = 0) :
    ∃ st', save_if_interesting K W w64 (fuel + 1) st mem len .FSRV_RUN_CRASH =
        some (.returned 0 st') ∧
      st'.queued_items = st.queued_items ∧ st'.queue_top = st.queue_top ∧
      st'.maps.virgin_bits = st.maps.virgin_bits ∧
      st'.stored_site = st.stored_site ∧
      st'.total_crashes = (st.total_crashes + 1) % 2 ^ 64 ∧
      st'.saved_crashes = st.saved_crashes ∧ st'.files = st.files := by
  obtain ⟨l, s, hrun, -, hmode, hsite, htp, hcs, hq, hqi, hsv, hfiles, htc, hvb⟩ :=
    save_if_interesting_crash_pass K W w64 fuel st mem len hlen
  obtain ⟨st', h1, h2, h3, h4, h5, h6, h7, h8⟩ := crash_case_site_fail K W w64 l s
    (by rw [hmode]; exact htier) (by rw [hsite, htp, hcs]; exact hdiff)
  refine ⟨st', by rw [hrun, h1], h2.trans hqi, h3.trans hq, ?_, h5.trans hsite, ?_,
    h7.trans hsv, h8.trans hfiles⟩
  · rw [h4, hvb]
  · rw [h6, htc]

/-- Instance of C23: tier 3, stored site `mytarget+0xbeef`, the call stack of
boundary scenario 4; `total_crashes` goes from 4 to 5. -/
theorem tier3_site_changed_witness :
    (4 : Nat) ≠ 0 ∧
    sampleConfig.IGORFUZZ_NEW_CRASH_MODE_LV3 ≤
      (mkFuzzer scenario3 3 siteElsewhere (some scenario4File)).crash_mode ∧
    ∃ st', save_if_interesting sampleConfig sampleWorld true (0 + 1)
        (mkFuzzer scenario3 3 siteElsewhere (some scenario4File)) [1, 2, 3, 4] 4
        .FSRV_RUN_CRASH = some (.returned 0 st') ∧
      st'.queued_items = 3 ∧ st'.queue_top = some (sampleEntry 0) ∧
      st'.maps.virgin_bits = scenario3.virgin_bits ∧
      st'.stored_site = siteElsewhere ∧
      st'.total_crashes = (4 + 1) % 2 ^ 64 ∧
      st'.saved_crashes = 2 ∧ st'.files = [] :=
  ⟨by decide, by decide,
    tier3_site_changed sampleConfig sampleWorld true 0
      (mkFuzzer scenario3 3 siteElsewhere (some scenario4File)) [1, 2, 3, 4] 4
      (by decide) (by decide) (by decide)⟩

/-- C22: for a crash fault and a non-empty input, when the first crash-site
check does not apply (crash mode below `IGORFUZZ_NEW_CRASH_MODE_LV3`) or passes
(the freshly parsed site is the same as the stored one), `save_if_interesting`
goes by the class that `has_few_bits` returns for `virgin_bits` on the
classified trace. If the class is `0x10` or `0x00` the call returns 0:
`queue_top`, `queued_items` and `saved_crashes` are unchanged, no file is
written and `virgin_bits` is unchanged. If the class is neither, the call
returns 1 or ends the process. So it returns 1 only when the class is neither
`0x10` nor `0x00`. -/
theorem crash_kept_only_if_interesting (K : fuzz_config) (W : collaborators) (w64 : Bool)
    (fuel : Nat) (st : fuzzer) (mem : List Nat) (len : Nat) (hlen : len ≠ 0)
    (hpass : st.crash_mode < K.IGORFUZZ_NEW_CRASH_MODE_LV3 ∨
      is_same st.stored_site
        (find_crash_site K.callstack st.target_path W.symbolize st.call_stack_file) = 1)
    (hT : st.maps.trace_bits.length =
      wordBytes w64 * scanWords w64 st.maps.real_map_size)
    (hV : st.maps.virgin_bits.length =
      wordBytes w64 * scanWords w64 st.maps.real_map_size)
    (hVb : ∀ b ∈ st.maps.virgin_bits, b < 256) :
    ((has_few_bits w64 (classify_trace st).maps VirginMap.virgin_bits).1 = 0x10 ∨
        (has_few_bits w64 (classify_trace st).maps VirginMap.virgin_bits).1 = 0x00 →
      ∃ st', save_if_interesting K W w64 (fuel + 1) st mem len .FSRV_RUN_CRASH =
          some (.returned 0 st') ∧
        st'.queue_top = st.queue_top ∧ st'.queued_items = st.queued_items ∧
        st'.saved_crashes = st.saved_crashes ∧ st'.files = st.files ∧
        st'.maps.virgin_bits = st.maps.virgin_bits) ∧
    (¬((has_few_bits w64 (classify_trace st).maps VirginMap.virgin_bits).1 = 0x10 ∨
        (has_few_bits w64 (classify_trace st).maps VirginMap.virgin_bits).1 = 0x00) →
      save_if_interesting K W w64 (fuel + 1) st mem len .FSRV_RUN_CRASH = some .aborted ∨
      ∃ st', save_if_interesting K W w64 (fuel + 1) st mem len .FSRV_RUN_CRASH =
        some (.returned 1 st')) ∧
    (∀ st', save_if_interesting K W w64 (fuel + 1) st mem len .FSRV_RUN_CRASH =
        some (.returned 1 st') →
      (has_few_bits w64 (classify_trace st).maps VirginMap.virgin_bits).1 ≠ 0x10 ∧
      (has_few_bits w64 (classify_trace st).maps VirginMap.virgin_bits).1 ≠ 0x00) := by
  obtain ⟨l, s, hrun, hcm, hmode, hsite, htp, hcs, hq, hqi, hsv, hfiles, -, -⟩ :=
    save_if_interesting_crash_pass K W w64 fuel st mem len hlen
  have hp : s.crash_mode < K.IGORFUZZ_NEW_CRASH_MODE_LV3 ∨
      is_same s.stored_site
        (find_crash_site K.callstack s.target_path W.symbolize s.call_stack_file) = 1 := by
    rw [hmode, hsite, htp, hcs]
    exact hpass
  obtain ⟨hdull, hkeen⟩ := crash_case_classes K W w64 l s _ hp hcm
  have hTc : (classify_trace st).maps.trace_bits.length =
      wordBytes w64 * scanWords w64 (classify_trace st).maps.real_map_size := by
    show (classify_counts st.maps.trace_bits).length = _
    rw [classify_counts_length]
    exact hT
  have hfirst : (has_few_bits w64 (classify_trace st).maps VirginMap.virgin_bits).1 = 0x10 ∨
        (has_few_bits w64 (classify_trace st).maps VirginMap.virgin_bits).1 = 0x00 →
      ∃ st', save_if_interesting K W w64 (fuel + 1) st mem len .FSRV_RUN_CRASH =
          some (.returned 0 st') ∧
        st'.queue_top = st.queue_top ∧ st'.queued_items = st.queued_items ∧
        st'.saved_crashes = st.saved_crashes ∧ st'.files = st.files ∧
        st'.maps.virgin_bits = st.maps.virgin_bits := by
    intro hd
    obtain ⟨st', h1, h2, h3, h4, h5, h6, -⟩ := hdull hd
    refine ⟨st', by rw [hrun, h1], h3.trans hq, h4.trans hqi, h5.trans hsv, h6.trans hfiles, ?_⟩
    rw [h2]
    exact has_few_bits_dull w64 (classify_trace st).maps VirginMap.virgin_bits hTc hV hVb hd
  refine ⟨hfirst, ?_, ?_⟩
  · intro hd
    rcases hkeen hd with h | ⟨st', h⟩
    · exact Or.inl (by rw [hrun, h])
    · exact Or.inr ⟨st', by rw [hrun, h]⟩
  · intro st' hret
    by_contra hcon
    have hd : (has_few_bits w64 (classify_trace st).maps VirginMap.virgin_bits).1 = 0x10 ∨
        (has_few_bits w64 (classify_trace st).maps VirginMap.virgin_bits).1 = 0x00 := by
      by_contra hn
      exact hcon ⟨fun h => hn (Or.inl h), fun h => hn (Or.inr h)⟩
    obtain ⟨st0, h0, -⟩ := hfirst hd
    rw [h0] at hret
    simp at hret
theorem steadyRun_classified (crash_mode : Nat) (site : crash_site)
    (stack : Option (List Char)) :
    (classify_trace (mkFuzzer steadyRun crash_mode site stack)).maps = steadyRun := by
  show { steadyRun with trace_bits := classify_counts steadyRun.trace_bits } = steadyRun
  rw [classify_counts_eq_map steadyRun.trace_bits (by decide) (by decide)]
  decide

theorem steadyRun_class (crash_mode : Nat) (site : crash_site)
    (stack : Option (List Char)) :
    (has_few_bits true (classify_trace (mkFuzzer steadyRun crash_mode site stack)).maps
      VirginMap.virgin_bits).1 = 0x10 := by
  rw [steadyRun_classified]
  decide

/-- Instance of C22: tier 3 with the stored site `mytarget+0xdead` of the call
stack (the check passes) and a trace that shows no decrease (class `0x10`): the
call returns 0 and nothing is queued. -/
theorem crash_kept_only_if_interesting_witness :
    (4 : Nat) ≠ 0 ∧
    (has_few_bits true (classify_trace
      (mkFuzzer steadyRun 3 siteStart (some scenario4File))).maps
      VirginMap.virgin_bits).1 = 0x10 ∧
    ∃ st', save_if_interesting sampleConfig sampleWorld true (0 + 1)
        (mkFuzzer steadyRun 3 siteStart (some scenario4File)) [1, 2, 3, 4] 4
        .FSRV_RUN_CRASH = some (.returned 0 st') ∧
      st'.queue_top = some (sampleEntry 0) ∧ st'.queued_items = 3 ∧
      st'.saved_crashes = 2 ∧ st'.files = [] ∧
      st'.maps.virgin_bits = [0xFE, 0xFE, 0xFE, 0xFF, 0xFF, 0xFF, 0xFF, 0xFF] :=
  ⟨by decide, steadyRun_class 3 siteStart (some scenario4File),
    (crash_kept_only_if_interesting sampleConfig sampleWorld true 0
      (mkFuzzer steadyRun 3 siteStart (some scenario4File)) [1, 2, 3, 4] 4
      (by decide) (Or.inr (by decide)) (by decide) (by decide) (by decide)).1
      (Or.inl (steadyRun_class 3 siteStart (some scenario4File)))⟩

/-! ## Claim C31: the dirty flag of `has_few_bits` -/

theorem after_last_subset {α : Type} (p : α → Bool) (l : List α) :
    ∀ x ∈ after_last p l, x ∈ l := by
  induction l with
  | nil => intro x hx; exact hx
  | cons a as ih =>
    intro x hx
    unfold after_last at hx
    split_ifs at hx
    · exact List.mem_cons_of_mem _ (ih x hx)
    · exact List.mem_cons_of_mem _ hx
    · exact hx

/-- The crash site that `find_crash_site` returns is the empty one or that of an
eligible frame of the file. -/
theorem find_crash_site_frame (cfg : callstack_config) (target_path : List Char)
    (symbolize : List Char → Nat → Nat × Option (List Char))
    (call_stack_file : Option (List Char)) :
    find_crash_site cfg target_path symbolize call_stack_file = crash_site.empty ∨
    ∃ content fr, call_stack_file = some content ∧ fr ∈ frames_of cfg content ∧
      frame_eligible cfg target_path symbolize fr = true ∧
      find_crash_site cfg target_path symbolize call_stack_file =
        frame_site symbolize fr := by
  cases call_stack_file with
  | none => exact Or.inl rfl
  | some content =>
    rw [find_crash_site_eq]
    unfold first_eligible_after_last_blocked
    cases hf : (after_last (frame_blocked cfg target_path symbolize)
        (frames_of cfg content)).find? (frame_eligible cfg target_path symbolize) with
    | none => exact Or.inl rfl
    | some fr =>
      exact Or.inr ⟨content, fr, rfl,
        after_last_subset _ _ fr (List.mem_of_find?_eq_some hf),
        List.find?_some hf, rfl⟩

/-- C33: for every call-stack file (also one that cannot be read) and every
symbolizer, the triple that `find_crash_site` returns is either the empty one
(no symbol, no module, offset 0) or made of one frame of the file: the first
symbol reported for that frame (or none when the symbolizer named none), the
image path of that frame as module and the address of that frame as offset. So
if the module is absent then the symbol is absent and the offset is 0, and if
the symbol is present then the module is present. -/
theorem find_crash_site_not_partial (cfg : callstack_config) (target_path : List Char)
    (symbolize : List Char → Nat → Nat × Option (List Char))
    (call_stack_file : Option (List Char)) :
    (find_crash_site cfg target_path symbolize call_stack_file = ⟨none, none, 0⟩ ∨
      ∃ content fr, call_stack_file = some content ∧ fr ∈ frames_of cfg content ∧
        frame_eligible cfg target_path symbolize fr = true ∧
        find_crash_site cfg target_path symbolize call_stack_file =
          ⟨(symbolize fr.1 (frame_addr fr)).2, some fr.1, frame_addr fr⟩) ∧
    ((find_crash_site cfg target_path symbolize call_stack_file).module = none →
      (find_crash_site cfg target_path symbolize call_stack_file).symbol = none ∧
      (find_crash_site cfg target_path symbolize call_stack_file).offset = 0) ∧
    ((find_crash_site cfg target_path symbolize call_stack_file).symbol ≠ none →
      (find_crash_site cfg target_path symbolize call_stack_file).module ≠ none) := by
  have h := find_crash_site_frame cfg target_path symbolize call_stack_file
  refine ⟨h, ?_, ?_⟩
  · rcases h with h | ⟨content, fr, -, -, -, h⟩
    · rw [h]
      intro _
      exact ⟨rfl, rfl⟩
    · rw [h]
      intro hm
      exact absurd hm (by simp [frame_site])
  · rcases h with h | ⟨content, fr, -, -, -, h⟩
    · rw [h]
      intro hs
      exact absurd rfl hs
    · rw [h]
      intro _
      simp [frame_site]

/-! ## Claim C32: the passes of the `switch` of `save_if_interesting` -/

theorem save_hang_not_again (K : fuzz_config) (W : collaborators) (l : locals)
    (st : fuzzer) (f : fsrv_fault) (l' : locals) (st' : fuzzer) :
    save_hang K W l st ≠ .again f l' st' := by
  unfold save_hang
  cases describe_op K { st.describe with cur_time := W.get_cur_time st } 0 (name_room K) with
  | none => simp
  | some desc =>
    dsimp only
    split_ifs <;> simp

theorem ite_eq_cases {α : Type} (c : Prop) [Decidable c] (a b x : α)
    (h : (if c then a else b) = x) : (c ∧ a = x) ∨ (¬c ∧ b = x) := by
  by_cases hc : c
  · rw [if_pos hc] at h
    exact Or.inl ⟨hc, h⟩
  · rw [if_neg hc] at h
    exact Or.inr ⟨hc, h⟩

theorem tmout_case_again (K : fuzz_config) (W : collaborators) (w64 : Bool) (l : locals)
    (st : fuzzer) (f : fsrv_fault) (l' : locals) (st' : fuzzer)
    (h : tmout_case K W w64 l st = .again f l' st') : f ≠ .FSRV_RUN_TMOUT := by
  unfold tmout_case at h
  dsimp only at h
  rcases ite_eq_cases _ _ _ _ h with ⟨-, h⟩ | ⟨-, h⟩
  · exact switch_result.noConfusion h
  rcases ite_eq_cases _ _ _ _ h with ⟨-, h⟩ | ⟨-, h⟩
  · exact switch_result.noConfusion h
  rcases ite_eq_cases _ _ _ _ h with ⟨-, h⟩ | ⟨-, h⟩
  · rcases ite_eq_cases _ _ _ _ h with ⟨hc, h⟩ | ⟨-, h⟩
    · injection h with e1 e2 e3
      rw [← e1, hc]
      decide
    · rcases ite_eq_cases _ _ _ _ h with ⟨hn, h⟩ | ⟨-, h⟩
      · injection h with e1 e2 e3
        rw [← e1]
        exact hn
      · exact absurd h (save_hang_not_again K W _ _ f l' st')
  · exact absurd h (save_hang_not_again K W _ _ f l' st')

theorem switch_body_again (K : fuzz_config) (W : collaborators) (w64 : Bool)
    (fault : fsrv_fault) (l : locals) (st : fuzzer) (f : fsrv_fault) (l' : locals)
    (st' : fuzzer) (h : switch_body K W w64 fault l st = .again f l' st') :
    fault = .FSRV_RUN_TMOUT ∧ f ≠ .FSRV_RUN_TMOUT := by
  cases fault with
  | FSRV_RUN_TMOUT => exact ⟨rfl, tmout_case_again K W w64 l st f l' st' h⟩
  | FSRV_RUN_CRASH => simp [switch_body] at h
  | FSRV_RUN_ERROR => simp [switch_body] at h
  | other => simp [switch_body] at h

theorem dispatch_one (K : fuzz_config) (W : collaborators) (w64 : Bool)
    (fault : fsrv_fault) (l : locals) (st : fuzzer) (hf : fault ≠ .FSRV_RUN_TMOUT) :
    ∃ o, ∀ fuel, dispatch K W w64 (fuel + 1) fault l st = some o := by
  cases hb : switch_body K W w64 fault l st with
  | done o => exact ⟨o, fun fuel => by rw [dispatch, hb]⟩
  | again f l' st' => exact absurd (switch_body_again K W w64 fault l st f l' st' hb).1 hf
  | leave s => exact ⟨.returned 0 s, fun fuel => by rw [dispatch, hb]⟩

theorem dispatch_two (K : fuzz_config) (W : collaborators) (w64 : Bool)
    (fault : fsrv_fault) (l : locals) (st : fuzzer) :
    ∃ o, ∀ fuel, dispatch K W w64 (fuel + 2) fault l st = some o := by
  cases hb : switch_body K W w64 fault l st with
  | done o => exact ⟨o, fun fuel => by rw [dispatch, hb]⟩
  | again f l' st' =>
    obtain ⟨o, ho⟩ := dispatch_one K W w64 f l' st'
      (switch_body_again K W w64 fault l st f l' st' hb).2
    exact ⟨o, fun fuel => by rw [dispatch, hb]; exact ho fuel⟩
  | leave s => exact ⟨.returned 0 s, fun fuel => by rw [dispatch, hb]⟩

theorem save_if_interesting_two (K : fuzz_config) (W : collaborators) (w64 : Bool)
    (st : fuzzer) (mem : List Nat) (len : Nat) (fault : fsrv_fault) :
    ∃ o, ∀ fuel, save_if_interesting K W w64 (fuel + 2) st mem len fault = some o := by
  unfold save_if_interesting
  by_cases h1 : len = 0
  · exact ⟨.returned 0 st, fun _ => by rw [if_pos h1]⟩
  · by_cases h2 : fault = .FSRV_RUN_TMOUT ∧ st.afl_ignore_timeouts ≠ 0
    · exact ⟨.returned 0 st, fun _ => by rw [if_neg h1, if_pos h2]⟩
    · obtain ⟨o, ho⟩ := dispatch_two K W w64 fault
        ⟨mem, len, (path_frequency K W st).1, (path_frequency K W st).2.1, 0⟩
        (path_frequency K W st).2.2
      exact ⟨o, fun fuel => by rw [if_neg h1, if_neg h2]; exact ho fuel⟩

/-- C32: the loop `while (1) { switch (fault) ... }` of `save_if_interesting`
ends after at most two passes of the `switch`, for every fault, every state and
every behaviour of the functions it calls: with two passes or more allowed the
loop, and the whole call, end in one and the same result (a return or the end
of the process). A pass ends in `continue` only when its fault is a timeout, and
the fault of the next pass is then not a timeout; a pass for any other fault
ends the loop on its own. -/
theorem dispatch_at_most_twice (K : fuzz_config) (W : collaborators) (w64 : Bool)
    (fault : fsrv_fault) (l : locals) (st : fuzzer) (mem : List Nat) (len : Nat) :
    (∃ o, ∀ fuel, dispatch K W w64 (fuel + 2) fault l st = some o) ∧
    (∃ o, ∀ fuel, save_if_interesting K W w64 (fuel + 2) st mem len fault = some o) ∧
    (∀ f l' st', switch_body K W w64 fault l st = .again f l' st' →
      fault = .FSRV_RUN_TMOUT ∧ f ≠ .FSRV_RUN_TMOUT) ∧
    (fault ≠ .FSRV_RUN_TMOUT →
      ∃ o, ∀ fuel, dispatch K W w64 (fuel + 1) fault l st = some o) := by
  exact ⟨dispatch_two K W w64 fault l st, save_if_interesting_two K W w64 st mem len fault,
    switch_body_again K W w64 fault l st, dispatch_one K W w64 fault l st⟩

/-- Instance of C32: a timeout on a target with a short execution timeout, whose
second run (with the hang timeout) crashes. One pass of the `switch` does not
end the loop; with two or more passes it ends, in one and the same result. -/
theorem dispatch_at_most_twice_witness :
    (dispatch sampleConfig sampleWorld true 1 .FSRV_RUN_TMOUT sampleLocals
      shortTimeout).isNone = true ∧
    (∃ o, ∀ fuel, dispatch sampleConfig sampleWorld true (fuel + 2) .FSRV_RUN_TMOUT
      sampleLocals shortTimeout = some o) ∧
    (∃ o, ∀ fuel, save_if_interesting sampleConfig sampleWorld true (fuel + 2)
      shortTimeout [1, 2, 3, 4] 4 .FSRV_RUN_TMOUT = some o) :=
  ⟨by decide,
    (dispatch_at_most_twice sampleConfig sampleWorld true .FSRV_RUN_TMOUT sampleLocals
      shortTimeout [1, 2, 3, 4] 4).1,
    (dispatch_at_most_twice sampleConfig sampleWorld true .FSRV_RUN_TMOUT sampleLocals
      shortTimeout [1, 2, 3, 4] 4).2.1⟩

end IgorFuzz
